import Mathlib

/-!
Shallow embedding of `json.h` (a single-header JSON library: arena allocator,
tagged-pointer value model, builder API, recursive-descent parser and
stringifier).  The embedding instantiates the platform as a typical 64-bit
machine: `sizeof(void *) = 8`, so `JSON__ALIGNMENT = 8`, `size_t` is 64 bits,
and the numeric type `JsonNumber` is `int32_t`, modelled as `Int` with explicit
range checks mirroring the `__builtin_*_overflow` calls.  Byte buffers (the
arena's backing memory and the stringify output buffer) are modelled as
`List Nat`, a store of byte cells; a C pointer `buffer + off` into such a
store is modelled by passing the list together with the offset `off`, and a
store write `buffer[i] = b` is `List.set i b` (writes beyond the end of the
modelled store fall outside the memory the C code may touch and are dropped).
C strings are modelled as their NUL-free byte lists.
-/

/-- Alignment constant `JSON__ALIGNMENT = (sizeof(void *) < 4 ? 4 : sizeof(void *))`,
on the modelled 64-bit platform: 8. -/
def JSON__ALIGNMENT : Nat := 8

/-- Result of the C loop `while (size & (JSON__ALIGNMENT - 1)) size += 1`:
`size` rounded up to the next multiple of the alignment. -/
def json__align_up (n : Nat) : Nat :=
  n + (JSON__ALIGNMENT - n % JSON__ALIGNMENT) % JSON__ALIGNMENT

/-- The struct `JsonArena`: backing byte buffer, usable size, bump offset
(`heap`) and upper limit (`stack`, set to `size` by `json_arena_init` and
never moved afterwards). -/
structure JsonArena where
  buffer : List Nat
  size : Nat
  heap : Nat
  stack : Nat
deriving DecidableEq

/-- The function `json_arena_init`.  The C code first advances the base pointer to an
aligned address (pointer alignment has no counterpart on a `List Nat` store, so the
model takes the base as already aligned), fails if fewer than `JSON__ALIGNMENT`
bytes remain, and truncates the length down to a multiple of the alignment. -/
def json_arena_init (buffer : List Nat) (length : Nat) : JsonArena :=
  if length < JSON__ALIGNMENT then
    { buffer := [], size := 0, heap := 0, stack := 0 }
  else
    let len := length - length % JSON__ALIGNMENT
    { buffer := buffer, size := len, heap := 0, stack := len }

/-- The function `json_arena_alloc`.  Rounds the size up to the alignment with a
64-bit overflow check on the incrementing loop, fails if the rounded size
exceeds `stack - heap`, otherwise returns the offset `heap` (the C code returns
the pointer `buffer + heap`) and advances `heap`. -/
def json_arena_alloc (arena : JsonArena) (size : Nat) : JsonArena × Option Nat :=
  if 2 ^ 64 ≤ json__align_up size ∧ size % JSON__ALIGNMENT ≠ 0 then (arena, none)
  else
    let size := json__align_up size
    if arena.stack - arena.heap < size then (arena, none)
    else ({ arena with heap := arena.heap + size }, some arena.heap)

/-- The function `json_arena_save`: returns the current heap offset. -/
def json_arena_save (arena : JsonArena) : Nat :=
  arena.heap

/-- The function `json_arena_restore`: resets the heap offset to a saved position. -/
def json_arena_restore (arena : JsonArena) (position : Nat) : JsonArena :=
  { arena with heap := position }

/-! ### Word-level value model

`JsonValue` is `uintptr_t`, modelled as `Nat`.  The two low bits are the tag,
the reserved words 0..3 are the scalar constants. -/

def JSON_UNDEFINED : Nat := 0
def JSON_TRUE : Nat := 1
def JSON_FALSE : Nat := 2
def JSON_NULL : Nat := 3

/-- The function `json_is_null`. -/
def json_is_null (v : Nat) : Bool := v == JSON_NULL

/-- The function `json_is_boolean`. -/
def json_is_boolean (v : Nat) : Bool := v == JSON_TRUE || v == JSON_FALSE

/-- The function `json_is_true`. -/
def json_is_true (v : Nat) : Bool := v == JSON_TRUE

/-- The function `json_is_false`. -/
def json_is_false (v : Nat) : Bool := v == JSON_FALSE

/-- The function `json_is_number`: `(v & 3) == JSON_TRUE && v > 3`. -/
def json_is_number (v : Nat) : Bool := v &&& 3 == JSON_TRUE && decide (3 < v)

/-- The function `json_is_string`: `(v & 3) == JSON_UNDEFINED && v > 3`. -/
def json_is_string (v : Nat) : Bool := v &&& 3 == JSON_UNDEFINED && decide (3 < v)

/-- The function `json_is_object`: `(v & 3) == JSON_FALSE && v > 3`. -/
def json_is_object (v : Nat) : Bool := v &&& 3 == JSON_FALSE && decide (3 < v)

/-- The function `json_is_array`: `(v & 3) == JSON_NULL && v > 3`. -/
def json_is_array (v : Nat) : Bool := v &&& 3 == JSON_NULL && decide (3 < v)

/-- The function `json_string`: rejects a null or not 4-byte aligned address,
otherwise tags it with the String tag (`| JSON_UNDEFINED`). -/
def json_string (s : Nat) : Nat :=
  if s == 0 || s &&& 3 != 0 then JSON_UNDEFINED else s ||| JSON_UNDEFINED

/-- The function `json_number_extern`: rejects only a null address, otherwise
tags it with the Number tag (`| JSON_TRUE`); unlike `json_string` there is no
alignment test. -/
def json_number_extern (number : Nat) : Nat :=
  if number == 0 then JSON_UNDEFINED else number ||| JSON_TRUE

/-! ### Tree-level value model

The observable value graph the library builds in an arena: the word
`JSON_UNDEFINED` is `JVal.undef`; a Number word carries an `int32_t`
payload; a String word points at NUL-terminated bytes; Objects and
Arrays are the singly-linked entry/element lists `struct JsonObject` /
`struct JsonArray`, modelled as their ordered member lists. -/

mutual
inductive JVal : Type where
  | undef : JVal
  | jnull : JVal
  | jtrue : JVal
  | jfalse : JVal
  | num (n : Int) : JVal
  | str (s : List Nat) : JVal
  | obj (ms : JMembers) : JVal
  | arr (es : JElems) : JVal
deriving DecidableEq

inductive JMembers : Type where
  | nil : JMembers
  | cons (key : List Nat) (value : JVal) (rest : JMembers) : JMembers
deriving DecidableEq

inductive JElems : Type where
  | nil : JElems
  | cons (value : JVal) (rest : JElems) : JElems
deriving DecidableEq
end

/-- Linking a fresh entry at the tail of an object's entry list
(the `o->last->next = e; o->last = e` pointer surgery). -/
def JMembers.snoc : JMembers → List Nat → JVal → JMembers
  | .nil, k, v => .cons k v .nil
  | .cons k0 v0 rest, k, v => .cons k0 v0 (rest.snoc k v)

/-- Linking a fresh element at the tail of an array's element list. -/
def JElems.snoc : JElems → JVal → JElems
  | .nil, v => .cons v .nil
  | .cons v0 rest, v => .cons v0 (rest.snoc v)

/-- Number of entries of an object's entry list (the count an iterator walk sees). -/
def JMembers.count : JMembers → Nat
  | .nil => 0
  | .cons _ _ rest => 1 + rest.count

/-- Number of entries whose key equals `k` byte-wise. -/
def JMembers.countKey : JMembers → List Nat → Nat
  | .nil, _ => 0
  | .cons k0 _ rest, k => (if k0 = k then 1 else 0) + rest.countKey k

/-- The test `strcmp(k, key) == 0` on NUL-free byte lists: byte-wise equality. -/
def json__streq : List Nat → List Nat → Bool
  | [], [] => true
  | a :: s, b :: t => a == b && json__streq s t
  | _, _ => false

/-- The function `json_object_new`: allocates the 16-byte `struct JsonObject`
header (two pointers) and nulls its `first`/`last` fields.  The Bool is the C
result: `true` for a tagged object pointer, `false` for `JSON_UNDEFINED`
(allocation failure); the fresh object's entry list is empty. -/
def json_object_new (arena : JsonArena) : JsonArena × Bool :=
  match json_arena_alloc arena 16 with
  | (a, none) => (a, false)
  | (a, some _) => (a, true)

/-- The function `json_array_new`: allocates the 16-byte `struct JsonArray` header.
Result convention as in `json_object_new`. -/
def json_array_new (arena : JsonArena) : JsonArena × Bool :=
  match json_arena_alloc arena 16 with
  | (a, none) => (a, false)
  | (a, some _) => (a, true)

/-- The function `json_number_new`: allocates a 4-byte `JsonNumber` cell (rounded
to 8 by the allocator), stores the number, and tags the (aligned) pointer with
the Number tag.  `none` models the `JSON_UNDEFINED` failure result. -/
def json_number_new (arena : JsonArena) (number : Int) : JsonArena × Option JVal :=
  match json_arena_alloc arena 4 with
  | (a, none) => (a, none)
  | (a, some _) => (a, some (.num number))

/-- The function `json_object_append`.  `objOk` is `json_is_object(object)` (false
when the object word is `JSON_UNDEFINED` or otherwise not an object); a model
key is a byte list, never a null pointer.  Allocates the 24-byte
`struct JsonObjectEntry` (three words) and links it at the tail; `none` models
the `-1` error return. -/
def json_object_append (arena : JsonArena) (objOk : Bool) (ms : JMembers)
    (key : List Nat) (value : JVal) : JsonArena × Option JMembers :=
  if !objOk then (arena, none)
  else
    match json_arena_alloc arena 24 with
    | (a, none) => (a, none)
    | (a, some _) => (a, some (ms.snoc key value))

/-- The scan loop inside `json_object_set`: walk the entries in insertion order;
at the first entry whose key equals `key` byte-wise, overwrite that entry's
`value` field in place (`j->value = value`) and stop; `none` when no entry
matches. -/
def json__object_set_scan : JMembers → List Nat → JVal → Option JMembers
  | .nil, _, _ => none
  | .cons k0 v0 rest, key, value =>
    if json__streq k0 key then some (.cons k0 value rest)
    else
      match json__object_set_scan rest key value with
      | some rest2 => some (.cons k0 v0 rest2)
      | none => none

/-- The function `json_object_set`: O(n) scan for an existing entry with equal key,
update in place if found (no allocation), else fall through to
`json_object_append`. -/
def json_object_set (arena : JsonArena) (objOk : Bool) (ms : JMembers)
    (key : List Nat) (value : JVal) : JsonArena × Option JMembers :=
  if !objOk then (arena, none)
  else
    match json__object_set_scan ms key value with
    | some ms2 => (arena, some ms2)
    | none => json_object_append arena objOk ms key value

/-- Iterator walk inside `json_object_get`: first entry with equal key wins. -/
def json__object_get_loop : JMembers → List Nat → JVal
  | .nil, _ => .undef
  | .cons k0 v0 rest, key =>
    if json__streq k0 key then v0 else json__object_get_loop rest key

/-- The function `json_object_get`: `JSON_UNDEFINED` unless `object` is an object,
else the value of the first entry with byte-wise equal key. -/
def json_object_get (objOk : Bool) (ms : JMembers) (key : List Nat) : JVal :=
  if !objOk then .undef else json__object_get_loop ms key

/-- The function `json_array_push`: allocates the 16-byte `struct JsonArrayElement`
and links it at the tail.  `arrOk` is `json_is_array(array)`. -/
def json_array_push (arena : JsonArena) (arrOk : Bool) (es : JElems)
    (value : JVal) : JsonArena × Option JElems :=
  if !arrOk then (arena, none)
  else
    match json_arena_alloc arena 16 with
    | (a, none) => (a, none)
    | (a, some _) => (a, some (es.snoc value))

/-! ### Stringifier

Each C stringify function receives a buffer pointer and a remaining capacity;
the model passes the whole store `buf`, the pointer offset `off`, and the
capacity `len`.  The returned `Nat` is the C return value: bytes used
excluding the NUL terminator, `0` on error. -/

/-- Sequential store of a byte list at an offset (the repeated
`buffer[n++] = c` / `memcpy` pattern). -/
def writeBytes (buf : List Nat) (off : Nat) : List Nat → List Nat
  | [] => buf
  | b :: bs => writeBytes (buf.set off b) (off + 1) bs

/-- The function `json__write`: bounds-checked `memcpy` of `text` plus a NUL
terminator; on overflow writes a single NUL marker at the start (when the
capacity is nonzero) and reports 0. -/
def json__write (text : List Nat) (buf : List Nat) (off len : Nat) : Nat × List Nat :=
  if len ≤ text.length then (0, if 0 < len then buf.set off 0 else buf)
  else (text.length, writeBytes buf off (text ++ [0]))

/-- The table `json__hex[16] = "0123456789abcdef"` as bytes. -/
def json__hex : List Nat := [48, 49, 50, 51, 52, 53, 54, 55, 56, 57, 97, 98, 99, 100, 101, 102]

/-- The character loop of `json__stringify_string` (`while (*string)`), with the
closing-quote/terminator writes after it.  `n` counts bytes already produced
(starting from 1 for the opening quote).  The C loop stops at the string's NUL
terminator; the model iterates the NUL-free byte list.  The two writes after
the loop are unguarded in C; the loop's capacity checks keep them in range. -/
def json__stringify_string_loop : List Nat → List Nat → Nat → Nat → Nat → Nat × List Nat
  | [], buf, off, n, _len =>
    (n + 1, (buf.set (off + n) 34).set (off + n + 1) 0)
  | c :: s, buf, off, n, len =>
    if c == 34 then
      if len < n + 4 then (0, buf)
      else json__stringify_string_loop s ((buf.set (off + n) 92).set (off + n + 1) 34) off (n + 2) len
    else if c == 92 then
      if len < n + 4 then (0, buf)
      else json__stringify_string_loop s ((buf.set (off + n) 92).set (off + n + 1) 92) off (n + 2) len
    else if c == 13 then
      if len < n + 4 then (0, buf)
      else json__stringify_string_loop s ((buf.set (off + n) 92).set (off + n + 1) 114) off (n + 2) len
    else if c == 10 then
      if len < n + 4 then (0, buf)
      else json__stringify_string_loop s ((buf.set (off + n) 92).set (off + n + 1) 110) off (n + 2) len
    else if c == 9 then
      if len < n + 4 then (0, buf)
      else json__stringify_string_loop s ((buf.set (off + n) 92).set (off + n + 1) 116) off (n + 2) len
    else if c &&& 255 < 32 then
      if len < n + 8 then (0, buf)
      else
        json__stringify_string_loop s
          (((((buf.set (off + n) 92).set (off + n + 1) 117).set (off + n + 2) 48).set
              (off + n + 3) 48).set (off + n + 4) (json__hex.getD (c >>> 4 &&& 15) 0)
            |>.set (off + n + 5) (json__hex.getD (c &&& 15) 0))
          off (n + 6) len
    else
      if len < n + 4 then (0, buf)
      else json__stringify_string_loop s (buf.set (off + n) c) off (n + 1) len

/-- The function `json__stringify_string`: requires capacity for at least the two
quotes and the terminator, writes the opening quote, then runs the loop. -/
def json__stringify_string (s : List Nat) (buf : List Nat) (off len : Nat) : Nat × List Nat :=
  if len < 3 then (0, buf)
  else json__stringify_string_loop s (buf.set off 34) off 1 len

/-- The in-place byte-swap loop `json__reverse(buffer, length)`: reverses the
`n` bytes at offset `off` of the store. -/
def json__reverse (buf : List Nat) (off n : Nat) : List Nat :=
  buf.take off ++ ((buf.drop off).take n).reverse ++ buf.drop (off + n)

/-- Overflow-checked `int32_t` addition (`json__builtin_add_overflow`). -/
def json__add_ovf (x y : Int) : Option Int :=
  if -(2 ^ 31) ≤ x + y ∧ x + y < 2 ^ 31 then some (x + y) else none

/-- Overflow-checked `int32_t` subtraction (`json__builtin_sub_overflow`). -/
def json__sub_ovf (x y : Int) : Option Int :=
  if -(2 ^ 31) ≤ x - y ∧ x - y < 2 ^ 31 then some (x - y) else none

/-- Overflow-checked `int32_t` multiplication (`json__builtin_mul_overflow`). -/
def json__mul_ovf (x y : Int) : Option Int :=
  if -(2 ^ 31) ≤ x * y ∧ x * y < 2 ^ 31 then some (x * y) else none

/-- The digit-emitting do-while loop of `json__stringify_number`
(`do { buffer[n++] = '0' + number % 10; number /= 10; } while (number > 0)`).
At this point `number` is never negative, so it runs on `Nat`; `fuel` only
makes the recursion on `number / 10` structural and any `fuel > m` computes
the loop. -/
def json__digits : Nat → Nat → List Nat → Nat → Nat → Nat → Nat × List Nat
  | 0, _, buf, _, _, _ => (0, buf)
  | fuel + 1, m, buf, off, n, len =>
    if len < n + 2 then (0, buf)
    else
      let buf := buf.set (off + n) (48 + m % 10)
      if 0 < m / 10 then json__digits fuel (m / 10) buf off (n + 1) len
      else (n + 1, buf)

/-- The function `json__stringify_number`.  A negative number first emits `-` and
advances the buffer pointer (`off + 1`, capacity `len - 1`); negation uses the
checked subtraction `0 - number`, and when that overflows (the minimum
`int32_t`) the last digit is computed by modular arithmetic on the
still-negative value before the digit loop runs on the remaining magnitude.
After the loop the digits are reversed in place and NUL-terminated. -/
def json__stringify_number (number : Int) (buf : List Nat) (off len : Nat) : Nat × List Nat :=
  if number < 0 then
    if len < 2 then (0, buf)
    else
      let buf := buf.set off 45
      match json__sub_ovf 0 number with
      | some num =>
        match json__digits (num.toNat + 1) num.toNat buf (off + 1) 0 (len - 1) with
        | (0, b) => (0, b)
        | (n, b) => (n + 1, (json__reverse b (off + 1) n).set (off + 1 + n) 0)
      | none =>
        let number := number + 1
        let buf := buf.set (off + 1) (49 + -number % 10).toNat
        let m := (-number / 10).toNat
        match json__digits (m + 1) m buf (off + 1) 1 (len - 1) with
        | (0, b) => (0, b)
        | (n, b) => (n + 1, (json__reverse b (off + 1) n).set (off + 1 + n) 0)
  else
    match json__digits (number.toNat + 1) number.toNat buf off 0 len with
    | (0, b) => (0, b)
    | (n, b) => (n, (json__reverse b off n).set (off + n) 0)

/-- The common failure epilogue of `json_stringify`: when the selected
stringifier reported 0, zero the first byte (when the capacity is nonzero)
and return 0. -/
def json__epilogue (off len : Nat) (r : Nat × List Nat) : Nat × List Nat :=
  if r.1 == 0 then (0, if 0 < len then r.2.set off 0 else r.2) else r

mutual
/-- The function `json_stringify`: dispatch over the value's classification
(`JSON_NULL` / `JSON_TRUE` / `JSON_FALSE` literals, then the four pointer
classes; `JSON_UNDEFINED` matches none of them), then the common failure
epilogue.  The object/array bodies (`json__stringify_object` /
`json__stringify_array`, stated as standalone wrappers below) are spelled
out here so the mutual recursion stays structural. -/
def json_stringify : JVal → List Nat → Nat → Nat → Nat × List Nat
  | .jnull, buf, off, len => json__epilogue off len (json__write [110, 117, 108, 108] buf off len)
  | .jtrue, buf, off, len => json__epilogue off len (json__write [116, 114, 117, 101] buf off len)
  | .jfalse, buf, off, len =>
    json__epilogue off len (json__write [102, 97, 108, 115, 101] buf off len)
  | .num number, buf, off, len => json__epilogue off len (json__stringify_number number buf off len)
  | .str s, buf, off, len => json__epilogue off len (json__stringify_string s buf off len)
  | .obj ms, buf, off, len =>
    json__epilogue off len
      (if len < 3 then (0, buf) else json__stringify_members ms (buf.set off 123) off 1 len)
  | .arr es, buf, off, len =>
    json__epilogue off len
      (if len < 3 then (0, buf) else json__stringify_elems es (buf.set off 91) off 1 len)
  | .undef, buf, off, len => json__epilogue off len (0, buf)

/-- The iterator loop of `json__stringify_object`, plus the closing-brace and
terminator writes after it.  Writes a comma before every entry except the
first (`n > 1`), then the key, a colon, and the entry's value. -/
def json__stringify_members : JMembers → List Nat → Nat → Nat → Nat → Nat × List Nat
  | .nil, buf, off, n, len =>
    if len < n + 2 then (0, buf)
    else (n + 1, (buf.set (off + n) 125).set (off + n + 1) 0)
  | .cons k v rest, buf, off, n, len =>
    let sep : Option (Nat × List Nat) :=
      if 1 < n then
        if len < n + 6 then none else some (n + 1, buf.set (off + n) 44)
      else some (n, buf)
    match sep with
    | none => (0, buf)
    | some (n, buf) =>
      match json__stringify_string k buf (off + n) (len - n) with
      | (0, b) => (0, b)
      | (l, b) =>
        if len < n + l + 4 then (0, b)
        else
          match json_stringify v (b.set (off + n + l) 58) (off + n + l + 1) (len - (n + l + 1)) with
          | (0, b2) => (0, b2)
          | (l2, b2) => json__stringify_members rest b2 off (n + l + 1 + l2) len

/-- The iterator loop of `json__stringify_array`, plus the closing-bracket and
terminator writes after it. -/
def json__stringify_elems : JElems → List Nat → Nat → Nat → Nat → Nat × List Nat
  | .nil, buf, off, n, len =>
    if len < n + 2 then (0, buf)
    else (n + 1, (buf.set (off + n) 93).set (off + n + 1) 0)
  | .cons v rest, buf, off, n, len =>
    let sep : Option (Nat × List Nat) :=
      if 1 < n then
        if len < n + 4 then none else some (n + 1, buf.set (off + n) 44)
      else some (n, buf)
    match sep with
    | none => (0, buf)
    | some (n, buf) =>
      match json_stringify v buf (off + n) (len - n) with
      | (0, b) => (0, b)
      | (l, b) => json__stringify_elems rest b off (n + l) len
end

/-- The function `json__stringify_object`: capacity check, opening brace, then the
iterator loop over the entries (this is the body inlined in `json_stringify`'s
object case). -/
def json__stringify_object (ms : JMembers) (buf : List Nat) (off len : Nat) : Nat × List Nat :=
  if len < 3 then (0, buf)
  else json__stringify_members ms (buf.set off 123) off 1 len

/-- The function `json__stringify_array`: capacity check, opening bracket, then the
iterator loop over the elements (the body inlined in `json_stringify`'s array
case). -/
def json__stringify_array (es : JElems) (buf : List Nat) (off len : Nat) : Nat × List Nat :=
  if len < 3 then (0, buf)
  else json__stringify_elems es (buf.set off 91) off 1 len

/-- The per-entry tail of the object iterator loop (everything after the
optional comma): key string, colon, value, then the remaining entries.
`json__stringify_members`'s cons case reduces to this once the separator is
resolved. -/
def json__members_tail (k : List Nat) (v : JVal) (rest : JMembers)
    (buf : List Nat) (off n len : Nat) : Nat × List Nat :=
  match json__stringify_string k buf (off + n) (len - n) with
  | (0, b) => (0, b)
  | (l, b) =>
    if len < n + l + 4 then (0, b)
    else
      match json_stringify v (b.set (off + n + l) 58) (off + n + l + 1) (len - (n + l + 1)) with
      | (0, b2) => (0, b2)
      | (l2, b2) => json__stringify_members rest b2 off (n + l + 1 + l2) len

/-- The per-element tail of the array iterator loop (everything after the
optional comma): the element's value, then the remaining elements. -/
def json__elems_tail (v : JVal) (rest : JElems)
    (buf : List Nat) (off n len : Nat) : Nat × List Nat :=
  match json_stringify v buf (off + n) (len - n) with
  | (0, b) => (0, b)
  | (l, b) => json__stringify_elems rest b off (n + l) len

/-! ### Rendered text

Pure descriptions of the byte sequences the stringifier produces, used to
state its correctness and to feed the parser theorems. -/

/-- The escape the string stringifier emits for one byte. -/
def json__escape_byte (c : Nat) : List Nat :=
  if c == 34 then [92, 34]
  else if c == 92 then [92, 92]
  else if c == 13 then [92, 114]
  else if c == 10 then [92, 110]
  else if c == 9 then [92, 116]
  else if c &&& 255 < 32 then
    [92, 117, 48, 48, json__hex.getD (c >>> 4 &&& 15) 0, json__hex.getD (c &&& 15) 0]
  else [c]

/-- Concatenated escapes of a byte list. -/
def escBytes : List Nat → List Nat
  | [] => []
  | c :: s => json__escape_byte c ++ escBytes s

/-- Rendered string: quote, escaped bytes, quote. -/
def renderStr (s : List Nat) : List Nat := 34 :: (escBytes s ++ [34])

/-- Fueled most-significant-first decimal digits; any `fuel > m` computes them. -/
def natDigitsF : Nat → Nat → List Nat
  | 0, _ => []
  | fuel + 1, m => if m < 10 then [48 + m] else natDigitsF fuel (m / 10) ++ [48 + m % 10]

/-- Decimal digit bytes of `m`, most significant first (never empty). -/
def natDigits (m : Nat) : List Nat := natDigitsF (m + 1) m

/-- Rendered number: optional minus sign, then the decimal digits of the magnitude. -/
def renderNum (n : Int) : List Nat := (if n < 0 then [45] else []) ++ natDigits n.natAbs

mutual
/-- The byte sequence a successful `json_stringify` writes (defined for the
serializable values; `undef` never stringifies and renders as the empty list). -/
def render : JVal → List Nat
  | .undef => []
  | .jnull => [110, 117, 108, 108]
  | .jtrue => [116, 114, 117, 101]
  | .jfalse => [102, 97, 108, 115, 101]
  | .num n => renderNum n
  | .str s => renderStr s
  | .obj ms => 123 :: (renderMembersL ms ++ [125])
  | .arr es => 91 :: (renderElemsL es ++ [93])

/-- Rendered members of an object, without a comma before the first. -/
def renderMembersL : JMembers → List Nat
  | .nil => []
  | .cons k v rest => renderStr k ++ 58 :: (render v ++ renderMemberSep rest)

/-- Rendered members of an object, each preceded by its comma. -/
def renderMemberSep : JMembers → List Nat
  | .nil => []
  | .cons k v rest => 44 :: (renderStr k ++ 58 :: (render v ++ renderMemberSep rest))

/-- Rendered elements of an array, without a comma before the first. -/
def renderElemsL : JElems → List Nat
  | .nil => []
  | .cons v rest => render v ++ renderElemSep rest

/-- Rendered elements of an array, each preceded by its comma. -/
def renderElemSep : JElems → List Nat
  | .nil => []
  | .cons v rest => 44 :: (render v ++ renderElemSep rest)
end

/-! ### Parser

Each C parse function takes the input position (`const char *json`) and the
arena, returns the position after the parsed value or the null position on
failure, and writes the decoded value through `result`.  The model passes the
remaining input as a byte list (the C string's NUL terminator is the end of
the list; `List.headD 0` is `*json`), threads the arena through, and returns
`none` for the null position.  The mutual recursion is made structural on a
fuel argument; a failing fuel-out leaves the arena state as a failure would. -/

/-- The function `json__skip_whitespace` (the null-pointer guard has no
counterpart for a list input). -/
def json__skip_whitespace : List Nat → List Nat
  | [] => []
  | c :: s =>
    if c == 32 || c == 9 || c == 13 || c == 10 then json__skip_whitespace s
    else c :: s

/-- The function `json__parse_simple`: exact keyword match for `true`, `false`,
`null`; the C character-by-character comparisons stop at the first mismatch,
so they never read past the terminator. -/
def json__parse_simple : List Nat → Option (List Nat × JVal)
  | 116 :: 114 :: 117 :: 101 :: rest => some (rest, .jtrue)
  | 102 :: 97 :: 108 :: 115 :: 101 :: rest => some (rest, .jfalse)
  | 110 :: 117 :: 108 :: 108 :: rest => some (rest, .jnull)
  | _ => none

/-- Escape decoding switch inside `json__parse_string`'s loop (the fixed escape
set; everything else, including `\u`, hits the failing default). -/
def json__unescape (e : Nat) : Option Nat :=
  if e == 34 then some 34
  else if e == 92 then some 92
  else if e == 47 then some 47
  else if e == 116 then some 9
  else if e == 114 then some 13
  else if e == 110 then some 10
  else if e == 98 then some 8
  else if e == 102 then some 12
  else none

/-- The character loop of `json__parse_string`, decoding into the arena at
`heap + l`: stop at the closing quote (then NUL-terminate, align `l + 1`
upward and commit the heap), reject raw control characters (the input's end,
`*json == 0`, is one), check capacity before each byte, decode the escape
set.  The committed result is read back from the arena store (the C code
returns the pointer `buffer + heap`). -/
def json__parse_string_loop : List Nat → JsonArena → Nat → JsonArena × Option (List Nat × List Nat)
  | [], a, _ => (a, none)
  | c :: s, a, l =>
    if c == 34 then
      let buf := a.buffer.set (a.heap + l) 0
      let l2 := json__align_up (l + 1)
      if a.stack < a.heap + l2 then ({ a with buffer := buf }, none)
      else ({ a with buffer := buf, heap := a.heap + l2 }, some (s, (buf.drop a.heap).take l))
    else if c &&& 255 < 32 then (a, none)
    else if a.stack < a.heap + l + 2 then (a, none)
    else if c == 92 then
      match s with
      | [] => (a, none)
      | e :: s2 =>
        match json__unescape e with
        | none => (a, none)
        | some d =>
          json__parse_string_loop s2 { a with buffer := a.buffer.set (a.heap + l) d } (l + 1)
    else json__parse_string_loop s { a with buffer := a.buffer.set (a.heap + l) c } (l + 1)

/-- The function `json__parse_string`: entry capacity check for the terminator,
step over the opening quote (unchecked in C), then the loop. -/
def json__parse_string (s : List Nat) (a : JsonArena) : JsonArena × Option (List Nat × List Nat) :=
  if a.stack < a.heap + 1 then (a, none)
  else json__parse_string_loop (s.drop 1) a 0

/-- The function `json__is_digit`. -/
def json__is_digit (c : Nat) : Bool := 48 ≤ c && c ≤ 57

/-- The accumulation loop of `json__parse_number`: while the next character is a
digit, multiply by 10 and add (or, for a negative literal, subtract) the
digit, each step overflow-checked; stops at the first non-digit, returning
the position and the accumulated `int32_t`. -/
def json__parse_number_loop : List Nat → Int → Bool → Option (List Nat × Int)
  | [], n, _ => some ([], n)
  | c :: s, n, negative =>
    if json__is_digit c then
      match json__mul_ovf n 10 with
      | none => none
      | some n2 =>
        match (if negative then json__sub_ovf n2 ((c : Int) - 48)
               else json__add_ovf n2 ((c : Int) - 48)) with
        | none => none
        | some n3 => json__parse_number_loop s n3 negative
    else some (c :: s, n)

/-- The function `json__parse_number`: optional `+` or `-` sign, at least one
digit, the checked accumulation loop, then `json_number_new` into the arena
(an allocation failure is a parse failure). -/
def json__parse_number (s : List Nat) (a : JsonArena) : JsonArena × Option (List Nat × JVal) :=
  let negative := s.headD 0 == 45
  let s1 := if s.headD 0 == 43 || s.headD 0 == 45 then s.drop 1 else s
  if !json__is_digit (s1.headD 0) then (a, none)
  else
    match json__parse_number_loop s1 0 negative with
    | none => (a, none)
    | some (rest, n) =>
      match json_number_new a n with
      | (a2, none) => (a2, none)
      | (a2, some v) => (a2, some (rest, v))

/-- The function `json__parse_string_value`: parse the string into the arena, then
tag the result pointer `arena->buffer + heap` with `json_string`.  With the
8-aligned arena base of `json_arena_init`, that pointer is null-free and its
alignment test reduces to `heap % 4 == 0` on the pre-parse heap offset. -/
def json__parse_string_value (s : List Nat) (a : JsonArena) : JsonArena × Option (List Nat × JVal) :=
  match json__parse_string s a with
  | (a2, none) => (a2, none)
  | (a2, some (rest, bytes)) =>
    (a2, some (rest, if a.heap % 4 == 0 then .str bytes else .undef))

mutual
/-- The function `json_parse`: dispatch on the first character of the input (the
C `switch (*json)`; no whitespace is skipped here), to the object, array,
string, keyword or number parser; any other character is the failing
default. -/
def json_parse : Nat → List Nat → JsonArena → JsonArena × Option (List Nat × JVal)
  | 0, _, a => (a, none)
  | fuel + 1, s, a =>
    match s.headD 0 with
    | 123 => json__parse_object fuel s a
    | 91 => json__parse_array fuel s a
    | 34 => json__parse_string_value s a
    | 116 => (a, json__parse_simple s)
    | 102 => (a, json__parse_simple s)
    | 110 => (a, json__parse_simple s)
    | 43 => json__parse_number s a
    | 45 => json__parse_number s a
    | 48 => json__parse_number s a
    | 49 => json__parse_number s a
    | 50 => json__parse_number s a
    | 51 => json__parse_number s a
    | 52 => json__parse_number s a
    | 53 => json__parse_number s a
    | 54 => json__parse_number s a
    | 55 => json__parse_number s a
    | 56 => json__parse_number s a
    | 57 => json__parse_number s a
    | _ => (a, none)

/-- The function `json__parse_object`: checkpoint the arena, allocate the empty
object header (an allocation failure is not checked here: the object is then
`JSON_UNDEFINED` and a later append fails), skip the opening brace and
whitespace, and run the member loop. -/
def json__parse_object : Nat → List Nat → JsonArena → JsonArena × Option (List Nat × JVal)
  | 0, _, a => (a, none)
  | fuel + 1, s, a =>
    let position := json_arena_save a
    match json_object_new a with
    | (a1, objOk) =>
      json__parse_members fuel (json__skip_whitespace (s.drop 1)) a1 position objOk .nil true

/-- The `while (1)` member loop of `json__parse_object`: on `}` succeed with the
object built so far (the `JSON_UNDEFINED` word when the header allocation had
failed); otherwise require a comma except before the first member, parse a
key string, a colon, a value, and append; every failure path restores the
arena to the loop's checkpoint and returns the null position. -/
def json__parse_members :
    Nat → List Nat → JsonArena → Nat → Bool → JMembers → Bool →
      JsonArena × Option (List Nat × JVal)
  | 0, _, a, position, _, _, _ => (json_arena_restore a position, none)
  | fuel + 1, s, a, position, objOk, ms, start =>
    if s.headD 0 == 125 then
      (a, some (s.drop 1, if objOk then .obj ms else .undef))
    else
      let afterSep : Option (List Nat) :=
        if start then some s
        else if s.headD 0 == 44 then some (json__skip_whitespace (s.drop 1))
        else none
      match afterSep with
      | none => (json_arena_restore a position, none)
      | some s1 =>
        match json__parse_string s1 a with
        | (a2, none) => (json_arena_restore a2 position, none)
        | (a2, some (s2, k)) =>
          let s3 := json__skip_whitespace s2
          if s3.headD 0 != 58 then (json_arena_restore a2 position, none)
          else
            match json_parse fuel (json__skip_whitespace (s3.drop 1)) a2 with
            | (a3, none) => (json_arena_restore a3 position, none)
            | (a3, some (s4, v)) =>
              match json_object_append a3 objOk ms k v with
              | (a4, none) => (json_arena_restore a4 position, none)
              | (a4, some ms2) =>
                json__parse_members fuel (json__skip_whitespace s4) a4 position objOk ms2 false

/-- The function `json__parse_array`: checkpoint, allocate the empty array header
(unchecked here, as for objects), skip the opening bracket and whitespace,
and run the element loop. -/
def json__parse_array : Nat → List Nat → JsonArena → JsonArena × Option (List Nat × JVal)
  | 0, _, a => (a, none)
  | fuel + 1, s, a =>
    let position := json_arena_save a
    match json_array_new a with
    | (a1, arrOk) =>
      json__parse_elems fuel (json__skip_whitespace (s.drop 1)) a1 position arrOk .nil true

/-- The `while (1)` element loop of `json__parse_array`: on `]` succeed;
otherwise require a comma except before the first element, parse a value and
push it; every failure path restores the arena to the loop's checkpoint. -/
def json__parse_elems :
    Nat → List Nat → JsonArena → Nat → Bool → JElems → Bool →
      JsonArena × Option (List Nat × JVal)
  | 0, _, a, position, _, _, _ => (json_arena_restore a position, none)
  | fuel + 1, s, a, position, arrOk, es, start =>
    if s.headD 0 == 93 then
      (a, some (s.drop 1, if arrOk then .arr es else .undef))
    else
      let afterSep : Option (List Nat) :=
        if start then some s
        else if s.headD 0 == 44 then some (json__skip_whitespace (s.drop 1))
        else none
      match afterSep with
      | none => (json_arena_restore a position, none)
      | some s1 =>
        match json_parse fuel s1 a with
        | (a2, none) => (json_arena_restore a2 position, none)
        | (a2, some (s2, v)) =>
          match json_array_push a2 arrOk es v with
          | (a3, none) => (json_arena_restore a3 position, none)
          | (a3, some es2) =>
            json__parse_elems fuel (json__skip_whitespace s2) a3 position arrOk es2 false
end

/-- The per-member tail of the object member loop (everything after the
optional comma and whitespace): key string, colon, value, append, next
iteration.  `json__parse_members`' cons path reduces to this once the
separator is resolved. -/
def json__members_parse_tail (fuel : Nat) (s1 : List Nat) (a : JsonArena) (position : Nat)
    (objOk : Bool) (ms : JMembers) : JsonArena × Option (List Nat × JVal) :=
  match json__parse_string s1 a with
  | (a2, none) => (json_arena_restore a2 position, none)
  | (a2, some (s2, k)) =>
    let s3 := json__skip_whitespace s2
    if s3.headD 0 != 58 then (json_arena_restore a2 position, none)
    else
      match json_parse fuel (json__skip_whitespace (s3.drop 1)) a2 with
      | (a3, none) => (json_arena_restore a3 position, none)
      | (a3, some (s4, v)) =>
        match json_object_append a3 objOk ms k v with
        | (a4, none) => (json_arena_restore a4 position, none)
        | (a4, some ms2) =>
          json__parse_members fuel (json__skip_whitespace s4) a4 position objOk ms2 false

/-- The per-element tail of the array element loop. -/
def json__elems_parse_tail (fuel : Nat) (s1 : List Nat) (a : JsonArena) (position : Nat)
    (arrOk : Bool) (es : JElems) : JsonArena × Option (List Nat × JVal) :=
  match json_parse fuel s1 a with
  | (a2, none) => (json_arena_restore a2 position, none)
  | (a2, some (s2, v)) =>
    match json_array_push a2 arrOk es v with
    | (a3, none) => (json_arena_restore a3 position, none)
    | (a3, some es2) => json__parse_elems fuel (json__skip_whitespace s2) a3 position arrOk es2 false

/-- List concatenation of object member lists (the order an iterator walk of
the linked entries sees). -/
def JMembers.app : JMembers → JMembers → JMembers
  | .nil, ys => ys
  | .cons k v rest, ys => .cons k v (rest.app ys)

/-- List concatenation of array element lists. -/
def JElems.app : JElems → JElems → JElems
  | .nil, ys => ys
  | .cons v rest, ys => .cons v (rest.app ys)

/-- Decimal accumulation of ASCII digit bytes, most significant first (the
value `json__parse_number`'s loop accumulates, as a natural number). -/
def json__digits_val (acc : Nat) : List Nat → Nat
  | [] => acc
  | d :: ds => json__digits_val (acc * 10 + (d - 48)) ds

/-! ### Derived measures used to state the theorems -/

/-- Bytes that survive a stringify/parse round trip: the stringifier escapes
`TAB`, `CR`, `LF` as two-character escapes the parser decodes, and copies
bytes 32..255 verbatim; any other control byte is emitted as a `\u00XX`
escape the parser does not decode. -/
def json__rt_byte (c : Nat) : Bool :=
  c == 9 || c == 10 || c == 13 || (32 ≤ c && c ≤ 255)

/-- Round-trippable C string: NUL-free bytes, all of them `json__rt_byte`. -/
def strRT (s : List Nat) : Bool := s.all json__rt_byte

mutual
/-- Values whose stringified text the parser maps back to the same value:
every component defined (no `undef`), numbers in `int32_t` range, strings and
keys round-trippable. -/
def JVal.wf : JVal → Bool
  | .undef => false
  | .jnull => true
  | .jtrue => true
  | .jfalse => true
  | .num n => decide (-(2 ^ 31) ≤ n) && decide (n < 2 ^ 31)
  | .str s => strRT s
  | .obj ms => ms.wf
  | .arr es => es.wf

def JMembers.wf : JMembers → Bool
  | .nil => true
  | .cons k v rest => strRT k && v.wf && rest.wf

def JElems.wf : JElems → Bool
  | .nil => true
  | .cons v rest => v.wf && rest.wf
end

mutual
/-- Exact number of arena bytes the parser commits for a value: 8 for a number
cell, the aligned NUL-terminated length for a string, 16 for a container
header plus its members (each object entry adds its 24-byte node and aligned
key, each array element its 16-byte node). -/
def JVal.need : JVal → Nat
  | .undef => 0
  | .jnull => 0
  | .jtrue => 0
  | .jfalse => 0
  | .num _ => 8
  | .str s => json__align_up (s.length + 1)
  | .obj ms => 16 + ms.need
  | .arr es => 16 + es.need

def JMembers.need : JMembers → Nat
  | .nil => 0
  | .cons k v rest => json__align_up (k.length + 1) + v.need + 24 + rest.need

def JElems.need : JElems → Nat
  | .nil => 0
  | .cons v rest => v.need + 16 + rest.need
end

mutual
/-- A sufficient fuel bound for parsing a rendered value: one step for the
dispatching `json_parse` call, one more for a container's entry into its
member loop, and one per loop iteration. -/
def JVal.fuelNeed : JVal → Nat
  | .undef => 1
  | .jnull => 1
  | .jtrue => 1
  | .jfalse => 1
  | .num _ => 1
  | .str _ => 1
  | .obj ms => 2 + ms.fuelNeed
  | .arr es => 2 + es.fuelNeed

def JMembers.fuelNeed : JMembers → Nat
  | .nil => 1
  | .cons _ v rest => 1 + v.fuelNeed + rest.fuelNeed

def JElems.fuelNeed : JElems → Nat
  | .nil => 1
  | .cons v rest => 1 + v.fuelNeed + rest.fuelNeed
end

mutual
/-- Numbers-in-range invariant: every numeric payload fits `int32_t`.  Every
value the C library can hold satisfies this by the type `JsonNumber`. -/
def JVal.wfNum : JVal → Bool
  | .undef => true
  | .jnull => true
  | .jtrue => true
  | .jfalse => true
  | .num n => decide (-(2 ^ 31) ≤ n) && decide (n < 2 ^ 31)
  | .str _ => true
  | .obj ms => ms.wfNum
  | .arr es => es.wfNum

def JMembers.wfNum : JMembers → Bool
  | .nil => true
  | .cons _ v rest => v.wfNum && rest.wfNum

def JElems.wfNum : JElems → Bool
  | .nil => true
  | .cons v rest => v.wfNum && rest.wfNum
end

/-- Leading bytes the `json_parse` dispatch recognizes. -/
def json__lead (c : Nat) : Bool :=
  c == 123 || c == 91 || c == 34 || c == 116 || c == 102 || c == 110 ||
    c == 43 || c == 45 || json__is_digit c

/-- Helper alloc-sequence fold: perform a list of allocations in order
(failed ones leave the arena unchanged, as in C). -/
def json__alloc_seq (a : JsonArena) : List Nat → JsonArena
  | [] => a
  | sz :: rest => json__alloc_seq (json_arena_alloc a sz).1 rest

/-! ### General lemmas -/

theorem lor_one_of_even {n : Nat} (h : n % 2 = 0) : n ||| 1 = n + 1 := by
  apply Nat.eq_of_testBit_eq
  intro i
  cases i with
  | zero =>
    simp [Nat.testBit_lor, Nat.testBit_zero]
    omega
  | succ j =>
    rw [Nat.testBit_lor]
    rw [Nat.testBit_add_one, Nat.testBit_add_one, Nat.testBit_add_one]
    have h2 : (n + 1) / 2 = n / 2 := by omega
    have h3 : (1 : Nat) / 2 = 0 := by norm_num
    rw [h2, h3]
    simp

theorem land_three_eq_mod (x : Nat) : x &&& 3 = x % 4 := by
  have h := Nat.and_pow_two_sub_one_eq_mod x 2
  norm_num at h
  exact h

/-- Claim C9: `restore (save ())` immediately after is a no-op on the arena;
restoring to a mark taken before any sequence of allocations brings the
allocation offset back to its value at the mark, and a subsequent allocation,
when it succeeds, returns memory starting at that saved offset. -/
theorem arena_save_restore_spec :
    ∀ (a : JsonArena) (szs : List Nat) (sz : Nat),
      json_arena_restore a (json_arena_save a) = a ∧
      (json_arena_restore (json__alloc_seq a szs) (json_arena_save a)).heap = a.heap ∧
      ((json_arena_alloc (json_arena_restore (json__alloc_seq a szs) (json_arena_save a)) sz).2
          = none ∨
        (json_arena_alloc (json_arena_restore (json__alloc_seq a szs) (json_arena_save a)) sz).2
          = some a.heap) := by
  intro a szs sz
  refine ⟨rfl, rfl, ?_⟩
  unfold json_arena_alloc
  dsimp only
  split
  · exact Or.inl rfl
  · split
    · exact Or.inl rfl
    · exact Or.inr rfl

/-- Counterexample to claim C6 as stated: the misaligned non-null address 2 is
not rejected by `json_number_extern`; it yields the word 3 (`JSON_NULL`), a
malformed tagged value, not `JSON_UNDEFINED`. -/
theorem json_number_extern_misaligned_counterexample :
    json_number_extern 2 = JSON_NULL ∧ json_number_extern 2 ≠ JSON_UNDEFINED := by
  constructor
  · decide
  · decide

/-- Claim C6 (amended): `json_string` rejects a null or misaligned address with
`JSON_UNDEFINED` and tags any aligned non-null address as a string;
`json_number_extern` rejects only a null address, and yields a value
classified as a number for every aligned non-null address (a misaligned
non-null address is not checked). -/
theorem json_string_number_extern_guards :
    (∀ s : Nat, s = 0 ∨ s % 4 ≠ 0 → json_string s = JSON_UNDEFINED) ∧
    (∀ s : Nat, s ≠ 0 → s % 4 = 0 → json_is_string (json_string s) = true) ∧
    json_number_extern 0 = JSON_UNDEFINED ∧
    (∀ p : Nat, p ≠ 0 → p % 4 = 0 → json_is_number ( json_number_extern p) = true) := by
  refine ⟨?_, ?_, by decide, ?_⟩
  · intro s hs
    unfold json_string
    rw [if_pos]
    rcases hs with h | h
    · simp [h]
    · rw [land_three_eq_mod]
      simp [h]
  · intro s hs0 hs4
    have hs4' : s ≥ 4 := by
      rcases Nat.lt_or_ge s 4 with h | h
      · interval_cases s <;> simp_all
      · exact h
    unfold json_string
    rw [if_neg]
    · unfold json_is_string
      simp only [JSON_UNDEFINED, Nat.or_zero]
      rw [land_three_eq_mod]
      simp [JSON_UNDEFINED, hs4]
      omega
    · rw [land_three_eq_mod]
      simp [hs0, hs4]
  · intro p hp0 hp4
    have hp4' : p ≥ 4 := by
      rcases Nat.lt_or_ge p 4 with h | h
      · interval_cases p <;> simp_all
      · exact h
    have heven : p % 2 = 0 := by omega
    unfold json_number_extern
    rw [if_neg (by simp [hp0])]
    unfold json_is_number
    rw [JSON_TRUE, lor_one_of_even heven, land_three_eq_mod]
    have : (p + 1) % 4 = 1 := by omega
    simp [this]
    omega

/-- Witness for `json_string_number_extern_guards` at the aligned addresses 4
and 8 and the null address 0. -/
theorem json_string_number_extern_guards_witness :
    json_is_string (json_string 4) = true ∧ json_is_number ( json_number_extern 8) = true ∧
      json_string 0 = JSON_UNDEFINED :=
  ⟨json_string_number_extern_guards.2.1 4 (by decide) (by decide),
    json_string_number_extern_guards.2.2.2 8 (by decide) (by decide),
    json_string_number_extern_guards.1 0 (Or.inl rfl)⟩

/-- Claim C10: stringifying the `JSON_UNDEFINED` value fails for every buffer
and every capacity: the result length is 0 and, when the capacity is nonzero,
the buffer's first byte is zeroed. -/
theorem stringify_undefined_fails :
    ∀ (buf : List Nat) (len : Nat),
      json_stringify .undef buf 0 len = (0, if 0 < len then buf.set 0 0 else buf) := by
  intro buf len
  rfl

/-! ### Parser failure: arena rollback (claim C2) -/

theorem json_arena_alloc_heap (a : JsonArena) (sz : Nat) :
    (json_arena_alloc a sz).1 = a ∨ (json_arena_alloc a sz).2.isSome = true := by
  unfold json_arena_alloc
  dsimp only
  split
  · exact Or.inl rfl
  · split
    · exact Or.inl rfl
    · exact Or.inr rfl

theorem json_number_new_heap (a : JsonArena) (n : Int) :
    (json_number_new a n).1.heap = a.heap ∨ (json_number_new a n).2.isSome = true := by
  unfold json_number_new
  rcases h : json_arena_alloc a 4 with ⟨a2, r⟩
  have hh := json_arena_alloc_heap a 4
  rw [h] at hh
  cases r with
  | none =>
    left
    show a2.heap = a.heap
    rcases hh with hh | hh
    · rw [show a2 = a from hh]
    · simp at hh
  | some p => right; rfl

theorem json_number_new_fail_heap {a : JsonArena} {n : Int} {a2 : JsonArena}
    (h : json_number_new a n = (a2, none)) : a2.heap = a.heap := by
  have hh := json_number_new_heap a n
  rw [h] at hh
  rcases hh with hh | hh
  · exact hh
  · simp at hh

theorem json__parse_string_loop_heap :
    ∀ (s : List Nat) (a : JsonArena) (l : Nat),
      (json__parse_string_loop s a l).1.heap = a.heap ∨
        (json__parse_string_loop s a l).2.isSome = true := by
  suffices h : ∀ (k : Nat) (s : List Nat), s.length ≤ k →
      ∀ (a : JsonArena) (l : Nat), (json__parse_string_loop s a l).1.heap = a.heap ∨
        (json__parse_string_loop s a l).2.isSome = true by
    intro s a l
    exact h s.length s le_rfl a l
  intro k
  induction k with
  | zero =>
    intro s hs a l
    have hnil : s = [] := List.eq_nil_of_length_eq_zero (by omega)
    subst hnil
    exact Or.inl rfl
  | succ k ih =>
    intro s hs a l
    match s, hs with
    | [], _ => exact Or.inl rfl
    | c :: s, hs =>
      have hs1 : s.length ≤ k := by simp only [List.length_cons] at hs; omega
      unfold json__parse_string_loop
      repeat' split
      all_goals first
        | exact Or.inl rfl
        | exact Or.inr rfl
        | exact ih _ (by simp only [List.length_cons] at *; omega) _ _
        | (dsimp only
           split
           · exact Or.inl rfl
           · exact Or.inr rfl)

theorem json__parse_string_heap (s : List Nat) (a : JsonArena) :
    (json__parse_string s a).1.heap = a.heap ∨ (json__parse_string s a).2.isSome = true := by
  unfold json__parse_string
  split
  · exact Or.inl rfl
  · exact json__parse_string_loop_heap _ _ _

theorem json__parse_number_heap (s : List Nat) (a : JsonArena) :
    (json__parse_number s a).1.heap = a.heap ∨ (json__parse_number s a).2.isSome = true := by
  unfold json__parse_number
  dsimp only
  repeat' split
  all_goals first
    | exact Or.inl rfl
    | exact Or.inr rfl
    | (left
       rename_i a2 heq
       exact json_number_new_fail_heap heq)

theorem json__parse_string_value_heap (s : List Nat) (a : JsonArena) :
    (json__parse_string_value s a).1.heap = a.heap ∨
      (json__parse_string_value s a).2.isSome = true := by
  unfold json__parse_string_value
  split
  · rename_i a2 heq
    have := json__parse_string_heap s a
    rw [heq] at this
    simpa using this
  · exact Or.inr rfl

theorem json__parse_heap (fuel : Nat) :
    (∀ s a, (json_parse fuel s a).1.heap = a.heap ∨ (json_parse fuel s a).2.isSome = true) ∧
    (∀ s a, (json__parse_object fuel s a).1.heap = a.heap ∨
      (json__parse_object fuel s a).2.isSome = true) ∧
    (∀ s a, (json__parse_array fuel s a).1.heap = a.heap ∨
      (json__parse_array fuel s a).2.isSome = true) ∧
    (∀ s a position objOk ms start,
      (json__parse_members fuel s a position objOk ms start).1.heap = position ∨
        (json__parse_members fuel s a position objOk ms start).2.isSome = true) ∧
    (∀ s a position arrOk es start,
      (json__parse_elems fuel s a position arrOk es start).1.heap = position ∨
        (json__parse_elems fuel s a position arrOk es start).2.isSome = true) := by
  induction fuel with
  | zero =>
    refine ⟨?_, ?_, ?_, ?_, ?_⟩ <;> intros <;> exact Or.inl rfl
  | succ fuel ih =>
    obtain ⟨ihp, iho, iha, ihm, ihe⟩ := ih
    refine ⟨?_, ?_, ?_, ?_, ?_⟩
    · intro s a
      simp only [json_parse]
      split
      all_goals first
        | exact Or.inl rfl
        | exact iho _ _
        | exact iha _ _
        | exact json__parse_string_value_heap _ _
        | exact json__parse_number_heap _ _
    · intro s a
      simp only [json__parse_object]
      exact ihm _ _ _ _ _ _
    · intro s a
      simp only [json__parse_array]
      exact ihe _ _ _ _ _ _
    · intro s a position objOk ms start
      simp only [json__parse_members]
      repeat' split
      all_goals first
        | exact Or.inl rfl
        | exact Or.inr rfl
        | exact ihm _ _ _ _ _ _
    · intro s a position arrOk es start
      simp only [json__parse_elems]
      repeat' split
      all_goals first
        | exact Or.inl rfl
        | exact Or.inr rfl
        | exact ihe _ _ _ _ _ _

/-- Claim C2: whenever a top-level `json_parse` fails (returns the null
position), the arena's allocation offset is exactly what it was before the
call; and at the object/array nesting levels, which each take a checkpoint on
entry, failure likewise restores the offset to that checkpoint before
propagating upward. -/
theorem parse_failure_restores_arena :
    (∀ fuel s a, (json_parse fuel s a).2 = none →
      (json_parse fuel s a).1.heap = a.heap) ∧
    (∀ fuel s a, (json__parse_object fuel s a).2 = none →
      (json__parse_object fuel s a).1.heap = a.heap) ∧
    (∀ fuel s a, (json__parse_array fuel s a).2 = none →
      (json__parse_array fuel s a).1.heap = a.heap) := by
  refine ⟨?_, ?_, ?_⟩ <;> intro fuel s a h
  · rcases (json__parse_heap fuel).1 s a with hh | hh
    · exact hh
    · rw [h] at hh; simp at hh
  · rcases (json__parse_heap fuel).2.1 s a with hh | hh
    · exact hh
    · rw [h] at hh; simp at hh
  · rcases (json__parse_heap fuel).2.2.1 s a with hh | hh
    · exact hh
    · rw [h] at hh; simp at hh

/-- Witness for `parse_failure_restores_arena`: the truncated document `[1,`
fails and leaves the heap offset at 0. -/
theorem parse_failure_restores_arena_witness :
    (json_parse 5 [91, 49, 44]
      { buffer := List.replicate 16 0, size := 16, heap := 0, stack := 16 }).2 = none ∧
    (json_parse 5 [91, 49, 44]
      { buffer := List.replicate 16 0, size := 16, heap := 0, stack := 16 }).1.heap = 0 :=
  ⟨by decide, parse_failure_restores_arena.1 5 [91, 49, 44] _ (by decide)⟩

/-! ### Object set/append/get (claim C8) -/

theorem json__streq_iff : ∀ x y : List Nat, json__streq x y = true ↔ x = y := by
  intro x
  induction x with
  | nil => intro y; cases y <;> simp [json__streq]
  | cons a s ih =>
    intro y
    cases y with
    | nil => simp [json__streq]
    | cons b t => simp [json__streq, ih t]

theorem JMembers.countKey_snoc :
    ∀ (ms : JMembers) (k : List Nat) (v : JVal) (k2 : List Nat),
      (ms.snoc k v).countKey k2 = ms.countKey k2 + (if k = k2 then 1 else 0)
  | .nil, k, v, k2 => by simp [JMembers.snoc, JMembers.countKey]
  | .cons k0 v0 rest, k, v, k2 => by
    have ih := JMembers.countKey_snoc rest k v k2
    simp [JMembers.snoc, JMembers.countKey, ih]
    omega

theorem JMembers.count_snoc :
    ∀ (ms : JMembers) (k : List Nat) (v : JVal), (ms.snoc k v).count = ms.count + 1
  | .nil, _, _ => rfl
  | .cons k0 v0 rest, k, v => by
    have ih := JMembers.count_snoc rest k v
    simp [JMembers.snoc, JMembers.count, ih]
    omega

theorem json__object_set_scan_none :
    ∀ {ms : JMembers} {k : List Nat} (v : JVal),
      ms.countKey k = 0 → json__object_set_scan ms k v = none
  | .nil, _, _, _ => rfl
  | .cons k0 v0 rest, k, v, h => by
    simp only [JMembers.countKey] at h
    have hk0 : k0 ≠ k := by
      intro he
      simp [he] at h
    have hrest : rest.countKey k = 0 := by
      simp [hk0] at h
      exact h
    simp only [json__object_set_scan]
    rw [if_neg (by simp [json__streq_iff]; exact hk0), json__object_set_scan_none v hrest]

theorem json__object_set_scan_some :
    ∀ {ms : JMembers} {k : List Nat} (v : JVal),
      0 < ms.countKey k →
        ∃ ms2, json__object_set_scan ms k v = some ms2 ∧
          ms2.count = ms.count ∧
          (∀ k2, ms2.countKey k2 = ms.countKey k2) ∧
          json__object_get_loop ms2 k = v
  | .nil, k, v, h => by simp [JMembers.countKey] at h
  | .cons k0 v0 rest, k, v, h => by
    by_cases hk0 : k0 = k
    · refine ⟨.cons k0 v rest, ?_, rfl, fun k2 => rfl, ?_⟩
      · simp [json__object_set_scan, json__streq_iff, hk0]
      · simp [json__object_get_loop, json__streq_iff, hk0]
    · have hrest : 0 < rest.countKey k := by
        simp only [JMembers.countKey] at h
        simpa [hk0] using h
      obtain ⟨rest2, hscan, hcount, hck, hget⟩ := json__object_set_scan_some v hrest
      refine ⟨.cons k0 v0 rest2, ?_, ?_, ?_, ?_⟩
      · simp [json__object_set_scan, json__streq_iff, hk0, hscan]
      · simp [JMembers.count, hcount]
      · intro k2
        simp [JMembers.countKey, hck k2]
      · simp [json__object_get_loop, json__streq_iff, hk0, hget]

/-- Claim C8: `json_object_set` scans the entries in insertion order with
byte-wise key comparison; when a matching entry exists it updates that entry's
value in place, without allocating and without changing the entry count, and
`json_object_get` then returns the new value; when no entry matches it behaves
exactly as `json_object_append`; consequently two `set` calls with the same
(previously absent) key leave exactly one entry for that key, holding the
second value. -/
theorem object_set_spec :
    (∀ (a : JsonArena) (ms : JMembers) (k : List Nat) (v : JVal),
      0 < ms.countKey k →
        ∃ ms2, json_object_set a true ms k v = (a, some ms2) ∧
          ms2.count = ms.count ∧
          (∀ k2, ms2.countKey k2 = ms.countKey k2) ∧
          json_object_get true ms2 k = v) ∧
    (∀ (a : JsonArena) (ms : JMembers) (k : List Nat) (v : JVal),
      ms.countKey k = 0 →
        json_object_set a true ms k v = json_object_append a true ms k v) ∧
    (∀ (a : JsonArena) (ms : JMembers) (k : List Nat) (v1 v2 : JVal)
        (a1 : JsonArena) (ms1 : JMembers) (a2 : JsonArena) (ms2 : JMembers),
      ms.countKey k = 0 →
      json_object_set a true ms k v1 = (a1, some ms1) →
      json_object_set a1 true ms1 k v2 = (a2, some ms2) →
        a2 = a1 ∧ ms1.count = ms.count + 1 ∧ ms2.count = ms1.count ∧
          ms2.countKey k = 1 ∧ json_object_get true ms2 k = v2) := by
  have hfound : ∀ (a : JsonArena) (ms : JMembers) (k : List Nat) (v : JVal),
      0 < ms.countKey k →
        ∃ ms2, json_object_set a true ms k v = (a, some ms2) ∧
          ms2.count = ms.count ∧
          (∀ k2, ms2.countKey k2 = ms.countKey k2) ∧
          json_object_get true ms2 k = v := by
    intro a ms k v h
    obtain ⟨ms2, hscan, hcount, hck, hget⟩ := json__object_set_scan_some v h
    refine ⟨ms2, ?_, hcount, hck, ?_⟩
    · simp [json_object_set, hscan]
    · simpa [json_object_get] using hget
  have habsent : ∀ (a : JsonArena) (ms : JMembers) (k : List Nat) (v : JVal),
      ms.countKey k = 0 →
        json_object_set a true ms k v = json_object_append a true ms k v := by
    intro a ms k v h
    simp [json_object_set, json__object_set_scan_none v h]
  refine ⟨hfound, habsent, ?_⟩
  intro a ms k v1 v2 a1 ms1 a2 ms2 h0 h1 h2
  rw [habsent a ms k v1 h0] at h1
  have hms1 : ms1 = ms.snoc k v1 := by
    unfold json_object_append at h1
    simp only [Bool.not_true] at h1
    rw [if_neg (by simp)] at h1
    rcases halloc : json_arena_alloc a 24 with ⟨aa, rr⟩
    rw [halloc] at h1
    cases rr with
    | none => simp at h1
    | some p => simp at h1; exact h1.2.symm
  have hck1 : ms1.countKey k = 1 := by
    rw [hms1, JMembers.countKey_snoc, h0]
    simp
  obtain ⟨ms2b, hset2, hcount2, hck2, hget2⟩ := hfound a1 ms1 k v2 (by omega)
  rw [h2] at hset2
  have ha : a2 = a1 := (Prod.mk.injEq _ _ _ _ ▸ hset2).1
  have hm : ms2 = ms2b := by
    have := (Prod.mk.injEq _ _ _ _ ▸ hset2).2
    simpa using this
  subst ha hm
  refine ⟨rfl, ?_, hcount2, ?_, hget2⟩
  · rw [hms1, JMembers.count_snoc]
  · rw [hck2 k, hck1]

/-- Witness for `object_set_spec`: two sets of the key `"k"` on an initially
empty object produce one entry holding the second value. -/
theorem object_set_spec_witness :
    ∃ ms2, json_object_set { buffer := List.replicate 32 0, size := 32, heap := 0, stack := 32 }
        true (JMembers.nil.snoc [107] (.num 1)) [107] (.num 2) =
        ({ buffer := List.replicate 32 0, size := 32, heap := 0, stack := 32 }, some ms2) ∧
      ms2.count = (JMembers.nil.snoc [107] (.num 1)).count ∧
      (∀ k2, ms2.countKey k2 = (JMembers.nil.snoc [107] (.num 1)).countKey k2) ∧
      json_object_get true ms2 [107] = .num 2 :=
  object_set_spec.1 _ (JMembers.nil.snoc [107] (.num 1)) [107] (.num 2) (by decide)

/-! ### Byte-store lemmas -/

theorem getD_set_ne {l : List Nat} {i j : Nat} (x d : Nat) (h : i ≠ j) :
    (l.set i x).getD j d = l.getD j d := by
  simp [List.getElem?_set_ne h]

theorem length_writeBytes : ∀ (xs : List Nat) (buf : List Nat) (off : Nat),
    (writeBytes buf off xs).length = buf.length
  | [], _, _ => rfl
  | b :: bs, buf, off => by
    simp only [writeBytes]
    rw [length_writeBytes bs]
    simp

theorem writeBytes_append : ∀ (xs ys : List Nat) (buf : List Nat) (off : Nat),
    writeBytes buf off (xs ++ ys) = writeBytes (writeBytes buf off xs) (off + xs.length) ys
  | [], ys, buf, off => by simp [writeBytes]
  | b :: bs, ys, buf, off => by
    show writeBytes (buf.set off b) (off + 1) (bs ++ ys) = _
    rw [writeBytes_append bs ys (buf.set off b) (off + 1)]
    have harith : off + 1 + bs.length = off + (b :: bs).length := by
      simp
      omega
    rw [harith]
    rfl

theorem getD_writeBytes_outside : ∀ (xs : List Nat) (buf : List Nat) (off j d : Nat),
    j < off ∨ off + xs.length ≤ j → (writeBytes buf off xs).getD j d = buf.getD j d
  | [], _, _, _, _, _ => rfl
  | b :: bs, buf, off, j, d, h => by
    simp only [writeBytes]
    rw [getD_writeBytes_outside bs _ (off + 1) j d
        (by simp only [List.length_cons] at h; omega)]
    exact getD_set_ne _ _ (by simp only [List.length_cons] at h; omega)

theorem length_json__reverse (buf : List Nat) (off n : Nat) :
    (json__reverse buf off n).length = buf.length := by
  simp only [json__reverse, List.length_append, List.length_take, List.length_reverse,
    List.length_drop]
  omega

theorem getD_json__reverse_outside (buf : List Nat) (off n j d : Nat)
    (h : j < off ∨ off + n ≤ j) :
    (json__reverse buf off n).getD j d = buf.getD j d := by
  by_cases hj : j < buf.length
  · simp only [json__reverse, List.getD_eq_getElem?_getD, List.append_assoc]
    congr 1
    rcases h with h | h
    · rw [List.getElem?_append_left (by simp; omega)]
      exact List.getElem?_take_of_lt h
    · rw [List.getElem?_append_right (by simp; omega)]
      rw [List.getElem?_append_right (by simp; omega)]
      rw [List.getElem?_drop]
      congr 1
      simp
      omega
  · simp only [List.getD_eq_getElem?_getD]
    rw [List.getElem?_eq_none (by rw [length_json__reverse]; omega),
      List.getElem?_eq_none (by omega)]

/-! ### Stringifier bounds (claim C4) -/

theorem json__write_outside (text buf : List Nat) (off len j d : Nat)
    (h : j < off ∨ off + len ≤ j) :
    ((json__write text buf off len).2).getD j d = buf.getD j d := by
  unfold json__write
  split
  · split
    · exact getD_set_ne _ _ (by omega)
    · rfl
  · rename_i hlen
    exact getD_writeBytes_outside _ _ _ _ _ (by simp at hlen ⊢; omega)

theorem json__digits_outside : ∀ (fuel m : Nat) (buf : List Nat) (off n len j d : Nat),
    j < off ∨ off + len ≤ j →
      ((json__digits fuel m buf off n len).2).getD j d = buf.getD j d
  | 0, _, _, _, _, _, _, _, _ => rfl
  | fuel + 1, m, buf, off, n, len, j, d, h => by
    unfold json__digits
    split
    · rfl
    · rename_i hg
      dsimp only
      split
      · rw [json__digits_outside fuel _ _ off (n + 1) len j d h]
        exact getD_set_ne _ _ (by omega)
      · exact getD_set_ne _ _ (by omega)

theorem json__digits_bound : ∀ (fuel m : Nat) (buf : List Nat) (off n len : Nat),
    (json__digits fuel m buf off n len).1 ≠ 0 →
      n < (json__digits fuel m buf off n len).1 ∧ (json__digits fuel m buf off n len).1 + 1 ≤ len
  | 0, _, _, _, _, _, h => absurd rfl h
  | fuel + 1, m, buf, off, n, len, h => by
    unfold json__digits at h ⊢
    dsimp only at h ⊢
    split at h <;> rename_i hc
    · exact absurd rfl h
    · rw [if_neg hc]
      split at h <;> rename_i hc2
      · rw [if_pos hc2]
        have := json__digits_bound fuel (m / 10) _ off (n + 1) len h
        exact ⟨by omega, this.2⟩
      · rw [if_neg hc2]
        exact ⟨by omega, by omega⟩

theorem json__stringify_string_loop_outside :
    ∀ (s buf : List Nat) (off n len j d : Nat),
      n + 2 ≤ len → j < off ∨ off + len ≤ j →
        ((json__stringify_string_loop s buf off n len).2).getD j d = buf.getD j d
  | [], buf, off, n, len, j, d, hn, h => by
    unfold json__stringify_string_loop
    rw [getD_set_ne _ _ (by omega), getD_set_ne _ _ (by omega)]
  | c :: s, buf, off, n, len, j, d, hn, h => by
    unfold json__stringify_string_loop
    repeat' split
    all_goals first
      | rfl
      | (rw [json__stringify_string_loop_outside s _ off _ len j d (by omega) h]
         repeat' rw [getD_set_ne _ _ (by omega)])

theorem json__stringify_string_outside (s buf : List Nat) (off len j d : Nat)
    (h : j < off ∨ off + len ≤ j) :
    ((json__stringify_string s buf off len).2).getD j d = buf.getD j d := by
  unfold json__stringify_string
  split
  · rfl
  · rename_i hlen
    rw [json__stringify_string_loop_outside s _ off 1 len j d (by omega) h]
    exact getD_set_ne _ _ (by omega)

theorem json__stringify_number_outside (number : Int) (buf : List Nat) (off len j d : Nat)
    (h : j < off ∨ off + len ≤ j) :
    ((json__stringify_number number buf off len).2).getD j d = buf.getD j d := by
  unfold json__stringify_number
  split
  · split
    · rfl
    · rename_i hneg hlen
      split
      · rename_i num hsub
        rcases hd : json__digits (num.toNat + 1) num.toNat (buf.set off 45) (off + 1) 0 (len - 1)
          with ⟨r, b⟩
        have hout := json__digits_outside (num.toNat + 1) num.toNat (buf.set off 45)
          (off + 1) 0 (len - 1) j d (by omega)
        rw [hd] at hout
        try dsimp only at hout
        try dsimp only
        rw [hd]
        cases r with
        | zero =>
          try dsimp only
          rw [hout]
          exact getD_set_ne _ _ (by omega)
        | succ r =>
          have hb := json__digits_bound (num.toNat + 1) num.toNat (buf.set off 45)
            (off + 1) 0 (len - 1) (by rw [hd]; simp)
          rw [hd] at hb
          try dsimp only at hb
          show ((json__reverse b (off + 1) (r + 1)).set (off + 1 + (r + 1)) 0).getD j d =
            buf.getD j d
          rw [getD_set_ne _ _ (by omega),
            getD_json__reverse_outside _ _ _ _ _ (by omega), hout]
          exact getD_set_ne _ _ (by omega)
      · rename_i hsub
        rcases hd : json__digits ((-(number + 1) / 10).toNat + 1) (-(number + 1) / 10).toNat
            ((buf.set off 45).set (off + 1) (49 + -(number + 1) % 10).toNat) (off + 1) 1 (len - 1)
          with ⟨r, b⟩
        have hout := json__digits_outside ((-(number + 1) / 10).toNat + 1)
          (-(number + 1) / 10).toNat
          ((buf.set off 45).set (off + 1) (49 + -(number + 1) % 10).toNat)
          (off + 1) 1 (len - 1) j d (by omega)
        rw [hd] at hout
        try dsimp only at hout
        try dsimp only
        rw [hd]
        cases r with
        | zero =>
          try dsimp only
          rw [hout, getD_set_ne _ _ (by omega)]
          exact getD_set_ne _ _ (by omega)
        | succ r =>
          have hb := json__digits_bound ((-(number + 1) / 10).toNat + 1)
            (-(number + 1) / 10).toNat
            ((buf.set off 45).set (off + 1) (49 + -(number + 1) % 10).toNat)
            (off + 1) 1 (len - 1) (by rw [hd]; simp)
          rw [hd] at hb
          try dsimp only at hb
          show ((json__reverse b (off + 1) (r + 1)).set (off + 1 + (r + 1)) 0).getD j d =
            buf.getD j d
          rw [getD_set_ne _ _ (by omega),
            getD_json__reverse_outside _ _ _ _ _ (by omega), hout,
            getD_set_ne _ _ (by omega)]
          exact getD_set_ne _ _ (by omega)
  · rcases hd : json__digits (number.toNat + 1) number.toNat buf off 0 len with ⟨r, b⟩
    have hout := json__digits_outside (number.toNat + 1) number.toNat buf off 0 len j d h
    rw [hd] at hout
    try dsimp only at hout
    cases r with
    | zero => exact hout
    | succ r =>
      have hb := json__digits_bound (number.toNat + 1) number.toNat buf off 0 len
        (by rw [hd]; simp)
      rw [hd] at hb
      try dsimp only at hb
      show ((json__reverse b off (r + 1)).set (off + (r + 1)) 0).getD j d = buf.getD j d
      rw [getD_set_ne _ _ (by omega),
        getD_json__reverse_outside _ _ _ _ _ (by omega)]
      exact hout

theorem json__epilogue_outside (off len j d : Nat) (r : Nat × List Nat)
    (h : j < off ∨ off + len ≤ j) :
    ((json__epilogue off len r).2).getD j d = r.2.getD j d := by
  unfold json__epilogue
  split
  · split
    · exact getD_set_ne _ _ (by omega)
    · rfl
  · rfl

mutual
theorem json_stringify_outside :
    ∀ (v : JVal) (buf : List Nat) (off len j d : Nat),
      j < off ∨ off + len ≤ j →
        ((json_stringify v buf off len).2).getD j d = buf.getD j d
  | .undef, buf, off, len, j, d, h => by
    rw [json_stringify, json__epilogue_outside _ _ _ _ _ h]
  | .jnull, buf, off, len, j, d, h => by
    rw [json_stringify, json__epilogue_outside _ _ _ _ _ h, json__write_outside _ _ _ _ _ _ h]
  | .jtrue, buf, off, len, j, d, h => by
    rw [json_stringify, json__epilogue_outside _ _ _ _ _ h, json__write_outside _ _ _ _ _ _ h]
  | .jfalse, buf, off, len, j, d, h => by
    rw [json_stringify, json__epilogue_outside _ _ _ _ _ h, json__write_outside _ _ _ _ _ _ h]
  | .num number, buf, off, len, j, d, h => by
    rw [json_stringify, json__epilogue_outside _ _ _ _ _ h,
      json__stringify_number_outside _ _ _ _ _ _ h]
  | .str s, buf, off, len, j, d, h => by
    rw [json_stringify, json__epilogue_outside _ _ _ _ _ h,
      json__stringify_string_outside _ _ _ _ _ _ h]
  | .obj ms, buf, off, len, j, d, h => by
    rw [json_stringify, json__epilogue_outside _ _ _ _ _ h]
    split
    · rfl
    · rw [json__stringify_members_outside ms _ off 1 len j d h]
      exact getD_set_ne _ _ (by omega)
  | .arr es, buf, off, len, j, d, h => by
    rw [json_stringify, json__epilogue_outside _ _ _ _ _ h]
    split
    · rfl
    · rw [json__stringify_elems_outside es _ off 1 len j d h]
      exact getD_set_ne _ _ (by omega)

theorem json__stringify_members_outside :
    ∀ (ms : JMembers) (buf : List Nat) (off n len j d : Nat),
      j < off ∨ off + len ≤ j →
        ((json__stringify_members ms buf off n len).2).getD j d = buf.getD j d
  | .nil, buf, off, n, len, j, d, h => by
    rw [json__stringify_members]
    split
    · rfl
    · rename_i hg
      dsimp only
      rw [getD_set_ne _ _ (by omega)]
      exact getD_set_ne _ _ (by omega)
  | .cons k v rest, buf, off, n, len, j, d, h => by
    rw [json__stringify_members]
    try dsimp only
    by_cases h1 : 1 < n
    · rw [if_pos h1]
      by_cases h2 : len < n + 6
      · rw [if_pos h2]
      · rw [if_neg h2]
        show ((match json__stringify_string k (buf.set (off + n) 44) (off + (n + 1))
              (len - (n + 1)) with
          | (0, b) => (0, b)
          | (l, b) =>
            if len < n + 1 + l + 4 then (0, b)
            else
              match json_stringify v (b.set (off + (n + 1) + l) 58) (off + (n + 1) + l + 1)
                  (len - (n + 1 + l + 1)) with
              | (0, b2) => (0, b2)
              | (l2, b2) => json__stringify_members rest b2 off (n + 1 + l + 1 + l2) len).2).getD
            j d = buf.getD j d
        have hbuf2 : (buf.set (off + n) 44).getD j d = buf.getD j d :=
          getD_set_ne _ _ (by omega)
        rcases hs : json__stringify_string k (buf.set (off + n) 44) (off + (n + 1))
            (len - (n + 1)) with ⟨l, b⟩
        have hb : b.getD j d = (buf.set (off + n) 44).getD j d := by
          have hss := json__stringify_string_outside k (buf.set (off + n) 44) (off + (n + 1))
            (len - (n + 1)) j d (by omega)
          rw [hs] at hss
          exact hss
        cases l with
        | zero => exact hb.trans hbuf2
        | succ l =>
          show (if len < n + 1 + (l + 1) + 4 then ((0 : Nat), b)
            else
              match json_stringify v (b.set (off + (n + 1) + (l + 1)) 58)
                  (off + (n + 1) + (l + 1) + 1) (len - (n + 1 + (l + 1) + 1)) with
              | (0, b2) => (0, b2)
              | (l2, b2) =>
                json__stringify_members rest b2 off (n + 1 + (l + 1) + 1 + l2) len).2.getD j d =
            buf.getD j d
          split
          · exact hb.trans hbuf2
          · rcases hv : json_stringify v (b.set (off + (n + 1) + (l + 1)) 58)
                (off + (n + 1) + (l + 1) + 1) (len - (n + 1 + (l + 1) + 1)) with ⟨l2, b2⟩
            have hbv : b2.getD j d = (b.set (off + (n + 1) + (l + 1)) 58).getD j d := by
              have hvv := json_stringify_outside v (b.set (off + (n + 1) + (l + 1)) 58)
                (off + (n + 1) + (l + 1) + 1) (len - (n + 1 + (l + 1) + 1)) j d (by omega)
              rw [hv] at hvv
              exact hvv
            have hbv2 : b2.getD j d = buf.getD j d :=
              hbv.trans ((getD_set_ne _ _ (by omega)).trans (hb.trans hbuf2))
            cases l2 with
            | zero => exact hbv2
            | succ l2 =>
              show (json__stringify_members rest b2 off (n + 1 + (l + 1) + 1 + (l2 + 1))
                  len).2.getD j d = buf.getD j d
              rw [json__stringify_members_outside rest b2 off (n + 1 + (l + 1) + 1 + (l2 + 1))
                len j d h]
              exact hbv2
    · rw [if_neg h1]
      show ((match json__stringify_string k buf (off + n) (len - n) with
          | (0, b) => (0, b)
          | (l, b) =>
            if len < n + l + 4 then (0, b)
            else
              match json_stringify v (b.set (off + n + l) 58) (off + n + l + 1)
                  (len - (n + l + 1)) with
              | (0, b2) => (0, b2)
              | (l2, b2) => json__stringify_members rest b2 off (n + l + 1 + l2) len).2).getD
            j d = buf.getD j d
      rcases hs : json__stringify_string k buf (off + n) (len - n) with ⟨l, b⟩
      have hb : b.getD j d = buf.getD j d := by
        have hss := json__stringify_string_outside k buf (off + n) (len - n) j d (by omega)
        rw [hs] at hss
        exact hss
      cases l with
      | zero => exact hb
      | succ l =>
        show (if len < n + (l + 1) + 4 then ((0 : Nat), b)
          else
            match json_stringify v (b.set (off + n + (l + 1)) 58) (off + n + (l + 1) + 1)
                (len - (n + (l + 1) + 1)) with
            | (0, b2) => (0, b2)
            | (l2, b2) =>
              json__stringify_members rest b2 off (n + (l + 1) + 1 + l2) len).2.getD j d =
          buf.getD j d
        split
        · exact hb
        · rcases hv : json_stringify v (b.set (off + n + (l + 1)) 58) (off + n + (l + 1) + 1)
              (len - (n + (l + 1) + 1)) with ⟨l2, b2⟩
          have hbv : b2.getD j d = (b.set (off + n + (l + 1)) 58).getD j d := by
            have hvv := json_stringify_outside v (b.set (off + n + (l + 1)) 58)
              (off + n + (l + 1) + 1) (len - (n + (l + 1) + 1)) j d (by omega)
            rw [hv] at hvv
            exact hvv
          have hbv2 : b2.getD j d = buf.getD j d :=
            hbv.trans ((getD_set_ne _ _ (by omega)).trans hb)
          cases l2 with
          | zero => exact hbv2
          | succ l2 =>
            show (json__stringify_members rest b2 off (n + (l + 1) + 1 + (l2 + 1))
                len).2.getD j d = buf.getD j d
            rw [json__stringify_members_outside rest b2 off (n + (l + 1) + 1 + (l2 + 1))
              len j d h]
            exact hbv2

theorem json__stringify_elems_outside :
    ∀ (es : JElems) (buf : List Nat) (off n len j d : Nat),
      j < off ∨ off + len ≤ j →
        ((json__stringify_elems es buf off n len).2).getD j d = buf.getD j d
  | .nil, buf, off, n, len, j, d, h => by
    rw [json__stringify_elems]
    split
    · rfl
    · rename_i hg
      dsimp only
      rw [getD_set_ne _ _ (by omega)]
      exact getD_set_ne _ _ (by omega)
  | .cons v rest, buf, off, n, len, j, d, h => by
    rw [json__stringify_elems]
    try dsimp only
    by_cases h1 : 1 < n
    · rw [if_pos h1]
      by_cases h2 : len < n + 4
      · rw [if_pos h2]
      · rw [if_neg h2]
        show ((match json_stringify v (buf.set (off + n) 44) (off + (n + 1)) (len - (n + 1)) with
          | (0, b) => (0, b)
          | (l, b) => json__stringify_elems rest b off (n + 1 + l) len).2).getD j d =
            buf.getD j d
        have hbuf2 : (buf.set (off + n) 44).getD j d = buf.getD j d :=
          getD_set_ne _ _ (by omega)
        rcases hv : json_stringify v (buf.set (off + n) 44) (off + (n + 1)) (len - (n + 1))
          with ⟨l, b⟩
        have hb : b.getD j d = (buf.set (off + n) 44).getD j d := by
          have hvv := json_stringify_outside v (buf.set (off + n) 44) (off + (n + 1))
            (len - (n + 1)) j d (by omega)
          rw [hv] at hvv
          exact hvv
        cases l with
        | zero => exact hb.trans hbuf2
        | succ l =>
          show (json__stringify_elems rest b off (n + 1 + (l + 1)) len).2.getD j d = buf.getD j d
          rw [json__stringify_elems_outside rest b off (n + 1 + (l + 1)) len j d h]
          exact hb.trans hbuf2
    · rw [if_neg h1]
      show ((match json_stringify v buf (off + n) (len - n) with
        | (0, b) => (0, b)
        | (l, b) => json__stringify_elems rest b off (n + l) len).2).getD j d = buf.getD j d
      rcases hv : json_stringify v buf (off + n) (len - n) with ⟨l, b⟩
      have hb : b.getD j d = buf.getD j d := by
        have hvv := json_stringify_outside v buf (off + n) (len - n) j d (by omega)
        rw [hv] at hvv
        exact hvv
      cases l with
      | zero => exact hb
      | succ l =>
        show (json__stringify_elems rest b off (n + (l + 1)) len).2.getD j d = buf.getD j d
        rw [json__stringify_elems_outside rest b off (n + (l + 1)) len j d h]
        exact hb
end

/-- Claim C4: `json_stringify` into a buffer of capacity `len` never writes at
any index beyond `len - 1`: every byte at index `len + i` of the store is
unchanged, for every value, buffer, capacity (including 0 and 1) and
default. -/
theorem stringify_bounds :
    ∀ (v : JVal) (buf : List Nat) (len i d : Nat),
      ((json_stringify v buf 0 len).2).getD (len + i) d = buf.getD (len + i) d :=
  fun v buf len i d => json_stringify_outside v buf 0 len (len + i) d (Or.inr (by omega))

/-! ### Stringifier output characterization -/

theorem natDigitsF_congr : ∀ (fuel fuel2 m : Nat), m < fuel → m < fuel2 →
    natDigitsF fuel m = natDigitsF fuel2 m
  | fuel + 1, fuel2 + 1, m, h1, h2 => by
    unfold natDigitsF
    split
    · rfl
    · rename_i hm
      have hd : m / 10 < fuel := by omega
      have hd2 : m / 10 < fuel2 := by omega
      rw [natDigitsF_congr fuel fuel2 (m / 10) hd hd2]

theorem natDigits_eq (m : Nat) :
    natDigits m = if m < 10 then [48 + m] else natDigits (m / 10) ++ [48 + m % 10] := by
  show natDigitsF (m + 1) m = _
  rw [natDigitsF]
  split
  · rfl
  · rename_i hm
    unfold natDigits
    rw [natDigitsF_congr m (m / 10 + 1) (m / 10) (by omega) (by omega)]

theorem natDigits_ne_nil (m : Nat) : natDigits m ≠ [] := by
  rw [natDigits_eq]
  split <;> simp

theorem natDigits_length_pos (m : Nat) : 0 < (natDigits m).length :=
  List.length_pos.mpr (natDigits_ne_nil m)

theorem getElem?_writeBytes : ∀ (xs buf : List Nat) (off i : Nat),
    (writeBytes buf off xs)[i]? =
      if off ≤ i ∧ i - off < xs.length ∧ i < buf.length then xs[i - off]? else buf[i]?
  | [], buf, off, i => by simp [writeBytes]
  | b :: bs, buf, off, i => by
    rw [writeBytes, getElem?_writeBytes bs]
    by_cases hoff : off ≤ i
    · by_cases hio : i = off
      · subst hio
        simp only [List.length_set]
        rw [if_neg (by omega)]
        by_cases hlen : i < buf.length
        · rw [if_pos (by simp; omega)]
          rw [List.getElem?_set_self' ]
          simp [List.getElem?_eq_getElem hlen]
        · rw [if_neg (by omega), List.getElem?_eq_none (by simp; omega),
            List.getElem?_eq_none (by omega)]
      · have hlt : off < i := by omega
        simp only [List.length_set]
        by_cases hin : i - off < bs.length + 1 ∧ i < buf.length
        · rw [if_pos (by omega), if_pos (by simp; omega)]
          rw [show i - off = (i - (off + 1)) + 1 by omega]
          simp
        · rw [if_neg (by omega), if_neg (by simp; omega)]
          exact List.getElem?_set_ne (by omega)
    · simp only [List.length_set]
      rw [if_neg (by omega), if_neg (by omega)]
      exact List.getElem?_set_ne (by omega)

theorem writeBytes_take_append (xs buf : List Nat) (off : Nat)
    (h : off + xs.length ≤ buf.length) :
    writeBytes buf off xs = buf.take off ++ xs ++ buf.drop (off + xs.length) := by
  apply List.ext_getElem?
  intro i
  rw [getElem?_writeBytes]
  by_cases h1 : i < off
  · rw [if_neg (by omega), List.append_assoc, List.getElem?_append_left (by simp; omega),
      List.getElem?_take_of_lt h1]
  · by_cases h2 : i - off < xs.length
    · rw [if_pos (by omega), List.append_assoc,
        List.getElem?_append_right (by simp; omega), List.getElem?_append_left (by simp; omega)]
      congr 1
      simp
      omega
    · rw [if_neg (by omega), List.append_assoc,
        List.getElem?_append_right (by simp; omega), List.getElem?_append_right (by simp; omega),
        List.getElem?_drop]
      congr 1
      simp
      omega

theorem json__reverse_writeBytes (xs buf : List Nat) (off : Nat)
    (h : off + xs.length ≤ buf.length) :
    json__reverse (writeBytes buf off xs) off xs.length = writeBytes buf off xs.reverse := by
  rw [writeBytes_take_append xs buf off h,
    writeBytes_take_append xs.reverse buf off (by simp; omega)]
  unfold json__reverse
  have hto : (buf.take off).length = off := by simp; omega
  simp only [List.append_assoc, List.length_reverse]
  rw [List.take_left' hto, List.drop_left' hto, List.take_left,
    ← List.append_assoc (buf.take off) xs, List.drop_left' (by simp; omega)]

theorem writeBytes_singleton (buf : List Nat) (off b : Nat) :
    buf.set off b = writeBytes buf off [b] := rfl

theorem writeBytes_overwrite (buf : List Nat) (p : Nat) (xs : List Nat) (z y : Nat)
    (ys : List Nat) :
    writeBytes (writeBytes buf p (xs ++ [z])) (p + xs.length) (y :: ys) =
      writeBytes buf p (xs ++ y :: ys) := by
  rw [writeBytes_append xs [z] buf p, writeBytes_append xs (y :: ys) buf p]
  show writeBytes ((writeBytes (writeBytes buf p xs) (p + xs.length) [z]).set
      (p + xs.length) y) (p + xs.length + 1) ys = _
  rw [show (writeBytes (writeBytes buf p xs) (p + xs.length) [z]) =
      (writeBytes buf p xs).set (p + xs.length) z from rfl, List.set_set]
  rfl

theorem writeBytes_set_last (buf : List Nat) (p : Nat) (xs : List Nat) (z : Nat) :
    (writeBytes buf p xs).set (p + xs.length) z = writeBytes buf p (xs ++ [z]) := by
  rw [writeBytes_append xs [z] buf p]
  rfl

theorem json__write_spec (text buf : List Nat) (off len : Nat)
    (h : (json__write text buf off len).1 ≠ 0) :
    json__write text buf off len = (text.length, writeBytes buf off (text ++ [0])) ∧
      text.length + 1 ≤ len := by
  unfold json__write at h ⊢
  split at h
  · simp at h
  · rename_i hlen
    rw [if_neg hlen]
    exact ⟨rfl, by omega⟩

theorem json__digits_spec : ∀ (fuel m : Nat) (buf : List Nat) (off n len : Nat),
    m < fuel →
    (json__digits fuel m buf off n len).1 ≠ 0 →
      json__digits fuel m buf off n len
        = (n + (natDigits m).length, writeBytes buf (off + n) (natDigits m).reverse) ∧
        n + (natDigits m).length + 1 ≤ len
  | 0, m, _, _, _, _, hf, _ => by omega
  | fuel + 1, m, buf, off, n, len, hf, h => by
    unfold json__digits at h ⊢
    split at h
    · exact absurd rfl h
    · rename_i hg
      rw [if_neg hg]
      dsimp only at h ⊢
      by_cases hm : m < 10
      · have hq : ¬(0 < m / 10) := by omega
        rw [if_neg hq] at h ⊢
        rw [natDigits_eq m, if_pos hm]
        refine ⟨?_, by simp; omega⟩
        simp only [List.length_cons, List.length_nil, List.reverse_cons, List.reverse_nil,
          List.nil_append, Prod.mk.injEq]
        refine ⟨trivial, ?_⟩
        show buf.set (off + n) (48 + m % 10) = writeBytes buf (off + n) [48 + m]
        rw [Nat.mod_eq_of_lt hm]
        rfl
      · have hq : 0 < m / 10 := by omega
        rw [if_pos hq] at h ⊢
        have hrec := json__digits_spec fuel (m / 10) (buf.set (off + n) (48 + m % 10)) off
          (n + 1) len (by omega) h
        rw [hrec.1]
        rw [natDigits_eq m, if_neg hm]
        refine ⟨?_, by simp at hrec ⊢; omega⟩
        simp only [List.length_append, List.length_cons, List.length_nil, List.reverse_append,
          List.reverse_cons, List.reverse_nil, List.nil_append, Prod.mk.injEq]
        refine ⟨by first | trivial | omega, ?_⟩
        show writeBytes (buf.set (off + n) (48 + m % 10)) (off + (n + 1))
            (natDigits (m / 10)).reverse =
          writeBytes buf (off + n) ((48 + m % 10) :: (natDigits (m / 10)).reverse)
        rfl

theorem neg_toNat_eq_natAbs {number : Int} (h : number < 0) : (-number).toNat = number.natAbs := by
  omega

theorem json__stringify_number_spec (number : Int) (buf : List Nat) (off len : Nat)
    (hlo : -(2 ^ 31) ≤ number) (hhi : number < 2 ^ 31)
    (hbuf : off + len ≤ buf.length)
    (h : (json__stringify_number number buf off len).1 ≠ 0) :
    json__stringify_number number buf off len
      = ((renderNum number).length, writeBytes buf off (renderNum number ++ [0])) ∧
      (renderNum number).length + 1 ≤ len := by
  unfold json__stringify_number at h ⊢
  by_cases hneg : number < 0
  · rw [if_pos hneg] at h ⊢
    by_cases hlen2 : len < 2
    · rw [if_pos hlen2] at h
      exact absurd rfl h
    · rw [if_neg hlen2] at h ⊢
      dsimp only at h ⊢
      by_cases hmin : number = -(2 ^ 31)
      · have hs : json__sub_ovf 0 number = none := by
          unfold json__sub_ovf
          rw [if_neg (by omega)]
        rw [hs] at h ⊢
        dsimp only at h ⊢
        subst hmin
        have he1 : ((49 + -(-2 ^ 31 + 1) % 10 : Int)).toNat = 56 := by decide
        have he2 : ((-(-2 ^ 31 + 1) / 10 : Int)).toNat = 214748364 := by decide
        rw [he1, he2] at h ⊢
        rcases hd : json__digits (214748364 + 1) 214748364
            ((buf.set off 45).set (off + 1) 56) (off + 1) 1 (len - 1) with ⟨r, b⟩
        rw [hd] at h
        cases r with
        | zero => exact absurd rfl h
        | succ r =>
          have hspec := json__digits_spec (214748364 + 1) 214748364
            ((buf.set off 45).set (off + 1) 56) (off + 1) 1 (len - 1) (by omega)
            (by rw [hd]; simp)
          rw [hd] at hspec
          obtain ⟨hval, hbound⟩ := hspec
          have hlen9 : (natDigits 214748364).length = 9 := by decide
          have hr : r + 1 = 10 := by
            have := congrArg Prod.fst hval
            simp at this
            omega
          have hbval : b = writeBytes (buf.set off 45) (off + 1)
              (56 :: (natDigits 214748364).reverse) := by
            have := congrArg Prod.snd hval
            simp at this
            rw [this]
            rfl
          show ((r + 1) + 1, (json__reverse b (off + 1) (r + 1)).set (off + 1 + (r + 1)) 0)
              = _ ∧ _
          rw [hbval, hr]
          have hrev : json__reverse (writeBytes (buf.set off 45) (off + 1)
              (56 :: (natDigits 214748364).reverse)) (off + 1) 10
              = writeBytes (buf.set off 45) (off + 1)
                  (56 :: (natDigits 214748364).reverse).reverse := by
            have hlist : (56 :: (natDigits 214748364).reverse).length = 10 := by
              simp [hlen9]
            rw [← hlist]
            apply json__reverse_writeBytes
            rw [hlist]
            simp
            omega
          rw [hrev]
          have hd2 : (56 :: (natDigits 214748364).reverse).reverse = natDigits 2147483648 := by
            decide
          rw [hd2]
          have hset : (writeBytes (buf.set off 45) (off + 1) (natDigits 2147483648)).set
              (off + 1 + 10) 0
              = writeBytes (buf.set off 45) (off + 1) (natDigits 2147483648 ++ [0]) := by
            rw [← writeBytes_set_last]
            rw [show (natDigits 2147483648).length = 10 from by decide]
          rw [hset]
          have hmerge : writeBytes (buf.set off 45) (off + 1) (natDigits 2147483648 ++ [0])
              = writeBytes buf off (renderNum (-(2 ^ 31)) ++ [0]) := by
            rw [writeBytes_singleton buf off 45]
            rw [show renderNum (-(2 ^ 31)) ++ [0] = 45 :: (natDigits 2147483648 ++ [0]) by decide]
            rfl
          rw [hmerge]
          constructor
          · rw [show (renderNum (-(2 ^ 31))).length = 11 by decide]
          · rw [show (renderNum (-(2 ^ 31))).length = 11 by decide]
            omega
      · have hs : json__sub_ovf 0 number = some (-number) := by
          unfold json__sub_ovf
          rw [if_pos (by omega)]
          congr 1
          omega
        rw [hs] at h ⊢
        dsimp only at h ⊢
        rw [neg_toNat_eq_natAbs hneg] at h ⊢
        rcases hd : json__digits (number.natAbs + 1) number.natAbs (buf.set off 45)
            (off + 1) 0 (len - 1) with ⟨r, b⟩
        rw [hd] at h
        cases r with
        | zero => exact absurd rfl h
        | succ r =>
          have hspec := json__digits_spec (number.natAbs + 1) number.natAbs (buf.set off 45)
            (off + 1) 0 (len - 1) (by omega) (by rw [hd]; simp)
          rw [hd] at hspec
          obtain ⟨hval, hbound⟩ := hspec
          have hr : r + 1 = (natDigits number.natAbs).length := by
            have := congrArg Prod.fst hval
            simp at this
            omega
          have hbval : b = writeBytes (buf.set off 45) (off + 1)
              (natDigits number.natAbs).reverse := by
            have := congrArg Prod.snd hval
            simp at this
            rw [this]
          show ((r + 1) + 1, (json__reverse b (off + 1) (r + 1)).set (off + 1 + (r + 1)) 0)
              = _ ∧ _
          rw [hbval, hr]
          have hrev : json__reverse (writeBytes (buf.set off 45) (off + 1)
              (natDigits number.natAbs).reverse) (off + 1) (natDigits number.natAbs).length
              = writeBytes (buf.set off 45) (off + 1) (natDigits number.natAbs) := by
            rw [show (natDigits number.natAbs).length
                = (natDigits number.natAbs).reverse.length by simp]
            rw [json__reverse_writeBytes]
            · rw [List.reverse_reverse]
            · simp
              omega
          rw [hrev]
          rw [show off + 1 + (natDigits number.natAbs).length
              = off + 1 + (natDigits number.natAbs).length from rfl]
          rw [writeBytes_set_last]
          have hmerge : writeBytes (buf.set off 45) (off + 1) (natDigits number.natAbs ++ [0])
              = writeBytes buf off (renderNum number ++ [0]) := by
            rw [writeBytes_singleton buf off 45]
            rw [show renderNum number ++ [0] = 45 :: (natDigits number.natAbs ++ [0]) by
              unfold renderNum
              rw [if_pos hneg]
              simp]
            rfl
          rw [hmerge]
          have hrl : (renderNum number).length = (natDigits number.natAbs).length + 1 := by
            unfold renderNum
            rw [if_pos hneg]
            simp
          constructor
          · rw [hrl]
          · rw [hrl]
            omega
  · rw [if_neg hneg] at h ⊢
    rcases hd : json__digits (number.toNat + 1) number.toNat buf off 0 len with ⟨r, b⟩
    rw [hd] at h
    cases r with
    | zero => exact absurd rfl h
    | succ r =>
      have hspec := json__digits_spec (number.toNat + 1) number.toNat buf off 0 len
        (by omega) (by rw [hd]; simp)
      rw [hd] at hspec
      obtain ⟨hval, hbound⟩ := hspec
      have hr : r + 1 = (natDigits number.toNat).length := by
        have := congrArg Prod.fst hval
        simp at this
        omega
      have hbval : b = writeBytes buf off (natDigits number.toNat).reverse := by
        have := congrArg Prod.snd hval
        simp at this
        rw [this]
      show (r + 1, (json__reverse b off (r + 1)).set (off + (r + 1)) 0) = _ ∧ _
      rw [hbval, hr]
      have hrev : json__reverse (writeBytes buf off (natDigits number.toNat).reverse) off
          (natDigits number.toNat).length = writeBytes buf off (natDigits number.toNat) := by
        rw [show (natDigits number.toNat).length
            = (natDigits number.toNat).reverse.length by simp]
        rw [json__reverse_writeBytes]
        · rw [List.reverse_reverse]
        · simp
          omega
      rw [hrev, writeBytes_set_last]
      have hren : renderNum number = natDigits number.toNat := by
        unfold renderNum
        rw [if_neg hneg]
        simp
        congr 1
        omega
      rw [hren]
      exact ⟨rfl, by omega⟩

theorem json__stringify_string_loop_spec :
    ∀ (s buf : List Nat) (off n len : Nat),
      (json__stringify_string_loop s buf off n len).1 ≠ 0 →
      n + 2 ≤ len →
        json__stringify_string_loop s buf off n len
          = (n + (escBytes s).length + 1, writeBytes buf (off + n) (escBytes s ++ [34, 0]))
        ∧ n + (escBytes s).length + 2 ≤ len
  | [], buf, off, n, len, h, hn => by
    unfold json__stringify_string_loop
    exact ⟨rfl, by simp [escBytes]; omega⟩
  | c :: s, buf, off, n, len, h, hn => by
    unfold json__stringify_string_loop at h ⊢
    by_cases h1 : (c == 34) = true
    · rw [if_pos h1] at h ⊢
      have hesc : json__escape_byte c = [92, 34] := by
        unfold json__escape_byte
        rw [if_pos h1]
      by_cases hg : len < n + 4
      · rw [if_pos hg] at h
        exact absurd rfl h
      · rw [if_neg hg] at h ⊢
        have hih := json__stringify_string_loop_spec s (writeBytes buf (off + n) [92, 34]) off
          (n + 2) len h (by omega)
        refine ⟨hih.1.trans ?_, ?_⟩
        · rw [show escBytes (c :: s) = json__escape_byte c ++ escBytes s from rfl, hesc,
            List.append_assoc, writeBytes_append [92, 34] (escBytes s ++ [34, 0]) buf (off + n)]
          simp only [Prod.mk.injEq, List.length_append, List.length_cons, List.length_nil]
          exact ⟨by omega, rfl⟩
        · have hb := hih.2
          rw [show escBytes (c :: s) = json__escape_byte c ++ escBytes s from rfl, hesc]
          simp only [List.length_append, List.length_cons, List.length_nil]
          omega
    · rw [if_neg h1] at h ⊢
      by_cases h2 : (c == 92) = true
      · rw [if_pos h2] at h ⊢
        have hesc : json__escape_byte c = [92, 92] := by
          unfold json__escape_byte
          rw [if_neg h1, if_pos h2]
        by_cases hg : len < n + 4
        · rw [if_pos hg] at h
          exact absurd rfl h
        · rw [if_neg hg] at h ⊢
          have hih := json__stringify_string_loop_spec s (writeBytes buf (off + n) [92, 92]) off
            (n + 2) len h (by omega)
          refine ⟨hih.1.trans ?_, ?_⟩
          · rw [show escBytes (c :: s) = json__escape_byte c ++ escBytes s from rfl, hesc,
              List.append_assoc, writeBytes_append [92, 92] (escBytes s ++ [34, 0]) buf (off + n)]
            simp only [Prod.mk.injEq, List.length_append, List.length_cons, List.length_nil]
            exact ⟨by omega, rfl⟩
          · have hb := hih.2
            rw [show escBytes (c :: s) = json__escape_byte c ++ escBytes s from rfl, hesc]
            simp only [List.length_append, List.length_cons, List.length_nil]
            omega
      · rw [if_neg h2] at h ⊢
        by_cases h3 : (c == 13) = true
        · rw [if_pos h3] at h ⊢
          have hesc : json__escape_byte c = [92, 114] := by
            unfold json__escape_byte
            rw [if_neg h1, if_neg h2, if_pos h3]
          by_cases hg : len < n + 4
          · rw [if_pos hg] at h
            exact absurd rfl h
          · rw [if_neg hg] at h ⊢
            have hih := json__stringify_string_loop_spec s (writeBytes buf (off + n) [92, 114]) off
              (n + 2) len h (by omega)
            refine ⟨hih.1.trans ?_, ?_⟩
            · rw [show escBytes (c :: s) = json__escape_byte c ++ escBytes s from rfl, hesc,
                List.append_assoc, writeBytes_append [92, 114] (escBytes s ++ [34, 0]) buf (off + n)]
              simp only [Prod.mk.injEq, List.length_append, List.length_cons, List.length_nil]
              exact ⟨by omega, rfl⟩
            · have hb := hih.2
              rw [show escBytes (c :: s) = json__escape_byte c ++ escBytes s from rfl, hesc]
              simp only [List.length_append, List.length_cons, List.length_nil]
              omega
        · rw [if_neg h3] at h ⊢
          by_cases h4 : (c == 10) = true
          · rw [if_pos h4] at h ⊢
            have hesc : json__escape_byte c = [92, 110] := by
              unfold json__escape_byte
              rw [if_neg h1, if_neg h2, if_neg h3, if_pos h4]
            by_cases hg : len < n + 4
            · rw [if_pos hg] at h
              exact absurd rfl h
            · rw [if_neg hg] at h ⊢
              have hih := json__stringify_string_loop_spec s (writeBytes buf (off + n) [92, 110]) off
                (n + 2) len h (by omega)
              refine ⟨hih.1.trans ?_, ?_⟩
              · rw [show escBytes (c :: s) = json__escape_byte c ++ escBytes s from rfl, hesc,
                  List.append_assoc, writeBytes_append [92, 110] (escBytes s ++ [34, 0]) buf (off + n)]
                simp only [Prod.mk.injEq, List.length_append, List.length_cons, List.length_nil]
                exact ⟨by omega, rfl⟩
              · have hb := hih.2
                rw [show escBytes (c :: s) = json__escape_byte c ++ escBytes s from rfl, hesc]
                simp only [List.length_append, List.length_cons, List.length_nil]
                omega
          · rw [if_neg h4] at h ⊢
            by_cases h5 : (c == 9) = true
            · rw [if_pos h5] at h ⊢
              have hesc : json__escape_byte c = [92, 116] := by
                unfold json__escape_byte
                rw [if_neg h1, if_neg h2, if_neg h3, if_neg h4, if_pos h5]
              by_cases hg : len < n + 4
              · rw [if_pos hg] at h
                exact absurd rfl h
              · rw [if_neg hg] at h ⊢
                have hih := json__stringify_string_loop_spec s (writeBytes buf (off + n) [92, 116]) off
                  (n + 2) len h (by omega)
                refine ⟨hih.1.trans ?_, ?_⟩
                · rw [show escBytes (c :: s) = json__escape_byte c ++ escBytes s from rfl, hesc,
                    List.append_assoc, writeBytes_append [92, 116] (escBytes s ++ [34, 0]) buf (off + n)]
                  simp only [Prod.mk.injEq, List.length_append, List.length_cons, List.length_nil]
                  exact ⟨by omega, rfl⟩
                · have hb := hih.2
                  rw [show escBytes (c :: s) = json__escape_byte c ++ escBytes s from rfl, hesc]
                  simp only [List.length_append, List.length_cons, List.length_nil]
                  omega
            · rw [if_neg h5] at h ⊢
              by_cases h6 : c &&& 255 < 32
              · rw [if_pos h6] at h ⊢
                have hesc : json__escape_byte c = [92, 117, 48, 48, json__hex.getD (c >>> 4 &&& 15) 0, json__hex.getD (c &&& 15) 0] := by
                  unfold json__escape_byte
                  rw [if_neg h1, if_neg h2, if_neg h3, if_neg h4, if_neg h5, if_pos h6]
                by_cases hg : len < n + 8
                · rw [if_pos hg] at h
                  exact absurd rfl h
                · rw [if_neg hg] at h ⊢
                  have hih := json__stringify_string_loop_spec s (writeBytes buf (off + n) [92, 117, 48, 48, json__hex.getD (c >>> 4 &&& 15) 0, json__hex.getD (c &&& 15) 0]) off
                    (n + 6) len h (by omega)
                  refine ⟨hih.1.trans ?_, ?_⟩
                  · rw [show escBytes (c :: s) = json__escape_byte c ++ escBytes s from rfl, hesc,
                      List.append_assoc, writeBytes_append [92, 117, 48, 48, json__hex.getD (c >>> 4 &&& 15) 0, json__hex.getD (c &&& 15) 0] (escBytes s ++ [34, 0]) buf (off + n)]
                    simp only [Prod.mk.injEq, List.length_append, List.length_cons, List.length_nil]
                    exact ⟨by omega, rfl⟩
                  · have hb := hih.2
                    rw [show escBytes (c :: s) = json__escape_byte c ++ escBytes s from rfl, hesc]
                    simp only [List.length_append, List.length_cons, List.length_nil]
                    omega
              · rw [if_neg h6] at h ⊢
                have hesc : json__escape_byte c = [c] := by
                  unfold json__escape_byte
                  rw [if_neg h1, if_neg h2, if_neg h3, if_neg h4, if_neg h5, if_neg h6]
                by_cases hg : len < n + 4
                · rw [if_pos hg] at h
                  exact absurd rfl h
                · rw [if_neg hg] at h ⊢
                  have hih := json__stringify_string_loop_spec s (writeBytes buf (off + n) [c]) off
                    (n + 1) len h (by omega)
                  refine ⟨hih.1.trans ?_, ?_⟩
                  · rw [show escBytes (c :: s) = json__escape_byte c ++ escBytes s from rfl, hesc,
                      List.append_assoc, writeBytes_append [c] (escBytes s ++ [34, 0]) buf (off + n)]
                    simp only [Prod.mk.injEq, List.length_append, List.length_cons, List.length_nil]
                    exact ⟨by omega, rfl⟩
                  · have hb := hih.2
                    rw [show escBytes (c :: s) = json__escape_byte c ++ escBytes s from rfl, hesc]
                    simp only [List.length_append, List.length_cons, List.length_nil]
                    omega

theorem json__stringify_string_spec (s buf : List Nat) (off len : Nat)
    (h : (json__stringify_string s buf off len).1 ≠ 0) :
    json__stringify_string s buf off len
      = ((renderStr s).length, writeBytes buf off (renderStr s ++ [0])) ∧
      (renderStr s).length + 1 ≤ len := by
  unfold json__stringify_string at h ⊢
  split at h
  · exact absurd rfl h
  · rename_i hlen
    rw [if_neg hlen]
    have hloop := json__stringify_string_loop_spec s (buf.set off 34) off 1 len h (by omega)
    refine ⟨hloop.1.trans ?_, ?_⟩
    · rw [writeBytes_singleton buf off 34]
      rw [show renderStr s ++ [0] = 34 :: (escBytes s ++ [34, 0]) by simp [renderStr]]
      simp only [Prod.mk.injEq]
      constructor
      · simp [renderStr]
        omega
      · rfl
    · have hb := hloop.2
      simp only [renderStr, List.length_cons, List.length_append, List.length_nil]
      omega

theorem json__epilogue_ne {off len : Nat} {r : Nat × List Nat}
    (h : (json__epilogue off len r).1 ≠ 0) : r.1 ≠ 0 := by
  unfold json__epilogue at h
  intro hr
  rw [if_pos (by simp [hr])] at h
  exact h rfl

theorem json__epilogue_spec (off len : Nat) (r : Nat × List Nat) (h : r.1 ≠ 0) :
    json__epilogue off len r = r := by
  unfold json__epilogue
  rw [if_neg (by simpa using h)]

theorem writeBytes_overwrite2 (buf : List Nat) (p : Nat) (xs : List Nat) (z : Nat)
    (ys : List Nat) (h : ys ≠ []) :
    writeBytes (writeBytes buf p (xs ++ [z])) (p + xs.length) ys =
      writeBytes buf p (xs ++ ys) := by
  rcases ys with _ | ⟨y, ys⟩
  · exact absurd rfl h
  · exact writeBytes_overwrite buf p xs z y ys

theorem writeBytes_reset_last (buf : List Nat) (p : Nat) (xs : List Nat) (z y : Nat) :
    (writeBytes buf p (xs ++ [z])).set (p + xs.length) y = writeBytes buf p (xs ++ [y]) := by
  rw [← writeBytes_set_last, ← writeBytes_set_last, List.set_set]

theorem json__members_tail_spec (k : List Nat) (v : JVal) (rest : JMembers)
    (buf : List Nat) (off n len : Nat)
    (ihv : ∀ (b : List Nat) (o l : Nat), JVal.wfNum v = true → o + l ≤ b.length →
        (json_stringify v b o l).1 ≠ 0 →
        json_stringify v b o l = ((render v).length, writeBytes b o (render v ++ [0]))
          ∧ (render v).length + 1 ≤ l)
    (ihr : ∀ (b : List Nat) (o m l : Nat), JMembers.wfNum rest = true → o + l ≤ b.length →
        (json__stringify_members rest b o m l).1 ≠ 0 →
        json__stringify_members rest b o m l
          = (m + (if 1 < m then renderMemberSep rest else renderMembersL rest).length + 1,
             writeBytes b (o + m)
               ((if 1 < m then renderMemberSep rest else renderMembersL rest) ++ [125, 0]))
          ∧ m + (if 1 < m then renderMemberSep rest else renderMembersL rest).length + 2 ≤ l)
    (hwv : JVal.wfNum v = true) (hwr : JMembers.wfNum rest = true)
    (hbuf : off + len ≤ buf.length)
    (h : (json__members_tail k v rest buf off n len).1 ≠ 0) :
    json__members_tail k v rest buf off n len
      = (n + (renderMembersL (JMembers.cons k v rest)).length + 1,
         writeBytes buf (off + n) (renderMembersL (JMembers.cons k v rest) ++ [125, 0]))
      ∧ n + (renderMembersL (JMembers.cons k v rest)).length + 2 ≤ len := by
  unfold json__members_tail at h ⊢
  rcases hs : json__stringify_string k buf (off + n) (len - n) with ⟨l, b⟩
  rw [hs] at h
  cases l with
  | zero => exact absurd rfl h
  | succ l0 =>
    have hstr := json__stringify_string_spec k buf (off + n) (len - n) (by rw [hs]; simp)
    rw [hs] at hstr
    obtain ⟨hstr1, hstr2⟩ := hstr
    have hl : l0 + 1 = (renderStr k).length := congrArg Prod.fst hstr1
    have hbdef : b = writeBytes buf (off + n) (renderStr k ++ [0]) := congrArg Prod.snd hstr1
    have hblen : b.length = buf.length := by rw [hbdef, length_writeBytes]
    have h2 : (if len < n + (l0 + 1) + 4 then ((0 : Nat), b)
        else
          match json_stringify v (b.set (off + n + (l0 + 1)) 58) (off + n + (l0 + 1) + 1)
              (len - (n + (l0 + 1) + 1)) with
          | (0, b2) => (0, b2)
          | (l2, b2) => json__stringify_members rest b2 off (n + (l0 + 1) + 1 + l2) len).1
        ≠ 0 := h
    show (if len < n + (l0 + 1) + 4 then ((0 : Nat), b)
        else
          match json_stringify v (b.set (off + n + (l0 + 1)) 58) (off + n + (l0 + 1) + 1)
              (len - (n + (l0 + 1) + 1)) with
          | (0, b2) => (0, b2)
          | (l2, b2) => json__stringify_members rest b2 off (n + (l0 + 1) + 1 + l2) len)
        = (n + (renderMembersL (JMembers.cons k v rest)).length + 1,
           writeBytes buf (off + n) (renderMembersL (JMembers.cons k v rest) ++ [125, 0]))
      ∧ n + (renderMembersL (JMembers.cons k v rest)).length + 2 ≤ len
    by_cases hg : len < n + (l0 + 1) + 4
    · rw [if_pos hg] at h2
      exact absurd rfl h2
    · rw [if_neg hg] at h2 ⊢
      rcases hv : json_stringify v (b.set (off + n + (l0 + 1)) 58) (off + n + (l0 + 1) + 1)
          (len - (n + (l0 + 1) + 1)) with ⟨l2, b2⟩
      rw [hv] at h2
      cases l2 with
      | zero => exact absurd rfl h2
      | succ l2 =>
        have hvv := ihv (b.set (off + n + (l0 + 1)) 58) (off + n + (l0 + 1) + 1)
          (len - (n + (l0 + 1) + 1)) hwv
          (by rw [List.length_set, hblen]; omega) (by rw [hv]; simp)
        rw [hv] at hvv
        obtain ⟨hvv1, hvv2⟩ := hvv
        have hl2 : l2 + 1 = (render v).length := congrArg Prod.fst hvv1
        have hb2def : b2 = writeBytes (b.set (off + n + (l0 + 1)) 58) (off + n + (l0 + 1) + 1)
            (render v ++ [0]) := congrArg Prod.snd hvv1
        have hb2len : b2.length = buf.length := by
          rw [hb2def, length_writeBytes, List.length_set, hblen]
        have h3 : (json__stringify_members rest b2 off (n + (l0 + 1) + 1 + (l2 + 1)) len).1
            ≠ 0 := h2
        have hrest := ihr b2 off (n + (l0 + 1) + 1 + (l2 + 1)) len hwr
          (by rw [hb2len]; exact hbuf) h3
        rw [if_pos (show 1 < n + (l0 + 1) + 1 + (l2 + 1) by omega)] at hrest
        have hbb2 : b2 = writeBytes buf (off + n) ((renderStr k ++ 58 :: render v) ++ [0]) := by
          rw [hb2def, hbdef, hl]
          rw [writeBytes_reset_last buf (off + n) (renderStr k) 0 58]
          rw [show off + n + (renderStr k).length + 1 = off + n + (renderStr k ++ [58]).length
            by simp only [List.length_append, List.length_cons, List.length_nil]; omega]
          rw [← writeBytes_append (renderStr k ++ [58]) (render v ++ [0]) buf (off + n)]
          rw [show (renderStr k ++ [58]) ++ (render v ++ [0])
              = (renderStr k ++ 58 :: render v) ++ [0] by simp]
        have hLc : (renderMembersL (JMembers.cons k v rest)).length
            = (renderStr k).length + 1 + (render v).length + (renderMemberSep rest).length := by
          rw [renderMembersL]
          simp only [List.length_append, List.length_cons]
          omega
        show json__stringify_members rest b2 off (n + (l0 + 1) + 1 + (l2 + 1)) len
            = (n + (renderMembersL (JMembers.cons k v rest)).length + 1,
               writeBytes buf (off + n) (renderMembersL (JMembers.cons k v rest) ++ [125, 0]))
          ∧ n + (renderMembersL (JMembers.cons k v rest)).length + 2 ≤ len
        refine ⟨hrest.1.trans ?_, ?_⟩
        · simp only [Prod.mk.injEq]
          constructor
          · omega
          · rw [hbb2, hl, hl2]
            rw [show off + (n + (renderStr k).length + 1 + (render v).length)
                = off + n + (renderStr k ++ 58 :: render v).length by
              simp only [List.length_append, List.length_cons]
              omega]
            rw [writeBytes_overwrite2 buf (off + n) (renderStr k ++ 58 :: render v) 0
              (renderMemberSep rest ++ [125, 0]) (by simp)]
            rw [show (renderStr k ++ 58 :: render v) ++ (renderMemberSep rest ++ [125, 0])
                = renderMembersL (JMembers.cons k v rest) ++ [125, 0] by
              rw [renderMembersL]
              simp]
        · have := hrest.2
          omega

theorem json_stringify_zero : ∀ (v : JVal) (buf : List Nat) (off : Nat),
    (json_stringify v buf off 0).1 = 0
  | .undef, _, _ => rfl
  | .jnull, _, _ => rfl
  | .jtrue, _, _ => rfl
  | .jfalse, _, _ => rfl
  | .str _, _, _ => rfl
  | .obj _, _, _ => rfl
  | .arr _, _, _ => rfl
  | .num number, buf, off => by
    rw [json_stringify]
    unfold json__stringify_number
    by_cases hneg : number < 0
    · rw [if_pos hneg, if_pos (by omega : (0 : Nat) < 2)]
      rfl
    · rw [if_neg hneg]
      unfold json__digits
      rw [if_pos (by omega : (0 : Nat) < 0 + 2)]
      rfl

theorem json__elems_tail_spec (v : JVal) (rest : JElems)
    (buf : List Nat) (off n len : Nat)
    (ihv : ∀ (b : List Nat) (o l : Nat), JVal.wfNum v = true → o + l ≤ b.length →
        (json_stringify v b o l).1 ≠ 0 →
        json_stringify v b o l = ((render v).length, writeBytes b o (render v ++ [0]))
          ∧ (render v).length + 1 ≤ l)
    (ihr : ∀ (b : List Nat) (o m l : Nat), JElems.wfNum rest = true → o + l ≤ b.length →
        1 ≤ m →
        (json__stringify_elems rest b o m l).1 ≠ 0 →
        json__stringify_elems rest b o m l
          = (m + (if 1 < m then renderElemSep rest else renderElemsL rest).length + 1,
             writeBytes b (o + m)
               ((if 1 < m then renderElemSep rest else renderElemsL rest) ++ [93, 0]))
          ∧ m + (if 1 < m then renderElemSep rest else renderElemsL rest).length + 2 ≤ l)
    (hwv : JVal.wfNum v = true) (hwr : JElems.wfNum rest = true)
    (hbuf : off + len ≤ buf.length) (hn : 1 ≤ n) (hnl : n ≤ len)
    (h : (json__elems_tail v rest buf off n len).1 ≠ 0) :
    json__elems_tail v rest buf off n len
      = (n + (renderElemsL (JElems.cons v rest)).length + 1,
         writeBytes buf (off + n) (renderElemsL (JElems.cons v rest) ++ [93, 0]))
      ∧ n + (renderElemsL (JElems.cons v rest)).length + 2 ≤ len := by
  unfold json__elems_tail at h ⊢
  rcases hv : json_stringify v buf (off + n) (len - n) with ⟨l, b⟩
  rw [hv] at h
  cases l with
  | zero => exact absurd rfl h
  | succ l0 =>
    have hvv := ihv buf (off + n) (len - n) hwv (by omega) (by rw [hv]; simp)
    rw [hv] at hvv
    obtain ⟨hvv1, hvv2⟩ := hvv
    have hl : l0 + 1 = (render v).length := congrArg Prod.fst hvv1
    have hbdef : b = writeBytes buf (off + n) (render v ++ [0]) := congrArg Prod.snd hvv1
    have hblen : b.length = buf.length := by rw [hbdef, length_writeBytes]
    have h2 : (json__stringify_elems rest b off (n + (l0 + 1)) len).1 ≠ 0 := h
    have hrest := ihr b off (n + (l0 + 1)) len hwr (by rw [hblen]; exact hbuf) (by omega) h2
    rw [if_pos (show 1 < n + (l0 + 1) by omega)] at hrest
    have hLc : (renderElemsL (JElems.cons v rest)).length
        = (render v).length + (renderElemSep rest).length := by
      rw [renderElemsL]
      simp only [List.length_append]
    show json__stringify_elems rest b off (n + (l0 + 1)) len
        = (n + (renderElemsL (JElems.cons v rest)).length + 1,
           writeBytes buf (off + n) (renderElemsL (JElems.cons v rest) ++ [93, 0]))
      ∧ n + (renderElemsL (JElems.cons v rest)).length + 2 ≤ len
    refine ⟨hrest.1.trans ?_, ?_⟩
    · simp only [Prod.mk.injEq]
      constructor
      · omega
      · rw [hbdef, hl]
        rw [show off + (n + (render v).length) = off + n + (render v).length by omega]
        rw [writeBytes_overwrite2 buf (off + n) (render v) 0
          (renderElemSep rest ++ [93, 0]) (by simp)]
        rw [show render v ++ (renderElemSep rest ++ [93, 0])
            = renderElemsL (JElems.cons v rest) ++ [93, 0] by
          rw [renderElemsL]
          simp]
    · have := hrest.2
      omega

mutual
theorem json_stringify_spec :
    ∀ (v : JVal) (buf : List Nat) (off len : Nat),
      JVal.wfNum v = true → off + len ≤ buf.length →
      (json_stringify v buf off len).1 ≠ 0 →
        json_stringify v buf off len
          = ((render v).length, writeBytes buf off (render v ++ [0]))
        ∧ (render v).length + 1 ≤ len
  | .undef, buf, off, len, _, _, h => by
    rw [json_stringify] at h
    exact absurd rfl (json__epilogue_ne h)
  | .jnull, buf, off, len, _, _, h => by
    rw [json_stringify] at h ⊢
    have hne := json__epilogue_ne h
    have hw := json__write_spec [110, 117, 108, 108] buf off len hne
    rw [json__epilogue_spec off len _ hne, hw.1]
    exact ⟨rfl, hw.2⟩
  | .jtrue, buf, off, len, _, _, h => by
    rw [json_stringify] at h ⊢
    have hne := json__epilogue_ne h
    have hw := json__write_spec [116, 114, 117, 101] buf off len hne
    rw [json__epilogue_spec off len _ hne, hw.1]
    exact ⟨rfl, hw.2⟩
  | .jfalse, buf, off, len, _, _, h => by
    rw [json_stringify] at h ⊢
    have hne := json__epilogue_ne h
    have hw := json__write_spec [102, 97, 108, 115, 101] buf off len hne
    rw [json__epilogue_spec off len _ hne, hw.1]
    exact ⟨rfl, hw.2⟩
  | .num number, buf, off, len, hwf, hbuf, h => by
    rw [json_stringify] at h ⊢
    have hne := json__epilogue_ne h
    simp only [JVal.wfNum, Bool.and_eq_true, decide_eq_true_eq] at hwf
    have hw := json__stringify_number_spec number buf off len hwf.1 hwf.2 hbuf hne
    rw [json__epilogue_spec off len _ hne, hw.1]
    exact ⟨rfl, hw.2⟩
  | .str s, buf, off, len, _, _, h => by
    rw [json_stringify] at h ⊢
    have hne := json__epilogue_ne h
    have hw := json__stringify_string_spec s buf off len hne
    rw [json__epilogue_spec off len _ hne, hw.1]
    exact ⟨rfl, hw.2⟩
  | .obj ms, buf, off, len, hwf, hbuf, h => by
    rw [json_stringify] at h ⊢
    have hne := json__epilogue_ne h
    rw [json__epilogue_spec off len _ hne]
    by_cases h3 : len < 3
    · rw [if_pos h3] at hne
      exact absurd rfl hne
    · rw [if_neg h3] at hne ⊢
      have hm := json__stringify_members_spec ms (buf.set off 123) off 1 len hwf
        (by rw [List.length_set]; exact hbuf) hne
      rw [if_neg (by omega : ¬(1 : Nat) < 1)] at hm
      have hLr : (render (JVal.obj ms)).length = (renderMembersL ms).length + 2 := by
        rw [render]
        simp only [List.length_cons, List.length_append, List.length_nil]
      refine ⟨hm.1.trans ?_, by have := hm.2; omega⟩
      rw [writeBytes_singleton buf off 123]
      rw [show render (JVal.obj ms) ++ [0] = 123 :: (renderMembersL ms ++ [125, 0]) by
        rw [render]
        simp]
      simp only [Prod.mk.injEq]
      exact ⟨by omega, rfl⟩
  | .arr es, buf, off, len, hwf, hbuf, h => by
    rw [json_stringify] at h ⊢
    have hne := json__epilogue_ne h
    rw [json__epilogue_spec off len _ hne]
    by_cases h3 : len < 3
    · rw [if_pos h3] at hne
      exact absurd rfl hne
    · rw [if_neg h3] at hne ⊢
      have hm := json__stringify_elems_spec es (buf.set off 91) off 1 len hwf
        (by rw [List.length_set]; exact hbuf) (by omega) hne
      rw [if_neg (by omega : ¬(1 : Nat) < 1)] at hm
      have hLr : (render (JVal.arr es)).length = (renderElemsL es).length + 2 := by
        rw [render]
        simp only [List.length_cons, List.length_append, List.length_nil]
      refine ⟨hm.1.trans ?_, by have := hm.2; omega⟩
      rw [writeBytes_singleton buf off 91]
      rw [show render (JVal.arr es) ++ [0] = 91 :: (renderElemsL es ++ [93, 0]) by
        rw [render]
        simp]
      simp only [Prod.mk.injEq]
      exact ⟨by omega, rfl⟩

theorem json__stringify_members_spec :
    ∀ (ms : JMembers) (buf : List Nat) (off n len : Nat),
      JMembers.wfNum ms = true → off + len ≤ buf.length →
      (json__stringify_members ms buf off n len).1 ≠ 0 →
        json__stringify_members ms buf off n len
          = (n + (if 1 < n then renderMemberSep ms else renderMembersL ms).length + 1,
             writeBytes buf (off + n)
               ((if 1 < n then renderMemberSep ms else renderMembersL ms) ++ [125, 0]))
        ∧ n + (if 1 < n then renderMemberSep ms else renderMembersL ms).length + 2 ≤ len
  | .nil, buf, off, n, len, _, _, h => by
    rw [json__stringify_members] at h ⊢
    split at h
    · exact absurd rfl h
    · rename_i hgd
      rw [if_neg hgd]
      have hbytes : (if 1 < n then renderMemberSep JMembers.nil
          else renderMembersL JMembers.nil) = [] := by
        split <;> rfl
      rw [hbytes]
      refine ⟨?_, by simp only [List.length_nil]; omega⟩
      simp only [Prod.mk.injEq, List.length_nil, List.nil_append]
      exact ⟨trivial, rfl⟩
  | .cons k v rest, buf, off, n, len, hwf, hbuf, h => by
    simp only [JMembers.wfNum, Bool.and_eq_true] at hwf
    rw [json__stringify_members] at h ⊢
    try dsimp only at h ⊢
    by_cases h1 : 1 < n
    · rw [if_pos h1] at h ⊢
      by_cases h2 : len < n + 6
      · rw [if_pos h2] at h
        exact absurd rfl h
      · rw [if_neg h2] at h ⊢
        have h' : (json__members_tail k v rest (buf.set (off + n) 44) off (n + 1) len).1 ≠ 0 := h
        have hg := json__members_tail_spec k v rest (buf.set (off + n) 44) off (n + 1) len
          (fun b o l => json_stringify_spec v b o l)
          (fun b o m l => json__stringify_members_spec rest b o m l)
          hwf.1 hwf.2 (by rw [List.length_set]; exact hbuf) h'
        rw [if_pos h1]
        have hsep : (renderMemberSep (JMembers.cons k v rest)).length
            = (renderMembersL (JMembers.cons k v rest)).length + 1 := by
          rw [renderMemberSep, renderMembersL]
          simp only [List.length_cons]
        refine ⟨?_, by have := hg.2; omega⟩
        show json__members_tail k v rest (buf.set (off + n) 44) off (n + 1) len
            = (n + (renderMemberSep (JMembers.cons k v rest)).length + 1,
               writeBytes buf (off + n) (renderMemberSep (JMembers.cons k v rest) ++ [125, 0]))
        rw [hg.1]
        rw [writeBytes_singleton buf (off + n) 44]
        rw [show renderMemberSep (JMembers.cons k v rest) ++ [125, 0]
            = 44 :: (renderMembersL (JMembers.cons k v rest) ++ [125, 0]) by
          rw [renderMemberSep, renderMembersL]
          simp]
        simp only [Prod.mk.injEq]
        exact ⟨by omega, rfl⟩
    · rw [if_neg h1] at h ⊢
      have h' : (json__members_tail k v rest buf off n len).1 ≠ 0 := h
      have hg := json__members_tail_spec k v rest buf off n len
        (fun b o l => json_stringify_spec v b o l)
        (fun b o m l => json__stringify_members_spec rest b o m l)
        hwf.1 hwf.2 hbuf h'
      rw [if_neg h1]
      exact hg

theorem json__stringify_elems_spec :
    ∀ (es : JElems) (buf : List Nat) (off n len : Nat),
      JElems.wfNum es = true → off + len ≤ buf.length → 1 ≤ n →
      (json__stringify_elems es buf off n len).1 ≠ 0 →
        json__stringify_elems es buf off n len
          = (n + (if 1 < n then renderElemSep es else renderElemsL es).length + 1,
             writeBytes buf (off + n)
               ((if 1 < n then renderElemSep es else renderElemsL es) ++ [93, 0]))
        ∧ n + (if 1 < n then renderElemSep es else renderElemsL es).length + 2 ≤ len
  | .nil, buf, off, n, len, _, _, _, h => by
    rw [json__stringify_elems] at h ⊢
    split at h
    · exact absurd rfl h
    · rename_i hgd
      rw [if_neg hgd]
      have hbytes : (if 1 < n then renderElemSep JElems.nil
          else renderElemsL JElems.nil) = [] := by
        split <;> rfl
      rw [hbytes]
      refine ⟨?_, by simp only [List.length_nil]; omega⟩
      simp only [Prod.mk.injEq, List.length_nil, List.nil_append]
      exact ⟨trivial, rfl⟩
  | .cons v rest, buf, off, n, len, hwf, hbuf, hn, h => by
    simp only [JElems.wfNum, Bool.and_eq_true] at hwf
    rw [json__stringify_elems] at h ⊢
    try dsimp only at h ⊢
    by_cases h1 : 1 < n
    · rw [if_pos h1] at h ⊢
      by_cases h2 : len < n + 4
      · rw [if_pos h2] at h
        exact absurd rfl h
      · rw [if_neg h2] at h ⊢
        have h' : (json__elems_tail v rest (buf.set (off + n) 44) off (n + 1) len).1 ≠ 0 := h
        have hg := json__elems_tail_spec v rest (buf.set (off + n) 44) off (n + 1) len
          (fun b o l => json_stringify_spec v b o l)
          (fun b o m l => json__stringify_elems_spec rest b o m l)
          hwf.1 hwf.2 (by rw [List.length_set]; exact hbuf) (by omega) (by omega) h'
        rw [if_pos h1]
        have hsep : (renderElemSep (JElems.cons v rest)).length
            = (renderElemsL (JElems.cons v rest)).length + 1 := by
          rw [renderElemSep, renderElemsL]
          simp only [List.length_cons]
        refine ⟨?_, by have := hg.2; omega⟩
        show json__elems_tail v rest (buf.set (off + n) 44) off (n + 1) len
            = (n + (renderElemSep (JElems.cons v rest)).length + 1,
               writeBytes buf (off + n) (renderElemSep (JElems.cons v rest) ++ [93, 0]))
        rw [hg.1]
        rw [writeBytes_singleton buf (off + n) 44]
        rw [show renderElemSep (JElems.cons v rest) ++ [93, 0]
            = 44 :: (renderElemsL (JElems.cons v rest) ++ [93, 0]) by
          rw [renderElemSep, renderElemsL]
          simp]
        simp only [Prod.mk.injEq]
        exact ⟨by omega, rfl⟩
    · rw [if_neg h1] at h ⊢
      have hnl : n ≤ len := by
        by_contra hc
        apply h
        show (json__elems_tail v rest buf off n len).1 = 0
        unfold json__elems_tail
        rw [show len - n = 0 by omega]
        rcases hv : json_stringify v buf (off + n) 0 with ⟨l, b⟩
        have hz := json_stringify_zero v buf (off + n)
        rw [hv] at hz
        have hl0 : l = 0 := hz
        subst hl0
        rfl
      have h' : (json__elems_tail v rest buf off n len).1 ≠ 0 := h
      have hg := json__elems_tail_spec v rest buf off n len
        (fun b o l => json_stringify_spec v b o l)
        (fun b o m l => json__stringify_elems_spec rest b o m l)
        hwf.1 hwf.2 hbuf hn hnl h'
      rw [if_neg h1]
      exact hg
end

theorem getD_set_self_zero (l : List Nat) (i : Nat) : (l.set i 0).getD i 0 = 0 := by
  rcases h : l[i]? with _ | x
  · simp [List.getD_eq_getElem?_getD, List.getElem?_set_self', h]
  · simp [List.getD_eq_getElem?_getD, List.getElem?_set_self', h]

theorem json__epilogue_fail_first_byte (off len : Nat) (r : Nat × List Nat)
    (h : (json__epilogue off len r).1 = 0) (hlen : 0 < len) :
    ((json__epilogue off len r).2).getD off 0 = 0 := by
  unfold json__epilogue at h ⊢
  by_cases hr : r.1 = 0
  · rw [if_pos (by simp [hr])]
    dsimp only
    rw [if_pos hlen]
    exact getD_set_self_zero r.2 off
  · rw [if_neg (by simp [hr])] at h
    exact absurd h hr

theorem json_stringify_fail_first_byte (v : JVal) (buf : List Nat) (off len : Nat)
    (h : (json_stringify v buf off len).1 = 0) (hl : 0 < len) :
    ((json_stringify v buf off len).2).getD off 0 = 0 := by
  cases v <;>
    · rw [json_stringify] at h ⊢
      exact json__epilogue_fail_first_byte off len _ h hl

/-- C7: for every value whose numeric payloads fit the C `JsonNumber` type, every
buffer, and every capacity not exceeding the buffer: when `json_stringify`
returns a nonzero length `r`, it has written exactly the rendered JSON text of
the value followed by a NUL terminator, `r` is that text's length (excluding
the terminator), and `r + 1 ≤ capacity`; when it returns 0 and the capacity is
nonzero, the buffer's first byte has been zeroed. -/
theorem stringify_contract (v : JVal) (buf : List Nat) (len : Nat)
    (hwf : JVal.wfNum v = true) (hcap : len ≤ buf.length) :
    (∀ r out, json_stringify v buf 0 len = (r, out) → r ≠ 0 →
        r = (render v).length ∧ r + 1 ≤ len
          ∧ out = writeBytes buf 0 (render v ++ [0])
          ∧ out.getD r 0 = 0)
    ∧ ((json_stringify v buf 0 len).1 = 0 → 0 < len →
        ((json_stringify v buf 0 len).2).getD 0 0 = 0) := by
  constructor
  · intro r out heq hr
    have hs := json_stringify_spec v buf 0 len hwf (by omega) (by rw [heq]; exact hr)
    rw [heq] at hs
    obtain ⟨hs1, hs2⟩ := hs
    have hr' : r = (render v).length := congrArg Prod.fst hs1
    have hout : out = writeBytes buf 0 (render v ++ [0]) := congrArg Prod.snd hs1
    refine ⟨hr', by omega, hout, ?_⟩
    rw [hout, hr', ← writeBytes_set_last buf 0 (render v) 0, Nat.zero_add]
    exact getD_set_self_zero _ _
  · intro h0 hl
    exact json_stringify_fail_first_byte v buf 0 len h0 hl

theorem stringify_contract_witness :
    (1 : Nat) = (render (JVal.num 7)).length ∧ (1 : Nat) + 1 ≤ 8
      ∧ [55, 0, 1, 1, 1, 1, 1, 1] = writeBytes (List.replicate 8 1) 0 (render (JVal.num 7) ++ [0])
      ∧ List.getD [55, 0, 1, 1, 1, 1, 1, 1] 1 0 = 0 :=
  (stringify_contract (JVal.num 7) (List.replicate 8 1) 8 (by decide) (by decide)).1
    1 [55, 0, 1, 1, 1, 1, 1, 1] (by decide) (by decide)

/-- C5: stringify-then-parse of the extreme `int32_t` values returns the
original value exactly: `-2147483648` stringifies to the 11-byte text
`-2147483648` (via the overflow-checked negation's fallback that computes the
last digit by modular arithmetic on the still-negative value) and parses back
to the same number, and `2147483647` stringifies to 10 bytes and parses back
likewise. -/
theorem numeric_extremes_roundtrip :
    ((json_stringify (JVal.num (-2147483648)) (List.replicate 16 0) 0 16).1 = 11
      ∧ ((json_stringify (JVal.num (-2147483648)) (List.replicate 16 0) 0 16).2).take 11
          = [45, 50, 49, 52, 55, 52, 56, 51, 54, 52, 56]
      ∧ (json_parse 2
            (((json_stringify (JVal.num (-2147483648)) (List.replicate 16 0) 0 16).2).take 11)
            (json_arena_init (List.replicate 32 0) 32)).2
          = some ([], JVal.num (-2147483648)))
    ∧ ((json_stringify (JVal.num 2147483647) (List.replicate 16 0) 0 16).1 = 10
      ∧ ((json_stringify (JVal.num 2147483647) (List.replicate 16 0) 0 16).2).take 10
          = [50, 49, 52, 55, 52, 56, 51, 54, 52, 55]
      ∧ (json_parse 2
            (((json_stringify (JVal.num 2147483647) (List.replicate 16 0) 0 16).2).take 10)
            (json_arena_init (List.replicate 32 0) 32)).2
          = some ([], JVal.num 2147483647)) := by decide

theorem json_parse_unrecognized (fuel : Nat) (s : List Nat) (a : JsonArena)
    (h : json__lead (s.headD 0) = false) :
    json_parse fuel s a = (a, none) := by
  cases fuel with
  | zero => rw [json_parse]
  | succ f =>
    rw [json_parse]
    split <;>
      first
        | rfl
        | (rename_i heq
           rw [heq] at h
           simp [json__lead, json__is_digit] at h)

theorem json_parse_dispatch_object (f : Nat) (s : List Nat) (a : JsonArena)
    (h : s.headD 0 = 123) :
    json_parse (f + 1) s a = json__parse_object f s a := by
  rw [json_parse, h]

theorem json_parse_dispatch_array (f : Nat) (s : List Nat) (a : JsonArena)
    (h : s.headD 0 = 91) :
    json_parse (f + 1) s a = json__parse_array f s a := by
  rw [json_parse, h]

theorem json_parse_dispatch_string (f : Nat) (s : List Nat) (a : JsonArena)
    (h : s.headD 0 = 34) :
    json_parse (f + 1) s a = json__parse_string_value s a := by
  rw [json_parse, h]

theorem json_parse_dispatch_simple (f : Nat) (s : List Nat) (a : JsonArena)
    (h : s.headD 0 = 116 ∨ s.headD 0 = 102 ∨ s.headD 0 = 110) :
    json_parse (f + 1) s a = (a, json__parse_simple s) := by
  rcases h with h | h | h <;> rw [json_parse, h]

theorem json_parse_dispatch_number (f : Nat) (s : List Nat) (a : JsonArena)
    (h : s.headD 0 = 45 ∨ s.headD 0 = 43 ∨ json__is_digit (s.headD 0) = true) :
    json_parse (f + 1) s a = json__parse_number s a := by
  rcases h with h | h | h
  · rw [json_parse, h]
  · rw [json_parse, h]
  · have h48 : 48 ≤ s.headD 0 ∧ s.headD 0 ≤ 57 := by
      simpa [json__is_digit] using h
    set c := s.headD 0 with hc
    obtain ⟨h1, h2⟩ := h48
    interval_cases c <;> rw [json_parse, ← hc]

/-- C3 counterexample: the input `" 1"` — whitespace followed by a valid JSON
value — fails (`json_parse` returns the null position with the arena
unchanged), contradicting the claim that the top-level parse skips leading
whitespace; once the caller pre-skips the whitespace (as `test.c` does), the
same input parses successfully. -/
theorem parse_whitespace_not_skipped_counterexample :
    json_parse 4 [32, 49] (json_arena_init (List.replicate 16 0) 16)
      = (json_arena_init (List.replicate 16 0) 16, none)
    ∧ (json_parse 4 (json__skip_whitespace [32, 49])
        (json_arena_init (List.replicate 16 0) 16)).2 = some ([], JVal.num 1) := by decide

/-- C3 (amended): `json_parse` dispatches on the *first* character of the input
without skipping whitespace: any input whose first byte is not a recognized
value lead — including the whitespace bytes space, TAB, CR, LF — fails with
the null position and the arena returned unchanged, and each recognized lead
byte dispatches to the corresponding sub-parser (`{` object, `[` array, `"`
string, `t`/`f`/`n` keyword, sign or digit number). -/
theorem json_parse_dispatch_spec :
    (∀ (fuel : Nat) (s : List Nat) (a : JsonArena),
        json__lead (s.headD 0) = false → json_parse fuel s a = (a, none))
    ∧ (json__lead 32 = false ∧ json__lead 9 = false ∧ json__lead 13 = false
        ∧ json__lead 10 = false)
    ∧ (∀ (f : Nat) (s : List Nat) (a : JsonArena),
        (s.headD 0 = 123 → json_parse (f + 1) s a = json__parse_object f s a)
        ∧ (s.headD 0 = 91 → json_parse (f + 1) s a = json__parse_array f s a)
        ∧ (s.headD 0 = 34 → json_parse (f + 1) s a = json__parse_string_value s a)
        ∧ (s.headD 0 = 116 ∨ s.headD 0 = 102 ∨ s.headD 0 = 110 →
            json_parse (f + 1) s a = (a, json__parse_simple s))
        ∧ (s.headD 0 = 45 ∨ s.headD 0 = 43 ∨ json__is_digit (s.headD 0) = true →
            json_parse (f + 1) s a = json__parse_number s a)) :=
  ⟨json_parse_unrecognized,
   ⟨by decide, by decide, by decide, by decide⟩,
   fun f s a =>
     ⟨json_parse_dispatch_object f s a,
      json_parse_dispatch_array f s a,
      json_parse_dispatch_string f s a,
      json_parse_dispatch_simple f s a,
      json_parse_dispatch_number f s a⟩⟩

theorem json_parse_dispatch_spec_witness :
    json__lead 58 = false
    ∧ json_parse 3 [58] (json_arena_init (List.replicate 16 0) 16)
        = (json_arena_init (List.replicate 16 0) 16, none)
    ∧ json_parse (0 + 1) [49] (json_arena_init (List.replicate 16 0) 16)
        = json__parse_number [49] (json_arena_init (List.replicate 16 0) 16) :=
  ⟨by decide,
   json_parse_dispatch_spec.1 3 [58] (json_arena_init (List.replicate 16 0) 16) (by decide),
   (json_parse_dispatch_spec.2.2 0 [49] (json_arena_init (List.replicate 16 0) 16)).2.2.2.2
     (Or.inr (Or.inr (by decide)))⟩

theorem json__align_up_ge (n : Nat) : n ≤ json__align_up n := by
  unfold json__align_up JSON__ALIGNMENT
  omega

theorem json__align_up_mod (n : Nat) : json__align_up n % 8 = 0 := by
  unfold json__align_up JSON__ALIGNMENT
  omega

theorem json__align_up_lt (n : Nat) : json__align_up n < n + 8 := by
  unfold json__align_up JSON__ALIGNMENT
  omega

theorem natDigits_digits (m : Nat) : ∀ d ∈ natDigits m, 48 ≤ d ∧ d ≤ 57 := by
  induction m using Nat.strong_induction_on with
  | _ m ih =>
    rw [natDigits_eq]
    split
    · rename_i hm
      intro d hd
      simp only [List.mem_singleton] at hd
      omega
    · rename_i hm
      intro d hd
      rw [List.mem_append] at hd
      rcases hd with hd | hd
      · exact ih (m / 10) (by omega) d hd
      · simp only [List.mem_singleton] at hd
        omega

theorem natDigits_head (m : Nat) : ∃ d t, natDigits m = d :: t ∧ 48 ≤ d ∧ d ≤ 57 := by
  rcases hnd : natDigits m with _ | ⟨d, t⟩
  · exact absurd hnd (natDigits_ne_nil m)
  · refine ⟨d, t, rfl, ?_⟩
    have := natDigits_digits m d (by rw [hnd]; exact List.mem_cons_self d t)
    exact this

theorem natDigits_length_ten {m : Nat} (h : 10 ≤ m) :
    (natDigits m).length = (natDigits (m / 10)).length + 1 := by
  rw [natDigits_eq, if_neg (by omega)]
  simp

theorem json__digits_val_nil (acc : Nat) : json__digits_val acc [] = acc := rfl

theorem json__digits_val_cons (acc d : Nat) (ds : List Nat) :
    json__digits_val acc (d :: ds) = json__digits_val (acc * 10 + (d - 48)) ds := rfl

theorem json__digits_val_append (acc : Nat) (xs ys : List Nat) :
    json__digits_val acc (xs ++ ys) = json__digits_val (json__digits_val acc xs) ys := by
  induction xs generalizing acc with
  | nil => rfl
  | cons d ds ih =>
    show json__digits_val (acc * 10 + (d - 48)) (ds ++ ys) = _
    rw [ih]
    rfl

theorem json__digits_val_le (acc : Nat) (ds : List Nat) : acc ≤ json__digits_val acc ds := by
  induction ds generalizing acc with
  | nil => exact Nat.le_refl acc
  | cons d ds ih =>
    show acc ≤ json__digits_val (acc * 10 + (d - 48)) ds
    exact le_trans (by omega) (ih (acc * 10 + (d - 48)))

theorem json__digits_val_natDigits (m : Nat) :
    ∀ acc, json__digits_val acc (natDigits m) = acc * 10 ^ (natDigits m).length + m := by
  induction m using Nat.strong_induction_on with
  | _ m ih =>
    intro acc
    rw [natDigits_eq]
    split
    · rename_i hm
      simp only [json__digits_val_cons, json__digits_val_nil, List.length_singleton, pow_one]
      omega
    · rename_i hm
      rw [json__digits_val_append, ih (m / 10) (by omega) acc]
      simp only [json__digits_val_cons, json__digits_val_nil]
      have h48 : 48 + m % 10 - 48 = m % 10 := by omega
      rw [h48]
      have hlen : (natDigits (m / 10) ++ [48 + m % 10]).length
          = (natDigits (m / 10)).length + 1 := by simp
      rw [hlen, pow_succ]
      have hm10 : m / 10 * 10 + m % 10 = m := by omega
      calc (acc * 10 ^ (natDigits (m / 10)).length + m / 10) * 10 + m % 10
          = acc * (10 ^ (natDigits (m / 10)).length * 10) + (m / 10 * 10 + m % 10) := by ring
        _ = acc * (10 ^ (natDigits (m / 10)).length * 10) + m := by rw [hm10]

theorem natDigits_val (m : Nat) : json__digits_val 0 (natDigits m) = m := by
  have := json__digits_val_natDigits m 0
  simpa using this

theorem JMembers.app_nil : ∀ ms : JMembers, ms.app .nil = ms
  | .nil => rfl
  | .cons k v r => by rw [JMembers.app, JMembers.app_nil r]

theorem JMembers.snoc_app : ∀ (ms : JMembers) (k : List Nat) (v : JVal) (t : JMembers),
    (ms.snoc k v).app t = ms.app (.cons k v t)
  | .nil, _, _, _ => rfl
  | .cons k0 v0 r, k, v, t => by
    rw [JMembers.snoc, JMembers.app, JMembers.snoc_app r, JMembers.app]

theorem JElems.app_nil_e : ∀ es : JElems, es.app .nil = es
  | .nil => rfl
  | .cons v r => by rw [JElems.app, JElems.app_nil_e r]

theorem JElems.snoc_app_e : ∀ (es : JElems) (v : JVal) (t : JElems),
    (es.snoc v).app t = es.app (.cons v t)
  | .nil, _, _ => rfl
  | .cons v0 r, v, t => by
    rw [JElems.snoc, JElems.app, JElems.snoc_app_e r, JElems.app]

mutual
theorem JVal.wf_wfNum : ∀ v : JVal, JVal.wf v = true → JVal.wfNum v = true
  | .undef, h => by simp [JVal.wf] at h
  | .jnull, _ => rfl
  | .jtrue, _ => rfl
  | .jfalse, _ => rfl
  | .num _, h => h
  | .str _, _ => rfl
  | .obj ms, h => JMembers.wf_wfNum_m ms h
  | .arr es, h => JElems.wf_wfNum_e es h

theorem JMembers.wf_wfNum_m : ∀ ms : JMembers, JMembers.wf ms = true → JMembers.wfNum ms = true
  | .nil, _ => rfl
  | .cons k v r, h => by
    simp only [JMembers.wf, Bool.and_eq_true] at h
    simp only [JMembers.wfNum, Bool.and_eq_true]
    exact ⟨JVal.wf_wfNum v h.1.2, JMembers.wf_wfNum_m r h.2⟩

theorem JElems.wf_wfNum_e : ∀ es : JElems, JElems.wf es = true → JElems.wfNum es = true
  | .nil, _ => rfl
  | .cons v r, h => by
    simp only [JElems.wf, Bool.and_eq_true] at h
    simp only [JElems.wfNum, Bool.and_eq_true]
    exact ⟨JVal.wf_wfNum v h.1, JElems.wf_wfNum_e r h.2⟩
end

mutual
theorem JVal.need_mod : ∀ v : JVal, JVal.need v % 8 = 0
  | .undef => rfl
  | .jnull => rfl
  | .jtrue => rfl
  | .jfalse => rfl
  | .num _ => by rw [JVal.need]
  | .str s => json__align_up_mod (s.length + 1)
  | .obj ms => by
    rw [JVal.need]
    have := JMembers.need_mod_m ms
    omega
  | .arr es => by
    rw [JVal.need]
    have := JElems.need_mod_e es
    omega

theorem JMembers.need_mod_m : ∀ ms : JMembers, JMembers.need ms % 8 = 0
  | .nil => rfl
  | .cons k v r => by
    rw [JMembers.need]
    have h1 := json__align_up_mod (k.length + 1)
    have h2 := JVal.need_mod v
    have h3 := JMembers.need_mod_m r
    omega

theorem JElems.need_mod_e : ∀ es : JElems, JElems.need es % 8 = 0
  | .nil => rfl
  | .cons v r => by
    rw [JElems.need]
    have h1 := JVal.need_mod v
    have h2 := JElems.need_mod_e r
    omega
end

theorem render_head (v : JVal) (h : JVal.wf v = true) :
    ∃ c t, render v = c :: t ∧ json__lead c = true
      ∧ c ∉ ([0, 32, 9, 13, 10, 125, 93, 44, 58] : List Nat) := by
  cases v with
  | undef => simp [JVal.wf] at h
  | jnull => exact ⟨110, _, rfl, by decide, by decide⟩
  | jtrue => exact ⟨116, _, rfl, by decide, by decide⟩
  | jfalse => exact ⟨102, _, rfl, by decide, by decide⟩
  | str s => exact ⟨34, _, rfl, by decide, by decide⟩
  | obj ms => exact ⟨123, _, rfl, by decide, by decide⟩
  | arr es => exact ⟨91, _, rfl, by decide, by decide⟩
  | num n =>
    by_cases hn : n < 0
    · refine ⟨45, natDigits n.natAbs, ?_, by decide, by decide⟩
      show renderNum n = _
      rw [renderNum, if_pos hn]
      rfl
    · obtain ⟨d, t, hd, h1, h2⟩ := natDigits_head n.natAbs
      refine ⟨d, t, ?_, ?_, ?_⟩
      · show renderNum n = _
        rw [renderNum, if_neg hn, hd]
        rfl
      · simp [json__lead, json__is_digit]
        omega
      · simp
        omega

theorem skip_ws_cons (c : Nat) (s : List Nat)
    (h1 : c ≠ 32) (h2 : c ≠ 9) (h3 : c ≠ 13) (h4 : c ≠ 10) :
    json__skip_whitespace (c :: s) = c :: s := by
  rw [json__skip_whitespace]
  rw [if_neg]
  simp [h1, h2, h3, h4]

theorem skip_ws_render (v : JVal) (h : JVal.wf v = true) (x : List Nat) :
    json__skip_whitespace (render v ++ x) = render v ++ x := by
  obtain ⟨c, t, hct, _, hmem⟩ := render_head v h
  rw [hct, List.cons_append]
  have hmem' : ¬(c = 0 ∨ c = 32 ∨ c = 9 ∨ c = 13 ∨ c = 10 ∨ c = 125 ∨ c = 93 ∨ c = 44
      ∨ c = 58) := by simpa using hmem
  push_neg at hmem'
  exact skip_ws_cons c (t ++ x) hmem'.2.1 hmem'.2.2.1 hmem'.2.2.2.1 hmem'.2.2.2.2.1

theorem skip_ws_memberSep (ms : JMembers) (rest : List Nat) :
    json__skip_whitespace (renderMemberSep ms ++ 125 :: rest)
      = renderMemberSep ms ++ 125 :: rest := by
  cases ms with
  | nil => rfl
  | cons k v r => rfl

theorem skip_ws_membersL (ms : JMembers) (rest : List Nat) :
    json__skip_whitespace (renderMembersL ms ++ 125 :: rest)
      = renderMembersL ms ++ 125 :: rest := by
  cases ms with
  | nil => rfl
  | cons k v r => rfl

theorem skip_ws_elemSep (es : JElems) (rest : List Nat) :
    json__skip_whitespace (renderElemSep es ++ 93 :: rest)
      = renderElemSep es ++ 93 :: rest := by
  cases es with
  | nil => rfl
  | cons v r => rfl

theorem drop_take_set (buf : List Nat) (p l c : Nat) (h : p + l < buf.length) :
    ((buf.set (p + l) c).drop p).take (l + 1) = (buf.drop p).take l ++ [c] := by
  apply List.ext_getElem?
  intro i
  by_cases hi : i < l
  · rw [List.getElem?_take_of_lt (by omega : i < l + 1), List.getElem?_drop,
      List.getElem?_set_ne (by omega),
      List.getElem?_append_left (by simp; omega),
      List.getElem?_take_of_lt hi, List.getElem?_drop]
  · by_cases hi2 : i = l
    · rw [List.getElem?_take_of_lt (by omega : i < l + 1), List.getElem?_drop,
        List.getElem?_append_right (by simp; omega)]
      have hpl : p + i = p + l := by omega
      rw [hpl, List.getElem?_set_self']
      rw [List.getElem?_eq_getElem (by omega : p + l < buf.length)]
      have hlen : (List.take l (List.drop p buf)).length = l := by simp; omega
      rw [hlen, show i - l = 0 by omega]
      rfl
    · rw [List.getElem?_eq_none (by simp; omega),
        List.getElem?_eq_none (by simp; omega)]

theorem drop_take_set_out (buf : List Nat) (p l j c : Nat) (h : l ≤ j) :
    ((buf.set (p + j) c).drop p).take l = (buf.drop p).take l := by
  apply List.ext_getElem?
  intro i
  by_cases hi : i < l
  · rw [List.getElem?_take_of_lt hi, List.getElem?_take_of_lt hi, List.getElem?_drop,
      List.getElem?_drop, List.getElem?_set_ne (by omega)]
  · rw [List.getElem?_eq_none (by simp; omega),
      List.getElem?_eq_none (by simp; omega)]


theorem json__parse_string_loop_render :
    ∀ (s rest : List Nat) (a : JsonArena) (l : Nat),
      strRT s = true →
      a.heap + json__align_up (l + s.length + 1) ≤ a.stack →
      a.stack ≤ a.buffer.length →
      (json__parse_string_loop (escBytes s ++ 34 :: rest) a l).2
          = some (rest, (a.buffer.drop a.heap).take l ++ s)
        ∧ (json__parse_string_loop (escBytes s ++ 34 :: rest) a l).1.heap
            = a.heap + json__align_up (l + s.length + 1)
        ∧ (json__parse_string_loop (escBytes s ++ 34 :: rest) a l).1.stack = a.stack
        ∧ (json__parse_string_loop (escBytes s ++ 34 :: rest) a l).1.buffer.length
            = a.buffer.length
  | [], rest, a, l, hrt, hcap, hbl => by
    have hcap' : a.heap + json__align_up (l + 1) ≤ a.stack := by
      have harg : l + ([] : List Nat).length + 1 = l + 1 := by simp
      rw [harg] at hcap
      exact hcap
    have hEq : json__parse_string_loop (escBytes [] ++ 34 :: rest) a l
        = ({ a with buffer := a.buffer.set (a.heap + l) 0,
                    heap := a.heap + json__align_up (l + 1) },
           some (rest, ((a.buffer.set (a.heap + l) 0).drop a.heap).take l)) := by
      rw [show escBytes [] ++ 34 :: rest = 34 :: rest from rfl]
      unfold json__parse_string_loop
      rw [if_pos (by decide)]
      dsimp only
      rw [if_neg (by omega)]
    rw [hEq]
    refine ⟨?_, ?_, rfl, ?_⟩
    · rw [drop_take_set_out a.buffer a.heap l l 0 (Nat.le_refl l)]
      simp
    · show a.heap + json__align_up (l + 1)
          = a.heap + json__align_up (l + ([] : List Nat).length + 1)
      simp
    · show (a.buffer.set (a.heap + l) 0).length = a.buffer.length
      rw [List.length_set]
  | c :: s', rest, a, l, hrt, hcap, hbl => by
    have hrt' : json__rt_byte c = true ∧ strRT s' = true := by
      simpa [strRT] using hrt
    have hrt2 : strRT s' = true := hrt'.2
    have hrtc : c = 9 ∨ c = 10 ∨ c = 13 ∨ (32 ≤ c ∧ c ≤ 255) := by
      have hh := hrt'.1
      simp only [json__rt_byte, Bool.or_eq_true, beq_iff_eq, Bool.and_eq_true,
        decide_eq_true_eq] at hh
      tauto
    by_cases hc34 : c = 34
    · subst hc34
      have hcap2 : ¬(a.stack < a.heap + l + 2) := by
        have hge := json__align_up_ge (l + ((34 : Nat) :: s').length + 1)
        have hlc : ((34 : Nat) :: s').length = s'.length + 1 := rfl
        omega
      have hEq : json__parse_string_loop (escBytes ((34 : Nat) :: s') ++ 34 :: rest) a l
          = json__parse_string_loop (escBytes s' ++ 34 :: rest)
              { a with buffer := a.buffer.set (a.heap + l) 34 } (l + 1) := by
        rw [show escBytes ((34 : Nat) :: s') ++ 34 :: rest
            = 92 :: 34 :: (escBytes s' ++ 34 :: rest) from rfl]
        unfold json__parse_string_loop
        rw [if_neg (by decide), if_neg (by decide), if_neg hcap2, if_pos (by decide)]
        rw [← json__parse_string_loop.eq_def]
        rfl
      rw [hEq]
      have harg : l + 1 + s'.length + 1 = l + ((34 : Nat) :: s').length + 1 := by
        simp only [List.length_cons]
        omega
      have hIH := json__parse_string_loop_render s' rest
        { a with buffer := a.buffer.set (a.heap + l) 34 } (l + 1) hrt2
        (by show a.heap + json__align_up (l + 1 + s'.length + 1) ≤ a.stack
            rw [harg]
            exact hcap)
        (by show a.stack ≤ (a.buffer.set (a.heap + l) 34).length
            rw [List.length_set]
            exact hbl)
      refine ⟨?_, ?_, ?_, ?_⟩
      · rw [hIH.1]
        show some (rest, ((a.buffer.set (a.heap + l) 34).drop a.heap).take (l + 1) ++ s') = _
        rw [drop_take_set a.buffer a.heap l 34 (by omega)]
        simp
      · rw [hIH.2.1]
        show a.heap + json__align_up (l + 1 + s'.length + 1) = _
        rw [harg]
      · exact hIH.2.2.1
      · rw [hIH.2.2.2]
        rw [List.length_set]
    by_cases hc92 : c = 92
    · subst hc92
      have hcap2 : ¬(a.stack < a.heap + l + 2) := by
        have hge := json__align_up_ge (l + ((92 : Nat) :: s').length + 1)
        have hlc : ((92 : Nat) :: s').length = s'.length + 1 := rfl
        omega
      have hEq : json__parse_string_loop (escBytes ((92 : Nat) :: s') ++ 34 :: rest) a l
          = json__parse_string_loop (escBytes s' ++ 34 :: rest)
              { a with buffer := a.buffer.set (a.heap + l) 92 } (l + 1) := by
        rw [show escBytes ((92 : Nat) :: s') ++ 34 :: rest
            = 92 :: 92 :: (escBytes s' ++ 34 :: rest) from rfl]
        unfold json__parse_string_loop
        rw [if_neg (by decide), if_neg (by decide), if_neg hcap2, if_pos (by decide)]
        rw [← json__parse_string_loop.eq_def]
        rfl
      rw [hEq]
      have harg : l + 1 + s'.length + 1 = l + ((92 : Nat) :: s').length + 1 := by
        simp only [List.length_cons]
        omega
      have hIH := json__parse_string_loop_render s' rest
        { a with buffer := a.buffer.set (a.heap + l) 92 } (l + 1) hrt2
        (by show a.heap + json__align_up (l + 1 + s'.length + 1) ≤ a.stack
            rw [harg]
            exact hcap)
        (by show a.stack ≤ (a.buffer.set (a.heap + l) 92).length
            rw [List.length_set]
            exact hbl)
      refine ⟨?_, ?_, ?_, ?_⟩
      · rw [hIH.1]
        show some (rest, ((a.buffer.set (a.heap + l) 92).drop a.heap).take (l + 1) ++ s') = _
        rw [drop_take_set a.buffer a.heap l 92 (by omega)]
        simp
      · rw [hIH.2.1]
        show a.heap + json__align_up (l + 1 + s'.length + 1) = _
        rw [harg]
      · exact hIH.2.2.1
      · rw [hIH.2.2.2]
        rw [List.length_set]
    by_cases hc13 : c = 13
    · subst hc13
      have hcap2 : ¬(a.stack < a.heap + l + 2) := by
        have hge := json__align_up_ge (l + ((13 : Nat) :: s').length + 1)
        have hlc : ((13 : Nat) :: s').length = s'.length + 1 := rfl
        omega
      have hEq : json__parse_string_loop (escBytes ((13 : Nat) :: s') ++ 34 :: rest) a l
          = json__parse_string_loop (escBytes s' ++ 34 :: rest)
              { a with buffer := a.buffer.set (a.heap + l) 13 } (l + 1) := by
        rw [show escBytes ((13 : Nat) :: s') ++ 34 :: rest
            = 92 :: 114 :: (escBytes s' ++ 34 :: rest) from rfl]
        unfold json__parse_string_loop
        rw [if_neg (by decide), if_neg (by decide), if_neg hcap2, if_pos (by decide)]
        rw [← json__parse_string_loop.eq_def]
        rfl
      rw [hEq]
      have harg : l + 1 + s'.length + 1 = l + ((13 : Nat) :: s').length + 1 := by
        simp only [List.length_cons]
        omega
      have hIH := json__parse_string_loop_render s' rest
        { a with buffer := a.buffer.set (a.heap + l) 13 } (l + 1) hrt2
        (by show a.heap + json__align_up (l + 1 + s'.length + 1) ≤ a.stack
            rw [harg]
            exact hcap)
        (by show a.stack ≤ (a.buffer.set (a.heap + l) 13).length
            rw [List.length_set]
            exact hbl)
      refine ⟨?_, ?_, ?_, ?_⟩
      · rw [hIH.1]
        show some (rest, ((a.buffer.set (a.heap + l) 13).drop a.heap).take (l + 1) ++ s') = _
        rw [drop_take_set a.buffer a.heap l 13 (by omega)]
        simp
      · rw [hIH.2.1]
        show a.heap + json__align_up (l + 1 + s'.length + 1) = _
        rw [harg]
      · exact hIH.2.2.1
      · rw [hIH.2.2.2]
        rw [List.length_set]
    by_cases hc10 : c = 10
    · subst hc10
      have hcap2 : ¬(a.stack < a.heap + l + 2) := by
        have hge := json__align_up_ge (l + ((10 : Nat) :: s').length + 1)
        have hlc : ((10 : Nat) :: s').length = s'.length + 1 := rfl
        omega
      have hEq : json__parse_string_loop (escBytes ((10 : Nat) :: s') ++ 34 :: rest) a l
          = json__parse_string_loop (escBytes s' ++ 34 :: rest)
              { a with buffer := a.buffer.set (a.heap + l) 10 } (l + 1) := by
        rw [show escBytes ((10 : Nat) :: s') ++ 34 :: rest
            = 92 :: 110 :: (escBytes s' ++ 34 :: rest) from rfl]
        unfold json__parse_string_loop
        rw [if_neg (by decide), if_neg (by decide), if_neg hcap2, if_pos (by decide)]
        rw [← json__parse_string_loop.eq_def]
        rfl
      rw [hEq]
      have harg : l + 1 + s'.length + 1 = l + ((10 : Nat) :: s').length + 1 := by
        simp only [List.length_cons]
        omega
      have hIH := json__parse_string_loop_render s' rest
        { a with buffer := a.buffer.set (a.heap + l) 10 } (l + 1) hrt2
        (by show a.heap + json__align_up (l + 1 + s'.length + 1) ≤ a.stack
            rw [harg]
            exact hcap)
        (by show a.stack ≤ (a.buffer.set (a.heap + l) 10).length
            rw [List.length_set]
            exact hbl)
      refine ⟨?_, ?_, ?_, ?_⟩
      · rw [hIH.1]
        show some (rest, ((a.buffer.set (a.heap + l) 10).drop a.heap).take (l + 1) ++ s') = _
        rw [drop_take_set a.buffer a.heap l 10 (by omega)]
        simp
      · rw [hIH.2.1]
        show a.heap + json__align_up (l + 1 + s'.length + 1) = _
        rw [harg]
      · exact hIH.2.2.1
      · rw [hIH.2.2.2]
        rw [List.length_set]
    by_cases hc9 : c = 9
    · subst hc9
      have hcap2 : ¬(a.stack < a.heap + l + 2) := by
        have hge := json__align_up_ge (l + ((9 : Nat) :: s').length + 1)
        have hlc : ((9 : Nat) :: s').length = s'.length + 1 := rfl
        omega
      have hEq : json__parse_string_loop (escBytes ((9 : Nat) :: s') ++ 34 :: rest) a l
          = json__parse_string_loop (escBytes s' ++ 34 :: rest)
              { a with buffer := a.buffer.set (a.heap + l) 9 } (l + 1) := by
        rw [show escBytes ((9 : Nat) :: s') ++ 34 :: rest
            = 92 :: 116 :: (escBytes s' ++ 34 :: rest) from rfl]
        unfold json__parse_string_loop
        rw [if_neg (by decide), if_neg (by decide), if_neg hcap2, if_pos (by decide)]
        rw [← json__parse_string_loop.eq_def]
        rfl
      rw [hEq]
      have harg : l + 1 + s'.length + 1 = l + ((9 : Nat) :: s').length + 1 := by
        simp only [List.length_cons]
        omega
      have hIH := json__parse_string_loop_render s' rest
        { a with buffer := a.buffer.set (a.heap + l) 9 } (l + 1) hrt2
        (by show a.heap + json__align_up (l + 1 + s'.length + 1) ≤ a.stack
            rw [harg]
            exact hcap)
        (by show a.stack ≤ (a.buffer.set (a.heap + l) 9).length
            rw [List.length_set]
            exact hbl)
      refine ⟨?_, ?_, ?_, ?_⟩
      · rw [hIH.1]
        show some (rest, ((a.buffer.set (a.heap + l) 9).drop a.heap).take (l + 1) ++ s') = _
        rw [drop_take_set a.buffer a.heap l 9 (by omega)]
        simp
      · rw [hIH.2.1]
        show a.heap + json__align_up (l + 1 + s'.length + 1) = _
        rw [harg]
      · exact hIH.2.2.1
      · rw [hIH.2.2.2]
        rw [List.length_set]
    have hrange : 32 ≤ c ∧ c ≤ 255 := by
      rcases hrtc with hc | hc | hc | hc
      · exact absurd hc hc9
      · exact absurd hc hc10
      · exact absurd hc hc13
      · exact hc
    have hand : c &&& 255 = c % 256 := by
      have hh := Nat.and_pow_two_sub_one_eq_mod c 8
      norm_num at hh
      exact hh
    have hcap2 : ¬(a.stack < a.heap + l + 2) := by
      have hge := json__align_up_ge (l + (c :: s').length + 1)
      have hlc : (c :: s').length = s'.length + 1 := rfl
      omega
    have hesc : json__escape_byte c = [c] := by
      unfold json__escape_byte
      rw [if_neg (by simp [hc34]), if_neg (by simp [hc92]), if_neg (by simp [hc13]),
        if_neg (by simp [hc10]), if_neg (by simp [hc9]), if_neg (by rw [hand]; omega)]
    have hEq : json__parse_string_loop (escBytes (c :: s') ++ 34 :: rest) a l
        = json__parse_string_loop (escBytes s' ++ 34 :: rest)
            { a with buffer := a.buffer.set (a.heap + l) c } (l + 1) := by
      rw [show escBytes (c :: s') = json__escape_byte c ++ escBytes s' from rfl, hesc]
      rw [show ([c] ++ escBytes s') ++ 34 :: rest = c :: (escBytes s' ++ 34 :: rest) by simp]
      unfold json__parse_string_loop
      rw [if_neg (by simp [hc34]), if_neg (by rw [hand]; omega), if_neg hcap2,
        if_neg (by simp [hc92])]
      rw [← json__parse_string_loop.eq_def]
    rw [hEq]
    have harg : l + 1 + s'.length + 1 = l + (c :: s').length + 1 := by
      simp only [List.length_cons]
      omega
    have hIH := json__parse_string_loop_render s' rest
      { a with buffer := a.buffer.set (a.heap + l) c } (l + 1) hrt2
      (by show a.heap + json__align_up (l + 1 + s'.length + 1) ≤ a.stack
          rw [harg]
          exact hcap)
      (by show a.stack ≤ (a.buffer.set (a.heap + l) c).length
          rw [List.length_set]
          exact hbl)
    refine ⟨?_, ?_, ?_, ?_⟩
    · rw [hIH.1]
      show some (rest, ((a.buffer.set (a.heap + l) c).drop a.heap).take (l + 1) ++ s') = _
      rw [drop_take_set a.buffer a.heap l c (by omega)]
      simp
    · rw [hIH.2.1]
      show a.heap + json__align_up (l + 1 + s'.length + 1) = _
      rw [harg]
    · exact hIH.2.2.1
    · rw [hIH.2.2.2]
      rw [List.length_set]

theorem json__parse_string_render (s rest : List Nat) (a : JsonArena)
    (hrt : strRT s = true)
    (hcap : a.heap + json__align_up (s.length + 1) ≤ a.stack)
    (hbl : a.stack ≤ a.buffer.length) :
    (json__parse_string (renderStr s ++ rest) a).2 = some (rest, s)
    ∧ (json__parse_string (renderStr s ++ rest) a).1.heap
        = a.heap + json__align_up (s.length + 1)
    ∧ (json__parse_string (renderStr s ++ rest) a).1.stack = a.stack
    ∧ (json__parse_string (renderStr s ++ rest) a).1.buffer.length = a.buffer.length := by
  unfold json__parse_string
  rw [if_neg (by
    have := json__align_up_ge (s.length + 1)
    omega)]
  rw [show (renderStr s ++ rest).drop 1 = escBytes s ++ 34 :: rest by
    rw [renderStr]
    simp]
  have h := json__parse_string_loop_render s rest a 0 hrt (by simpa using hcap) hbl
  refine ⟨?_, ?_, h.2.2.1, h.2.2.2⟩
  · rw [h.1]
    simp
  · rw [h.2.1]
    simp

theorem json__parse_string_value_render (s rest : List Nat) (a : JsonArena)
    (hrt : strRT s = true)
    (hcap : a.heap + json__align_up (s.length + 1) ≤ a.stack)
    (hbl : a.stack ≤ a.buffer.length)
    (hal : a.heap % 8 = 0) :
    (json__parse_string_value (renderStr s ++ rest) a).2 = some (rest, JVal.str s)
    ∧ (json__parse_string_value (renderStr s ++ rest) a).1.heap
        = a.heap + json__align_up (s.length + 1)
    ∧ (json__parse_string_value (renderStr s ++ rest) a).1.stack = a.stack
    ∧ (json__parse_string_value (renderStr s ++ rest) a).1.buffer.length = a.buffer.length := by
  have h := json__parse_string_render s rest a hrt hcap hbl
  rcases hps : json__parse_string (renderStr s ++ rest) a with ⟨a2, r⟩
  rw [hps] at h
  obtain ⟨h1, h2, h3, h4⟩ := h
  have h1' : r = some (rest, s) := h1
  subst h1'
  have hred : json__parse_string_value (renderStr s ++ rest) a
      = (a2, some (rest, if a.heap % 4 == 0 then JVal.str s else JVal.undef)) := by
    unfold json__parse_string_value
    rw [hps]
  rw [hred]
  rw [if_pos (by
    have : a.heap % 4 = 0 := by omega
    simp [this])]
  exact ⟨rfl, h2, h3, h4⟩

theorem json__parse_number_loop_pos :
    ∀ (ds rest : List Nat) (acc : Int),
      (∀ d ∈ ds, 48 ≤ d ∧ d ≤ 57) →
      json__is_digit (rest.headD 0) = false →
      0 ≤ acc →
      (json__digits_val acc.toNat ds : Int) < 2 ^ 31 →
      json__parse_number_loop (ds ++ rest) acc false
        = some (rest, (json__digits_val acc.toNat ds : Int))
  | [], rest, acc, hds, hrest, hpos, hbound => by
    rw [json__digits_val_nil, Int.toNat_of_nonneg hpos]
    simp only [List.nil_append]
    cases rest with
    | nil => rw [json__parse_number_loop]
    | cons c t =>
      rw [json__parse_number_loop]
      rw [if_neg (by simpa using hrest)]
  | d :: ds, rest, acc, hds, hrest, hpos, hbound => by
    have hd := hds d (List.mem_cons_self d ds)
    have hstep : acc.toNat * 10 + (d - 48) ≤ json__digits_val acc.toNat (d :: ds) := by
      rw [json__digits_val_cons]
      exact json__digits_val_le (acc.toNat * 10 + (d - 48)) ds
    have hbound' : (json__digits_val acc.toNat (d :: ds) : Int) < 2 ^ 31 := hbound
    simp only [List.cons_append]
    rw [json__parse_number_loop]
    rw [if_pos (show json__is_digit d = true by simp [json__is_digit]; omega)]
    have hmul : json__mul_ovf acc 10 = some (acc * 10) := by
      unfold json__mul_ovf
      rw [if_pos ⟨by omega, by omega⟩]
    rw [hmul]
    dsimp only
    have hadd : json__add_ovf (acc * 10) ((d : Int) - 48) = some (acc * 10 + ((d : Int) - 48)) := by
      unfold json__add_ovf
      rw [if_pos ⟨by omega, by omega⟩]
    rw [if_neg (by decide), hadd]
    dsimp only
    have htn : (acc * 10 + ((d : Int) - 48)).toNat = acc.toNat * 10 + (d - 48) := by omega
    rw [json__parse_number_loop_pos ds rest (acc * 10 + ((d : Int) - 48))
      (fun e he => hds e (List.mem_cons_of_mem d he)) hrest (by omega)
      (by rw [htn, ← json__digits_val_cons]; exact hbound)]
    rw [htn, ← json__digits_val_cons]

theorem json__parse_number_loop_neg :
    ∀ (ds rest : List Nat) (acc : Int),
      (∀ d ∈ ds, 48 ≤ d ∧ d ≤ 57) →
      json__is_digit (rest.headD 0) = false →
      acc ≤ 0 →
      (json__digits_val (-acc).toNat ds : Int) ≤ 2 ^ 31 →
      json__parse_number_loop (ds ++ rest) acc true
        = some (rest, -(json__digits_val (-acc).toNat ds : Int))
  | [], rest, acc, hds, hrest, hneg, hbound => by
    rw [json__digits_val_nil, Int.toNat_of_nonneg (by omega), Int.neg_neg]
    simp only [List.nil_append]
    cases rest with
    | nil => rw [json__parse_number_loop]
    | cons c t =>
      rw [json__parse_number_loop]
      rw [if_neg (by simpa using hrest)]
  | d :: ds, rest, acc, hds, hrest, hneg, hbound => by
    have hd := hds d (List.mem_cons_self d ds)
    have hstep : (-acc).toNat * 10 + (d - 48) ≤ json__digits_val ((-acc).toNat) (d :: ds) := by
      rw [json__digits_val_cons]
      exact json__digits_val_le ((-acc).toNat * 10 + (d - 48)) ds
    have hbound' : (json__digits_val (-acc).toNat (d :: ds) : Int) ≤ 2 ^ 31 := hbound
    simp only [List.cons_append]
    rw [json__parse_number_loop]
    rw [if_pos (show json__is_digit d = true by simp [json__is_digit]; omega)]
    have hmul : json__mul_ovf acc 10 = some (acc * 10) := by
      unfold json__mul_ovf
      rw [if_pos ⟨by omega, by omega⟩]
    rw [hmul]
    dsimp only
    have hsub : json__sub_ovf (acc * 10) ((d : Int) - 48) = some (acc * 10 - ((d : Int) - 48)) := by
      unfold json__sub_ovf
      rw [if_pos ⟨by omega, by omega⟩]
    rw [if_pos (by decide), hsub]
    dsimp only
    have htn : (-(acc * 10 - ((d : Int) - 48))).toNat = (-acc).toNat * 10 + (d - 48) := by omega
    rw [json__parse_number_loop_neg ds rest (acc * 10 - ((d : Int) - 48))
      (fun e he => hds e (List.mem_cons_of_mem d he)) hrest (by omega)
      (by rw [htn, ← json__digits_val_cons]; exact hbound)]
    rw [htn, ← json__digits_val_cons]

theorem json_number_new_render (a : JsonArena) (n : Int) (hcap : a.heap + 8 ≤ a.stack) :
    json_number_new a n = ({ a with heap := a.heap + 8 }, some (JVal.num n)) := by
  have h8 : json__align_up 4 = 8 := by decide
  unfold json_number_new json_arena_alloc
  rw [if_neg (by decide)]
  rw [h8]
  rw [if_neg (by omega)]

theorem json__parse_number_render (n : Int) (rest : List Nat) (a : JsonArena)
    (hlo : -(2 ^ 31) ≤ n) (hhi : n < 2 ^ 31)
    (hrest : json__is_digit (rest.headD 0) = false)
    (hcap : a.heap + 8 ≤ a.stack) :
    (json__parse_number (renderNum n ++ rest) a).2 = some (rest, JVal.num n)
    ∧ (json__parse_number (renderNum n ++ rest) a).1.heap = a.heap + 8
    ∧ (json__parse_number (renderNum n ++ rest) a).1.stack = a.stack
    ∧ (json__parse_number (renderNum n ++ rest) a).1.buffer.length = a.buffer.length := by
  obtain ⟨d, t, hdt, hd1, hd2⟩ := natDigits_head n.natAbs
  have hnew := json_number_new_render a n hcap
  by_cases hn : n < 0
  · have hrn : renderNum n ++ rest = 45 :: (natDigits n.natAbs ++ rest) := by
      rw [renderNum, if_pos hn]
      simp
    have hloop := json__parse_number_loop_neg (natDigits n.natAbs) rest 0
      (natDigits_digits n.natAbs) hrest (le_refl 0)
      (by
        rw [show ((-0 : Int)).toNat = 0 by decide, natDigits_val]
        omega)
    rw [show ((-0 : Int)).toNat = 0 by decide, natDigits_val] at hloop
    have hval : -((n.natAbs : Nat) : Int) = n := by omega
    rw [hval] at hloop
    have hred : json__parse_number (renderNum n ++ rest) a
        = ({ a with heap := a.heap + 8 }, some (rest, JVal.num n)) := by
      rw [hrn]
      unfold json__parse_number
      rw [show (if ((45 :: (natDigits n.natAbs ++ rest)).headD 0 == 43
            || (45 :: (natDigits n.natAbs ++ rest)).headD 0 == 45) = true
          then (45 :: (natDigits n.natAbs ++ rest)).drop 1
          else 45 :: (natDigits n.natAbs ++ rest)) = natDigits n.natAbs ++ rest from rfl]
      rw [show ((45 :: (natDigits n.natAbs ++ rest)).headD 0 == 45) = true from rfl]
      rw [hdt]
      dsimp only [List.cons_append, List.headD_cons]
      rw [if_neg (by simp [json__is_digit]; omega)]
      rw [hdt] at hloop
      simp only [List.cons_append] at hloop
      rw [hloop]
      dsimp only
      rw [hnew]
    rw [hred]
    exact ⟨rfl, rfl, rfl, rfl⟩
  · have hrn : renderNum n ++ rest = natDigits n.natAbs ++ rest := by
      rw [renderNum, if_neg hn]
      simp
    have hloop := json__parse_number_loop_pos (natDigits n.natAbs) rest 0
      (natDigits_digits n.natAbs) hrest (le_refl 0)
      (by
        rw [show ((0 : Int)).toNat = 0 by decide, natDigits_val]
        omega)
    rw [show ((0 : Int)).toNat = 0 by decide, natDigits_val] at hloop
    have hval : ((n.natAbs : Nat) : Int) = n := by omega
    rw [hval] at hloop
    have hred : json__parse_number (renderNum n ++ rest) a
        = ({ a with heap := a.heap + 8 }, some (rest, JVal.num n)) := by
      rw [hrn, hdt]
      unfold json__parse_number
      rw [show ((d :: t) ++ rest).headD 0 = d from rfl]
      rw [if_neg (show ¬((d == 43 || d == 45) = true) by simp; omega)]
      dsimp only [List.cons_append, List.headD_cons]
      rw [if_neg (by simp [json__is_digit]; omega)]
      have hne45 : (d == 45) = false := by
        simp
        omega
      rw [hne45]
      rw [hdt] at hloop
      simp only [List.cons_append] at hloop
      rw [hloop]
      dsimp only
      rw [hnew]
    rw [hred]
    exact ⟨rfl, rfl, rfl, rfl⟩

theorem json__members_parse_tail_spec (k : List Nat) (v : JVal) (pend : JMembers)
    (acc : JMembers) (rest : List Nat) (a : JsonArena) (position fuel : Nat)
    (ihv : ∀ (rest2 : List Nat) (a2 : JsonArena),
        a2.heap + JVal.need v ≤ a2.stack → a2.stack ≤ a2.buffer.length → a2.heap % 8 = 0 →
        json__is_digit (rest2.headD 0) = false →
        (json_parse fuel (render v ++ rest2) a2).2 = some (rest2, v)
        ∧ (json_parse fuel (render v ++ rest2) a2).1.heap = a2.heap + JVal.need v
        ∧ (json_parse fuel (render v ++ rest2) a2).1.stack = a2.stack
        ∧ (json_parse fuel (render v ++ rest2) a2).1.buffer.length = a2.buffer.length)
    (ihr : ∀ (acc2 : JMembers) (rest2 : List Nat) (a2 : JsonArena) (position2 : Nat)
        (start2 : Bool),
        a2.heap + JMembers.need pend ≤ a2.stack → a2.stack ≤ a2.buffer.length →
        a2.heap % 8 = 0 →
        (json__parse_members fuel
            ((if start2 then renderMembersL pend else renderMemberSep pend) ++ 125 :: rest2)
            a2 position2 true acc2 start2).2
          = some (rest2, JVal.obj (JMembers.app acc2 pend))
        ∧ (json__parse_members fuel
            ((if start2 then renderMembersL pend else renderMemberSep pend) ++ 125 :: rest2)
            a2 position2 true acc2 start2).1.heap = a2.heap + JMembers.need pend
        ∧ (json__parse_members fuel
            ((if start2 then renderMembersL pend else renderMemberSep pend) ++ 125 :: rest2)
            a2 position2 true acc2 start2).1.stack = a2.stack
        ∧ (json__parse_members fuel
            ((if start2 then renderMembersL pend else renderMemberSep pend) ++ 125 :: rest2)
            a2 position2 true acc2 start2).1.buffer.length = a2.buffer.length)
    (hwfk : strRT k = true) (hwfv : JVal.wf v = true)
    (hcap : a.heap + (json__align_up (k.length + 1) + JVal.need v + 24 + JMembers.need pend)
        ≤ a.stack)
    (hbl : a.stack ≤ a.buffer.length) (hal : a.heap % 8 = 0) :
    (json__members_parse_tail fuel
        (renderMembersL (JMembers.cons k v pend) ++ 125 :: rest) a position true acc).2
      = some (rest, JVal.obj (JMembers.app acc (JMembers.cons k v pend)))
    ∧ (json__members_parse_tail fuel
        (renderMembersL (JMembers.cons k v pend) ++ 125 :: rest) a position true acc).1.heap
      = a.heap + (json__align_up (k.length + 1) + JVal.need v + 24 + JMembers.need pend)
    ∧ (json__members_parse_tail fuel
        (renderMembersL (JMembers.cons k v pend) ++ 125 :: rest) a position true acc).1.stack
      = a.stack
    ∧ (json__members_parse_tail fuel
        (renderMembersL (JMembers.cons k v pend) ++ 125 :: rest) a position true
        acc).1.buffer.length = a.buffer.length := by
  have hs1 : renderMembersL (JMembers.cons k v pend) ++ 125 :: rest
      = renderStr k ++ (58 :: (render v ++ (renderMemberSep pend ++ 125 :: rest))) := by
    rw [renderMembersL]
    simp
  rw [hs1]
  unfold json__members_parse_tail
  have hstr := json__parse_string_render k
    (58 :: (render v ++ (renderMemberSep pend ++ 125 :: rest))) a hwfk (by omega) hbl
  rcases hps : json__parse_string
      (renderStr k ++ (58 :: (render v ++ (renderMemberSep pend ++ 125 :: rest)))) a
    with ⟨a2, r⟩
  rw [hps] at hstr
  obtain ⟨hr1, hr2, hr3, hr4⟩ := hstr
  have hr1' : r = some (58 :: (render v ++ (renderMemberSep pend ++ 125 :: rest)), k) := hr1
  subst hr1'
  dsimp only
  rw [skip_ws_cons 58 (render v ++ (renderMemberSep pend ++ 125 :: rest))
    (by decide) (by decide) (by decide) (by decide)]
  rw [if_neg (by simp)]
  rw [show (58 :: (render v ++ (renderMemberSep pend ++ 125 :: rest))).drop 1
      = render v ++ (renderMemberSep pend ++ 125 :: rest) from rfl]
  rw [skip_ws_render v hwfv (renderMemberSep pend ++ 125 :: rest)]
  have h2h : a2.heap = a.heap + json__align_up (k.length + 1) := hr2
  have h2s : a2.stack = a.stack := hr3
  have h2b : a2.buffer.length = a.buffer.length := hr4
  have halk := json__align_up_mod (k.length + 1)
  have hv := ihv (renderMemberSep pend ++ 125 :: rest) a2
    (by omega) (by omega) (by omega)
    (by cases pend <;> rfl)
  rcases hpv : json_parse fuel (render v ++ (renderMemberSep pend ++ 125 :: rest)) a2
    with ⟨a3, rv⟩
  rw [hpv] at hv
  obtain ⟨hv1, hv2, hv3, hv4⟩ := hv
  have hv1' : rv = some (renderMemberSep pend ++ 125 :: rest, v) := hv1
  subst hv1'
  dsimp only
  have h3h : a3.heap = a2.heap + JVal.need v := hv2
  have h3s : a3.stack = a2.stack := hv3
  have h3b : a3.buffer.length = a2.buffer.length := hv4
  have happ : json_object_append a3 true acc k v
      = ({ a3 with heap := a3.heap + 24 }, some (acc.snoc k v)) := by
    unfold json_object_append json_arena_alloc
    rw [if_neg (by decide), if_neg (by decide)]
    rw [show json__align_up 24 = 24 from by decide]
    rw [if_neg (by omega)]
  rw [happ]
  dsimp only
  rw [skip_ws_memberSep pend rest]
  have hneedv8 := JVal.need_mod v
  have hr := ihr (acc.snoc k v) rest ({ a3 with heap := a3.heap + 24 }) position false
    (by show a3.heap + 24 + JMembers.need pend ≤ a3.stack
        omega)
    (by show a3.stack ≤ a3.buffer.length
        omega)
    (by show (a3.heap + 24) % 8 = 0
        omega)
  rw [if_neg (by simp)] at hr
  obtain ⟨hq1, hq2, hq3, hq4⟩ := hr
  refine ⟨?_, ?_, ?_, ?_⟩
  · rw [hq1, JMembers.snoc_app]
  · rw [hq2]
    show a3.heap + 24 + JMembers.need pend = _
    omega
  · rw [hq3]
    show a3.stack = a.stack
    omega
  · rw [hq4]
    show a3.buffer.length = a.buffer.length
    omega

theorem json__elems_parse_tail_spec (v : JVal) (pend : JElems)
    (acc : JElems) (rest : List Nat) (a : JsonArena) (position fuel : Nat)
    (ihv : ∀ (rest2 : List Nat) (a2 : JsonArena),
        a2.heap + JVal.need v ≤ a2.stack → a2.stack ≤ a2.buffer.length → a2.heap % 8 = 0 →
        json__is_digit (rest2.headD 0) = false →
        (json_parse fuel (render v ++ rest2) a2).2 = some (rest2, v)
        ∧ (json_parse fuel (render v ++ rest2) a2).1.heap = a2.heap + JVal.need v
        ∧ (json_parse fuel (render v ++ rest2) a2).1.stack = a2.stack
        ∧ (json_parse fuel (render v ++ rest2) a2).1.buffer.length = a2.buffer.length)
    (ihr : ∀ (acc2 : JElems) (rest2 : List Nat) (a2 : JsonArena) (position2 : Nat)
        (start2 : Bool),
        a2.heap + JElems.need pend ≤ a2.stack → a2.stack ≤ a2.buffer.length →
        a2.heap % 8 = 0 →
        (json__parse_elems fuel
            ((if start2 then renderElemsL pend else renderElemSep pend) ++ 93 :: rest2)
            a2 position2 true acc2 start2).2
          = some (rest2, JVal.arr (JElems.app acc2 pend))
        ∧ (json__parse_elems fuel
            ((if start2 then renderElemsL pend else renderElemSep pend) ++ 93 :: rest2)
            a2 position2 true acc2 start2).1.heap = a2.heap + JElems.need pend
        ∧ (json__parse_elems fuel
            ((if start2 then renderElemsL pend else renderElemSep pend) ++ 93 :: rest2)
            a2 position2 true acc2 start2).1.stack = a2.stack
        ∧ (json__parse_elems fuel
            ((if start2 then renderElemsL pend else renderElemSep pend) ++ 93 :: rest2)
            a2 position2 true acc2 start2).1.buffer.length = a2.buffer.length)
    (_hwfv : JVal.wf v = true)
    (hcap : a.heap + (JVal.need v + 16 + JElems.need pend) ≤ a.stack)
    (hbl : a.stack ≤ a.buffer.length) (hal : a.heap % 8 = 0) :
    (json__elems_parse_tail fuel
        (renderElemsL (JElems.cons v pend) ++ 93 :: rest) a position true acc).2
      = some (rest, JVal.arr (JElems.app acc (JElems.cons v pend)))
    ∧ (json__elems_parse_tail fuel
        (renderElemsL (JElems.cons v pend) ++ 93 :: rest) a position true acc).1.heap
      = a.heap + (JVal.need v + 16 + JElems.need pend)
    ∧ (json__elems_parse_tail fuel
        (renderElemsL (JElems.cons v pend) ++ 93 :: rest) a position true acc).1.stack
      = a.stack
    ∧ (json__elems_parse_tail fuel
        (renderElemsL (JElems.cons v pend) ++ 93 :: rest) a position true
        acc).1.buffer.length = a.buffer.length := by
  have hs1 : renderElemsL (JElems.cons v pend) ++ 93 :: rest
      = render v ++ (renderElemSep pend ++ 93 :: rest) := by
    rw [renderElemsL]
    simp
  rw [hs1]
  unfold json__elems_parse_tail
  have hv := ihv (renderElemSep pend ++ 93 :: rest) a (by omega) hbl hal
    (by cases pend <;> rfl)
  rcases hpv : json_parse fuel (render v ++ (renderElemSep pend ++ 93 :: rest)) a
    with ⟨a2, rv⟩
  rw [hpv] at hv
  obtain ⟨hv1, hv2, hv3, hv4⟩ := hv
  have hv1' : rv = some (renderElemSep pend ++ 93 :: rest, v) := hv1
  subst hv1'
  dsimp only
  have h2h : a2.heap = a.heap + JVal.need v := hv2
  have h2s : a2.stack = a.stack := hv3
  have h2b : a2.buffer.length = a.buffer.length := hv4
  have hneedv8 := JVal.need_mod v
  have hpush : json_array_push a2 true acc v
      = ({ a2 with heap := a2.heap + 16 }, some (acc.snoc v)) := by
    unfold json_array_push json_arena_alloc
    rw [if_neg (by decide), if_neg (by decide)]
    rw [show json__align_up 16 = 16 from by decide]
    rw [if_neg (by omega)]
  rw [hpush]
  dsimp only
  rw [skip_ws_elemSep pend rest]
  have hr := ihr (acc.snoc v) rest ({ a2 with heap := a2.heap + 16 }) position false
    (by show a2.heap + 16 + JElems.need pend ≤ a2.stack
        omega)
    (by show a2.stack ≤ a2.buffer.length
        omega)
    (by show (a2.heap + 16) % 8 = 0
        omega)
  rw [if_neg (by simp)] at hr
  obtain ⟨hq1, hq2, hq3, hq4⟩ := hr
  refine ⟨?_, ?_, ?_, ?_⟩
  · rw [hq1, JElems.snoc_app_e]
  · rw [hq2]
    show a2.heap + 16 + JElems.need pend = _
    omega
  · rw [hq3]
    show a2.stack = a.stack
    omega
  · rw [hq4]
    show a2.buffer.length = a.buffer.length
    omega


theorem skip_ws_elemsL (es : JElems) (rest : List Nat) (h : JElems.wf es = true) :
    json__skip_whitespace (renderElemsL es ++ 93 :: rest) = renderElemsL es ++ 93 :: rest := by
  cases es with
  | nil => rfl
  | cons v pend =>
    have hv : JVal.wf v = true := by
      simp only [JElems.wf, Bool.and_eq_true] at h
      exact h.1
    have hsplit : renderElemsL (JElems.cons v pend) ++ 93 :: rest
        = render v ++ (renderElemSep pend ++ 93 :: rest) := by
      rw [renderElemsL]
      simp
    rw [hsplit, skip_ws_render v hv, ← hsplit]

mutual
theorem json_parse_render :
    ∀ (v : JVal) (rest : List Nat) (a : JsonArena) (fuel : Nat),
      JVal.wf v = true →
      JVal.fuelNeed v ≤ fuel →
      a.heap + JVal.need v ≤ a.stack →
      a.stack ≤ a.buffer.length →
      a.heap % 8 = 0 →
      json__is_digit (rest.headD 0) = false →
      (json_parse fuel (render v ++ rest) a).2 = some (rest, v)
      ∧ (json_parse fuel (render v ++ rest) a).1.heap = a.heap + JVal.need v
      ∧ (json_parse fuel (render v ++ rest) a).1.stack = a.stack
      ∧ (json_parse fuel (render v ++ rest) a).1.buffer.length = a.buffer.length
  | .undef, rest, a, fuel, hwf, _, _, _, _, _ => by simp [JVal.wf] at hwf
  | .jnull, rest, a, fuel, _, hfuel, _, _, _, _ => by
    cases fuel with
    | zero => exact absurd hfuel (by decide)
    | succ f => exact ⟨rfl, rfl, rfl, rfl⟩
  | .jtrue, rest, a, fuel, _, hfuel, _, _, _, _ => by
    cases fuel with
    | zero => exact absurd hfuel (by decide)
    | succ f => exact ⟨rfl, rfl, rfl, rfl⟩
  | .jfalse, rest, a, fuel, _, hfuel, _, _, _, _ => by
    cases fuel with
    | zero => exact absurd hfuel (by decide)
    | succ f => exact ⟨rfl, rfl, rfl, rfl⟩
  | .num n, rest, a, fuel, hwf, hfuel, hcap, hbl, hal, hrest => by
    simp only [JVal.wf, Bool.and_eq_true, decide_eq_true_eq] at hwf
    cases fuel with
    | zero => exact absurd hfuel (by rw [JVal.fuelNeed]; omega)
    | succ f =>
      have hdisp : (render (JVal.num n) ++ rest).headD 0 = 45
          ∨ (render (JVal.num n) ++ rest).headD 0 = 43
          ∨ json__is_digit ((render (JVal.num n) ++ rest).headD 0) = true := by
        by_cases hn : n < 0
        · left
          show ((renderNum n) ++ rest).headD 0 = 45
          rw [renderNum, if_pos hn]
          rfl
        · right
          right
          obtain ⟨d, t, hdt, hd1, hd2⟩ := natDigits_head n.natAbs
          have hh : ((renderNum n) ++ rest).headD 0 = d := by
            rw [renderNum, if_neg hn, hdt]
            rfl
          show json__is_digit ((renderNum n ++ rest).headD 0) = true
          rw [hh]
          simp [json__is_digit]
          omega
      rw [json_parse_dispatch_number f (render (JVal.num n) ++ rest) a hdisp]
      exact json__parse_number_render n rest a hwf.1 hwf.2 hrest hcap
  | .str s, rest, a, fuel, hwf, hfuel, hcap, hbl, hal, hrest => by
    cases fuel with
    | zero => exact absurd hfuel (by rw [JVal.fuelNeed]; omega)
    | succ f =>
      rw [json_parse_dispatch_string f (render (JVal.str s) ++ rest) a rfl]
      exact json__parse_string_value_render s rest a hwf hcap hbl hal
  | .obj ms, rest, a, fuel, hwf, hfuel, hcap, hbl, hal, hrest => by
    rw [JVal.fuelNeed] at hfuel
    rw [JVal.need] at hcap
    cases fuel with
    | zero => exact absurd hfuel (by omega)
    | succ f =>
      rw [json_parse_dispatch_object f (render (JVal.obj ms) ++ rest) a rfl]
      cases f with
      | zero => exact absurd hfuel (by omega)
      | succ f2 =>
        have hnewobj : json_object_new a = ({ a with heap := a.heap + 16 }, true) := by
          unfold json_object_new json_arena_alloc
          rw [if_neg (by decide), show json__align_up 16 = 16 from by decide,
            if_neg (by omega)]
        simp only [json__parse_object]
        rw [hnewobj]
        dsimp only
        rw [show (render (JVal.obj ms) ++ rest).drop 1 = renderMembersL ms ++ 125 :: rest by
          rw [render]
          simp]
        rw [skip_ws_membersL ms rest]
        have hm := json__parse_members_render ms .nil rest ({ a with heap := a.heap + 16 })
          (json_arena_save a) f2 true hwf (by omega)
          (by show a.heap + 16 + JMembers.need ms ≤ a.stack
              omega)
          (by show a.stack ≤ a.buffer.length
              exact hbl)
          (by show (a.heap + 16) % 8 = 0
              omega)
        rw [if_pos rfl] at hm
        obtain ⟨hq1, hq2, hq3, hq4⟩ := hm
        refine ⟨hq1, ?_, hq3, hq4⟩
        rw [hq2]
        show a.heap + 16 + JMembers.need ms = a.heap + (16 + JMembers.need ms)
        omega
  | .arr es, rest, a, fuel, hwf, hfuel, hcap, hbl, hal, hrest => by
    rw [JVal.fuelNeed] at hfuel
    rw [JVal.need] at hcap
    cases fuel with
    | zero => exact absurd hfuel (by omega)
    | succ f =>
      rw [json_parse_dispatch_array f (render (JVal.arr es) ++ rest) a rfl]
      cases f with
      | zero => exact absurd hfuel (by omega)
      | succ f2 =>
        have hnewarr : json_array_new a = ({ a with heap := a.heap + 16 }, true) := by
          unfold json_array_new json_arena_alloc
          rw [if_neg (by decide), show json__align_up 16 = 16 from by decide,
            if_neg (by omega)]
        simp only [json__parse_array]
        rw [hnewarr]
        dsimp only
        rw [show (render (JVal.arr es) ++ rest).drop 1 = renderElemsL es ++ 93 :: rest by
          rw [render]
          simp]
        rw [skip_ws_elemsL es rest hwf]
        have hm := json__parse_elems_render es .nil rest ({ a with heap := a.heap + 16 })
          (json_arena_save a) f2 true hwf (by omega)
          (by show a.heap + 16 + JElems.need es ≤ a.stack
              omega)
          (by show a.stack ≤ a.buffer.length
              exact hbl)
          (by show (a.heap + 16) % 8 = 0
              omega)
        rw [if_pos rfl] at hm
        obtain ⟨hq1, hq2, hq3, hq4⟩ := hm
        refine ⟨hq1, ?_, hq3, hq4⟩
        rw [hq2]
        show a.heap + 16 + JElems.need es = a.heap + (16 + JElems.need es)
        omega

theorem json__parse_members_render :
    ∀ (pend : JMembers) (acc : JMembers) (rest : List Nat) (a : JsonArena)
      (position fuel : Nat) (start : Bool),
      JMembers.wf pend = true →
      JMembers.fuelNeed pend ≤ fuel →
      a.heap + JMembers.need pend ≤ a.stack →
      a.stack ≤ a.buffer.length →
      a.heap % 8 = 0 →
      (json__parse_members fuel
          ((if start then renderMembersL pend else renderMemberSep pend) ++ 125 :: rest)
          a position true acc start).2 = some (rest, JVal.obj (JMembers.app acc pend))
      ∧ (json__parse_members fuel
          ((if start then renderMembersL pend else renderMemberSep pend) ++ 125 :: rest)
          a position true acc start).1.heap = a.heap + JMembers.need pend
      ∧ (json__parse_members fuel
          ((if start then renderMembersL pend else renderMemberSep pend) ++ 125 :: rest)
          a position true acc start).1.stack = a.stack
      ∧ (json__parse_members fuel
          ((if start then renderMembersL pend else renderMemberSep pend) ++ 125 :: rest)
          a position true acc start).1.buffer.length = a.buffer.length
  | .nil, acc, rest, a, position, fuel, start, hwf, hfuel, hcap, hbl, hal => by
    cases fuel with
    | zero => exact absurd hfuel (by decide)
    | succ f =>
      rw [show (if start then renderMembersL JMembers.nil else renderMemberSep JMembers.nil)
          ++ 125 :: rest = 125 :: rest by cases start <;> rfl]
      refine ⟨?_, rfl, rfl, rfl⟩
      rw [JMembers.app_nil]
      rfl
  | .cons k v pend', acc, rest, a, position, fuel, start, hwf, hfuel, hcap, hbl, hal => by
    simp only [JMembers.wf, Bool.and_eq_true] at hwf
    rw [JMembers.fuelNeed] at hfuel
    rw [JMembers.need] at hcap
    cases fuel with
    | zero => exact absurd hfuel (by omega)
    | succ f =>
      have hfv : JVal.fuelNeed v ≤ f := by omega
      have hfp : JMembers.fuelNeed pend' ≤ f := by omega
      cases start with
      | true =>
        rw [show (if true then renderMembersL (JMembers.cons k v pend')
            else renderMemberSep (JMembers.cons k v pend')) ++ 125 :: rest
            = renderMembersL (JMembers.cons k v pend') ++ 125 :: rest from rfl]
        have hEq : json__parse_members (f + 1)
            (renderMembersL (JMembers.cons k v pend') ++ 125 :: rest) a position true acc true
            = json__members_parse_tail f
              (renderMembersL (JMembers.cons k v pend') ++ 125 :: rest) a position true acc :=
          rfl
        rw [hEq]
        exact json__members_parse_tail_spec k v pend' acc rest a position f
          (fun rest2 a2 hc hb ha hd =>
            json_parse_render v rest2 a2 f hwf.1.2 hfv hc hb ha hd)
          (fun acc2 rest2 a2 position2 start2 hc hb ha =>
            json__parse_members_render pend' acc2 rest2 a2 position2 f start2 hwf.2 hfp
              hc hb ha)
          hwf.1.1 hwf.1.2 hcap hbl hal
      | false =>
        rw [show (if false then renderMembersL (JMembers.cons k v pend')
            else renderMemberSep (JMembers.cons k v pend')) ++ 125 :: rest
            = 44 :: (renderMembersL (JMembers.cons k v pend') ++ 125 :: rest) by
          rw [renderMemberSep, renderMembersL]
          simp]
        have hEq : json__parse_members (f + 1)
            (44 :: (renderMembersL (JMembers.cons k v pend') ++ 125 :: rest))
            a position true acc false
            = json__members_parse_tail f
              (renderMembersL (JMembers.cons k v pend') ++ 125 :: rest) a position true acc :=
          rfl
        rw [hEq]
        exact json__members_parse_tail_spec k v pend' acc rest a position f
          (fun rest2 a2 hc hb ha hd =>
            json_parse_render v rest2 a2 f hwf.1.2 hfv hc hb ha hd)
          (fun acc2 rest2 a2 position2 start2 hc hb ha =>
            json__parse_members_render pend' acc2 rest2 a2 position2 f start2 hwf.2 hfp
              hc hb ha)
          hwf.1.1 hwf.1.2 hcap hbl hal

theorem json__parse_elems_render :
    ∀ (pend : JElems) (acc : JElems) (rest : List Nat) (a : JsonArena)
      (position fuel : Nat) (start : Bool),
      JElems.wf pend = true →
      JElems.fuelNeed pend ≤ fuel →
      a.heap + JElems.need pend ≤ a.stack →
      a.stack ≤ a.buffer.length →
      a.heap % 8 = 0 →
      (json__parse_elems fuel
          ((if start then renderElemsL pend else renderElemSep pend) ++ 93 :: rest)
          a position true acc start).2 = some (rest, JVal.arr (JElems.app acc pend))
      ∧ (json__parse_elems fuel
          ((if start then renderElemsL pend else renderElemSep pend) ++ 93 :: rest)
          a position true acc start).1.heap = a.heap + JElems.need pend
      ∧ (json__parse_elems fuel
          ((if start then renderElemsL pend else renderElemSep pend) ++ 93 :: rest)
          a position true acc start).1.stack = a.stack
      ∧ (json__parse_elems fuel
          ((if start then renderElemsL pend else renderElemSep pend) ++ 93 :: rest)
          a position true acc start).1.buffer.length = a.buffer.length
  | .nil, acc, rest, a, position, fuel, start, hwf, hfuel, hcap, hbl, hal => by
    cases fuel with
    | zero => exact absurd hfuel (by decide)
    | succ f =>
      rw [show (if start then renderElemsL JElems.nil else renderElemSep JElems.nil)
          ++ 93 :: rest = 93 :: rest by cases start <;> rfl]
      refine ⟨?_, rfl, rfl, rfl⟩
      rw [JElems.app_nil_e]
      rfl
  | .cons v pend', acc, rest, a, position, fuel, start, hwf, hfuel, hcap, hbl, hal => by
    have hwfO := hwf
    simp only [JElems.wf, Bool.and_eq_true] at hwf
    rw [JElems.fuelNeed] at hfuel
    rw [JElems.need] at hcap
    cases fuel with
    | zero => exact absurd hfuel (by omega)
    | succ f =>
      have hfv : JVal.fuelNeed v ≤ f := by omega
      have hfp : JElems.fuelNeed pend' ≤ f := by omega
      cases start with
      | true =>
        rw [show (if true then renderElemsL (JElems.cons v pend')
            else renderElemSep (JElems.cons v pend')) ++ 93 :: rest
            = renderElemsL (JElems.cons v pend') ++ 93 :: rest from rfl]
        obtain ⟨c, t, hct, hlead, hmem⟩ := render_head v hwf.1
        have hc93 : (c == 93) = false := by
          simp only [beq_eq_false_iff_ne, ne_eq]
          intro hcc
          apply hmem
          rw [hcc]
          simp
        have hin : renderElemsL (JElems.cons v pend') ++ 93 :: rest
            = c :: (t ++ (renderElemSep pend' ++ 93 :: rest)) := by
          rw [renderElemsL, hct]
          simp
        have hEq : json__parse_elems (f + 1)
            (renderElemsL (JElems.cons v pend') ++ 93 :: rest) a position true acc true
            = json__elems_parse_tail f
              (renderElemsL (JElems.cons v pend') ++ 93 :: rest) a position true acc := by
          rw [hin]
          simp only [json__parse_elems]
          simp only [List.headD_cons]
          rw [if_neg (by simp [hc93])]
          rfl
        rw [hEq]
        exact json__elems_parse_tail_spec v pend' acc rest a position f
          (fun rest2 a2 hc hb ha hd =>
            json_parse_render v rest2 a2 f hwf.1 hfv hc hb ha hd)
          (fun acc2 rest2 a2 position2 start2 hc hb ha =>
            json__parse_elems_render pend' acc2 rest2 a2 position2 f start2 hwf.2 hfp
              hc hb ha)
          hwf.1 hcap hbl hal
      | false =>
        rw [show (if false then renderElemsL (JElems.cons v pend')
            else renderElemSep (JElems.cons v pend')) ++ 93 :: rest
            = 44 :: (renderElemsL (JElems.cons v pend') ++ 93 :: rest) by
          rw [renderElemSep, renderElemsL]
          simp]
        have hEq : json__parse_elems (f + 1)
            (44 :: (renderElemsL (JElems.cons v pend') ++ 93 :: rest))
            a position true acc false
            = json__elems_parse_tail f
              (json__skip_whitespace (renderElemsL (JElems.cons v pend') ++ 93 :: rest))
              a position true acc :=
          rfl
        rw [hEq]
        rw [skip_ws_elemsL (JElems.cons v pend') rest hwfO]
        exact json__elems_parse_tail_spec v pend' acc rest a position f
          (fun rest2 a2 hc hb ha hd =>
            json_parse_render v rest2 a2 f hwf.1 hfv hc hb ha hd)
          (fun acc2 rest2 a2 position2 start2 hc hb ha =>
            json__parse_elems_render pend' acc2 rest2 a2 position2 f start2 hwf.2 hfp
              hc hb ha)
          hwf.1 hcap hbl hal
end

theorem json__stringify_string_loop_min :
    ∀ (s buf : List Nat) (off n len : Nat),
      n + (escBytes s).length + 3 ≤ len →
      (json__stringify_string_loop s buf off n len).1 = n + (escBytes s).length + 1
  | [], buf, off, n, len, hcap => by
    unfold json__stringify_string_loop
    show n + 1 = n + (escBytes []).length + 1
    rfl
  | c :: s, buf, off, n, len, hcap => by
    unfold json__stringify_string_loop
    by_cases h1 : (c == 34) = true
    · rw [if_pos h1]
      have hesc : json__escape_byte c = [92, 34] := by
        unfold json__escape_byte
        rw [if_pos h1]
      have hlenesc : (escBytes (c :: s)).length = 2 + (escBytes s).length := by
        rw [show escBytes (c :: s) = json__escape_byte c ++ escBytes s from rfl, hesc]
        simp only [List.length_append, List.length_cons, List.length_nil]
      rw [if_neg (by omega : ¬len < n + 4)]
      rw [json__stringify_string_loop_min s _ off (n + 2) len (by omega)]
      omega
    rw [if_neg h1]
    by_cases h2 : (c == 92) = true
    · rw [if_pos h2]
      have hesc : json__escape_byte c = [92, 92] := by
        unfold json__escape_byte
        rw [if_neg h1, if_pos h2]
      have hlenesc : (escBytes (c :: s)).length = 2 + (escBytes s).length := by
        rw [show escBytes (c :: s) = json__escape_byte c ++ escBytes s from rfl, hesc]
        simp only [List.length_append, List.length_cons, List.length_nil]
      rw [if_neg (by omega : ¬len < n + 4)]
      rw [json__stringify_string_loop_min s _ off (n + 2) len (by omega)]
      omega
    rw [if_neg h2]
    by_cases h3 : (c == 13) = true
    · rw [if_pos h3]
      have hesc : json__escape_byte c = [92, 114] := by
        unfold json__escape_byte
        rw [if_neg h1, if_neg h2, if_pos h3]
      have hlenesc : (escBytes (c :: s)).length = 2 + (escBytes s).length := by
        rw [show escBytes (c :: s) = json__escape_byte c ++ escBytes s from rfl, hesc]
        simp only [List.length_append, List.length_cons, List.length_nil]
      rw [if_neg (by omega : ¬len < n + 4)]
      rw [json__stringify_string_loop_min s _ off (n + 2) len (by omega)]
      omega
    rw [if_neg h3]
    by_cases h4 : (c == 10) = true
    · rw [if_pos h4]
      have hesc : json__escape_byte c = [92, 110] := by
        unfold json__escape_byte
        rw [if_neg h1, if_neg h2, if_neg h3, if_pos h4]
      have hlenesc : (escBytes (c :: s)).length = 2 + (escBytes s).length := by
        rw [show escBytes (c :: s) = json__escape_byte c ++ escBytes s from rfl, hesc]
        simp only [List.length_append, List.length_cons, List.length_nil]
      rw [if_neg (by omega : ¬len < n + 4)]
      rw [json__stringify_string_loop_min s _ off (n + 2) len (by omega)]
      omega
    rw [if_neg h4]
    by_cases h5 : (c == 9) = true
    · rw [if_pos h5]
      have hesc : json__escape_byte c = [92, 116] := by
        unfold json__escape_byte
        rw [if_neg h1, if_neg h2, if_neg h3, if_neg h4, if_pos h5]
      have hlenesc : (escBytes (c :: s)).length = 2 + (escBytes s).length := by
        rw [show escBytes (c :: s) = json__escape_byte c ++ escBytes s from rfl, hesc]
        simp only [List.length_append, List.length_cons, List.length_nil]
      rw [if_neg (by omega : ¬len < n + 4)]
      rw [json__stringify_string_loop_min s _ off (n + 2) len (by omega)]
      omega
    rw [if_neg h5]
    by_cases h6 : c &&& 255 < 32
    · rw [if_pos h6]
      have hesc : json__escape_byte c
          = [92, 117, 48, 48, json__hex.getD (c >>> 4 &&& 15) 0, json__hex.getD (c &&& 15) 0] := by
        unfold json__escape_byte
        rw [if_neg h1, if_neg h2, if_neg h3, if_neg h4, if_neg h5, if_pos h6]
      have hlenesc : (escBytes (c :: s)).length = 6 + (escBytes s).length := by
        rw [show escBytes (c :: s) = json__escape_byte c ++ escBytes s from rfl, hesc]
        simp only [List.length_append, List.length_cons, List.length_nil]
      rw [if_neg (by omega : ¬len < n + 8)]
      rw [json__stringify_string_loop_min s _ off (n + 6) len (by omega)]
      omega
    rw [if_neg h6]
    have hesc : json__escape_byte c = [c] := by
      unfold json__escape_byte
      rw [if_neg h1, if_neg h2, if_neg h3, if_neg h4, if_neg h5, if_neg h6]
    have hlenesc : (escBytes (c :: s)).length = 1 + (escBytes s).length := by
      rw [show escBytes (c :: s) = json__escape_byte c ++ escBytes s from rfl, hesc]
      simp only [List.length_append, List.length_cons, List.length_nil]
    rw [if_neg (by omega : ¬len < n + 4)]
    rw [json__stringify_string_loop_min s _ off (n + 1) len (by omega)]
    omega

theorem json__stringify_string_min (s buf : List Nat) (off len : Nat)
    (hcap : (renderStr s).length + 2 ≤ len) :
    (json__stringify_string s buf off len).1 = (renderStr s).length := by
  have hlen : (renderStr s).length = (escBytes s).length + 2 := by
    rw [renderStr]
    simp only [List.length_cons, List.length_append, List.length_nil]
  unfold json__stringify_string
  rw [if_neg (by omega)]
  rw [json__stringify_string_loop_min s _ off 1 len (by omega)]
  omega

theorem json__digits_min : ∀ (fuel m : Nat) (buf : List Nat) (off n len : Nat),
    m < fuel → n + (natDigits m).length + 1 ≤ len →
    (json__digits fuel m buf off n len).1 = n + (natDigits m).length
  | fuel + 1, m, buf, off, n, len, hf, hlen => by
    have hnd1 := natDigits_length_pos m
    unfold json__digits
    rw [if_neg (by omega)]
    dsimp only
    by_cases hm : 0 < m / 10
    · rw [if_pos hm]
      have h10 : 10 ≤ m := by omega
      have hlt := natDigits_length_ten h10
      rw [json__digits_min fuel (m / 10) _ off (n + 1) len (by omega) (by omega)]
      omega
    · rw [if_neg hm]
      have hm10 : m < 10 := by omega
      have h1 : (natDigits m).length = 1 := by
        rw [natDigits_eq, if_pos hm10]
        rfl
      show n + 1 = n + (natDigits m).length
      omega

theorem json__stringify_number_min (number : Int) (buf : List Nat) (off len : Nat)
    (hlo : -(2 ^ 31) ≤ number) (hhi : number < 2 ^ 31)
    (hcap : (renderNum number).length + 2 ≤ len) :
    (json__stringify_number number buf off len).1 ≠ 0 := by
  unfold json__stringify_number
  by_cases hneg : number < 0
  · rw [if_pos hneg]
    have hrl : (renderNum number).length = (natDigits number.natAbs).length + 1 := by
      rw [renderNum, if_pos hneg]
      simp
    rw [if_neg (by omega)]
    dsimp only
    by_cases hmin : number = -(2 ^ 31)
    · have hs : json__sub_ovf 0 number = none := by
        unfold json__sub_ovf
        rw [if_neg (by omega)]
      rw [hs]
      dsimp only
      subst hmin
      have he1 : ((49 + -(-2 ^ 31 + 1) % 10 : Int)).toNat = 56 := by decide
      have he2 : ((-(-2 ^ 31 + 1) / 10 : Int)).toNat = 214748364 := by decide
      rw [he1, he2]
      have hlen11 : (renderNum (-(2 ^ 31) : Int)).length = 11 := by decide
      have hd := json__digits_min (214748364 + 1) 214748364
        ((buf.set off 45).set (off + 1) 56) (off + 1) 1 (len - 1) (by omega)
        (by rw [show (natDigits 214748364).length = 9 from by decide]; omega)
      rcases hD : json__digits (214748364 + 1) 214748364
          ((buf.set off 45).set (off + 1) 56) (off + 1) 1 (len - 1) with ⟨r, b⟩
      rw [hD] at hd
      have hr : r = 10 := by
        have hh : r = 1 + (natDigits 214748364).length := hd
        rw [show (natDigits 214748364).length = 9 from by decide] at hh
        omega
      subst hr
      simp
    · have hs : json__sub_ovf 0 number = some (-number) := by
        unfold json__sub_ovf
        rw [if_pos (by omega)]
        congr 1
        omega
      rw [hs]
      dsimp only
      rw [neg_toNat_eq_natAbs hneg]
      have hd := json__digits_min (number.natAbs + 1) number.natAbs (buf.set off 45)
        (off + 1) 0 (len - 1) (by omega) (by omega)
      rcases hD : json__digits (number.natAbs + 1) number.natAbs (buf.set off 45)
          (off + 1) 0 (len - 1) with ⟨r, b⟩
      rw [hD] at hd
      have hpos := natDigits_length_pos number.natAbs
      have hr : r = 0 + (natDigits number.natAbs).length := hd
      cases r with
      | zero => exact absurd hr (by omega)
      | succ r => simp
  · rw [if_neg hneg]
    have hrl : (renderNum number).length = (natDigits number.natAbs).length := by
      rw [renderNum, if_neg hneg]
      simp
    have htn : number.toNat = number.natAbs := by omega
    rw [htn]
    have hd := json__digits_min (number.natAbs + 1) number.natAbs buf off 0 len
      (by omega) (by omega)
    rcases hD : json__digits (number.natAbs + 1) number.natAbs buf off 0 len with ⟨r, b⟩
    rw [hD] at hd
    have hpos := natDigits_length_pos number.natAbs
    have hr : r = 0 + (natDigits number.natAbs).length := hd
    cases r with
    | zero => exact absurd hr (by omega)
    | succ r => simp

theorem renderElemsL_le (es : JElems) :
    (renderElemsL es).length ≤ (renderElemSep es).length := by
  cases es with
  | nil => exact le_refl _
  | cons v r =>
    rw [renderElemsL, renderElemSep]
    simp only [List.length_append, List.length_cons]
    omega

theorem renderStr_two (s : List Nat) : 2 ≤ (renderStr s).length := by
  rw [renderStr]
  simp only [List.length_cons, List.length_append, List.length_nil]
  omega

theorem render_one (v : JVal) (h : JVal.wf v = true) : 1 ≤ (render v).length := by
  obtain ⟨c, t, hct, _, _⟩ := render_head v h
  rw [hct]
  simp

theorem json__members_tail_min (k : List Nat) (v : JVal) (rest : JMembers)
    (buf : List Nat) (off n len : Nat)
    (ihv : ∀ (b : List Nat) (o l : Nat), o + l ≤ b.length →
        (render v).length + 2 ≤ l → (json_stringify v b o l).1 ≠ 0)
    (ihr : ∀ (b : List Nat) (o m l : Nat), o + l ≤ b.length →
        m + (if 1 < m then renderMemberSep rest else renderMembersL rest).length + 2 ≤ l →
        (json__stringify_members rest b o m l).1 ≠ 0)
    (hwfv : JVal.wf v = true) (hwn : JVal.wfNum v = true)
    (hbuf : off + len ≤ buf.length)
    (hcap : n + (renderMembersL (JMembers.cons k v rest)).length + 2 ≤ len) :
    (json__members_tail k v rest buf off n len).1 ≠ 0 := by
  have hLc : (renderMembersL (JMembers.cons k v rest)).length
      = (renderStr k).length + 1 + (render v).length + (renderMemberSep rest).length := by
    rw [renderMembersL]
    simp only [List.length_append, List.length_cons]
    omega
  have hk2 := renderStr_two k
  have hv1 := render_one v hwfv
  unfold json__members_tail
  have hsmin := json__stringify_string_min k buf (off + n) (len - n) (by omega)
  rcases hs : json__stringify_string k buf (off + n) (len - n) with ⟨l, b⟩
  rw [hs] at hsmin
  have hsm : l = (renderStr k).length := hsmin
  have hsspec := json__stringify_string_spec k buf (off + n) (len - n)
    (by rw [hs]; show l ≠ 0; omega)
  rw [hs] at hsspec
  have hbdef : b = writeBytes buf (off + n) (renderStr k ++ [0]) :=
    congrArg Prod.snd hsspec.1
  have hblen : b.length = buf.length := by rw [hbdef, length_writeBytes]
  cases l with
  | zero => omega
  | succ l0 =>
    show (if len < n + (l0 + 1) + 4 then ((0 : Nat), b)
        else match json_stringify v (b.set (off + n + (l0 + 1)) 58) (off + n + (l0 + 1) + 1)
            (len - (n + (l0 + 1) + 1)) with
          | (0, b2) => (0, b2)
          | (l2, b2) => json__stringify_members rest b2 off (n + (l0 + 1) + 1 + l2) len).1 ≠ 0
    rw [if_neg (by omega)]
    have hvmin := ihv (b.set (off + n + (l0 + 1)) 58) (off + n + (l0 + 1) + 1)
      (len - (n + (l0 + 1) + 1)) (by rw [List.length_set, hblen]; omega) (by omega)
    rcases hv : json_stringify v (b.set (off + n + (l0 + 1)) 58) (off + n + (l0 + 1) + 1)
        (len - (n + (l0 + 1) + 1)) with ⟨l2, b2⟩
    rw [hv] at hvmin
    have hvspec := json_stringify_spec v (b.set (off + n + (l0 + 1)) 58)
      (off + n + (l0 + 1) + 1) (len - (n + (l0 + 1) + 1)) hwn
      (by rw [List.length_set, hblen]; omega) (by rw [hv]; exact hvmin)
    rw [hv] at hvspec
    have hl2 : l2 = (render v).length := congrArg Prod.fst hvspec.1
    have hb2def : b2 = writeBytes (b.set (off + n + (l0 + 1)) 58) (off + n + (l0 + 1) + 1)
        (render v ++ [0]) := congrArg Prod.snd hvspec.1
    have hb2len : b2.length = buf.length := by
      rw [hb2def, length_writeBytes, List.length_set, hblen]
    cases l2 with
    | zero => exact absurd rfl hvmin
    | succ l2' =>
      show (json__stringify_members rest b2 off (n + (l0 + 1) + 1 + (l2' + 1)) len).1 ≠ 0
      exact ihr b2 off (n + (l0 + 1) + 1 + (l2' + 1)) len (by rw [hb2len]; exact hbuf)
        (by rw [if_pos (by omega)]
            omega)

theorem json__elems_tail_min (v : JVal) (rest : JElems)
    (buf : List Nat) (off n len : Nat)
    (ihv : ∀ (b : List Nat) (o l : Nat), o + l ≤ b.length →
        (render v).length + 2 ≤ l → (json_stringify v b o l).1 ≠ 0)
    (ihr : ∀ (b : List Nat) (o m l : Nat), o + l ≤ b.length →
        m + (if 1 < m then renderElemSep rest else renderElemsL rest).length + 2 ≤ l →
        (json__stringify_elems rest b o m l).1 ≠ 0)
    (hwfv : JVal.wf v = true) (hwn : JVal.wfNum v = true)
    (hbuf : off + len ≤ buf.length)
    (hcap : n + (renderElemsL (JElems.cons v rest)).length + 2 ≤ len) :
    (json__elems_tail v rest buf off n len).1 ≠ 0 := by
  have hLc : (renderElemsL (JElems.cons v rest)).length
      = (render v).length + (renderElemSep rest).length := by
    rw [renderElemsL]
    simp only [List.length_append]
  have hv1 := render_one v hwfv
  have hsel := renderElemsL_le rest
  unfold json__elems_tail
  have hvmin := ihv buf (off + n) (len - n) (by omega) (by omega)
  rcases hv : json_stringify v buf (off + n) (len - n) with ⟨l, b⟩
  rw [hv] at hvmin
  have hvspec := json_stringify_spec v buf (off + n) (len - n) hwn (by omega)
    (by rw [hv]; exact hvmin)
  rw [hv] at hvspec
  have hl : l = (render v).length := congrArg Prod.fst hvspec.1
  have hbdef : b = writeBytes buf (off + n) (render v ++ [0]) :=
    congrArg Prod.snd hvspec.1
  have hblen : b.length = buf.length := by
    rw [hbdef, length_writeBytes]
  cases l with
  | zero => exact absurd rfl hvmin
  | succ l0 =>
    show (json__stringify_elems rest b off (n + (l0 + 1)) len).1 ≠ 0
    refine ihr b off (n + (l0 + 1)) len (by rw [hblen]; exact hbuf) ?_
    by_cases hm : 1 < n + (l0 + 1)
    · rw [if_pos hm]
      omega
    · rw [if_neg hm]
      omega

mutual
theorem json_stringify_min :
    ∀ (v : JVal) (buf : List Nat) (off len : Nat),
      JVal.wf v = true → off + len ≤ buf.length →
      (render v).length + 2 ≤ len →
      (json_stringify v buf off len).1 ≠ 0
  | .undef, _, _, _, hwf, _, _ => by
    rw [JVal.wf] at hwf
    exact absurd hwf (by decide)
  | .jnull, buf, off, len, _, _, hcap => by
    rw [json_stringify]
    have h4 : (render JVal.jnull).length = 4 := rfl
    have hne : (json__write [110, 117, 108, 108] buf off len).1 ≠ 0 := by
      unfold json__write
      rw [if_neg (by simp only [List.length_cons, List.length_nil]; omega)]
      show (4 : Nat) ≠ 0
      decide
    rw [json__epilogue_spec off len _ hne]
    exact hne
  | .jtrue, buf, off, len, _, _, hcap => by
    rw [json_stringify]
    have h4 : (render JVal.jtrue).length = 4 := rfl
    have hne : (json__write [116, 114, 117, 101] buf off len).1 ≠ 0 := by
      unfold json__write
      rw [if_neg (by simp only [List.length_cons, List.length_nil]; omega)]
      show (4 : Nat) ≠ 0
      decide
    rw [json__epilogue_spec off len _ hne]
    exact hne
  | .jfalse, buf, off, len, _, _, hcap => by
    rw [json_stringify]
    have h5 : (render JVal.jfalse).length = 5 := rfl
    have hne : (json__write [102, 97, 108, 115, 101] buf off len).1 ≠ 0 := by
      unfold json__write
      rw [if_neg (by simp only [List.length_cons, List.length_nil]; omega)]
      show (5 : Nat) ≠ 0
      decide
    rw [json__epilogue_spec off len _ hne]
    exact hne
  | .num number, buf, off, len, hwf, _, hcap => by
    rw [json_stringify]
    simp only [JVal.wf, Bool.and_eq_true, decide_eq_true_eq] at hwf
    have hne : (json__stringify_number number buf off len).1 ≠ 0 :=
      json__stringify_number_min number buf off len hwf.1 hwf.2 hcap
    rw [json__epilogue_spec off len _ hne]
    exact hne
  | .str s, buf, off, len, _, _, hcap => by
    rw [json_stringify]
    have hne : (json__stringify_string s buf off len).1 ≠ 0 := by
      rw [json__stringify_string_min s buf off len hcap]
      have := renderStr_two s
      omega
    rw [json__epilogue_spec off len _ hne]
    exact hne
  | .obj ms, buf, off, len, hwf, hbuf, hcap => by
    rw [json_stringify]
    simp only [JVal.wf] at hwf
    have hLr : (render (JVal.obj ms)).length = (renderMembersL ms).length + 2 := by
      rw [render]
      simp only [List.length_cons, List.length_append, List.length_nil]
    have hne : (if len < 3 then ((0 : Nat), buf)
        else json__stringify_members ms (buf.set off 123) off 1 len).1 ≠ 0 := by
      rw [if_neg (by omega)]
      exact json__stringify_members_min ms (buf.set off 123) off 1 len hwf
        (by rw [List.length_set]; exact hbuf)
        (by rw [if_neg (by omega : ¬(1 : Nat) < 1)]; omega)
    rw [json__epilogue_spec off len _ hne]
    exact hne
  | .arr es, buf, off, len, hwf, hbuf, hcap => by
    rw [json_stringify]
    simp only [JVal.wf] at hwf
    have hLr : (render (JVal.arr es)).length = (renderElemsL es).length + 2 := by
      rw [render]
      simp only [List.length_cons, List.length_append, List.length_nil]
    have hne : (if len < 3 then ((0 : Nat), buf)
        else json__stringify_elems es (buf.set off 91) off 1 len).1 ≠ 0 := by
      rw [if_neg (by omega)]
      exact json__stringify_elems_min es (buf.set off 91) off 1 len hwf
        (by rw [List.length_set]; exact hbuf)
        (by rw [if_neg (by omega : ¬(1 : Nat) < 1)]; omega)
    rw [json__epilogue_spec off len _ hne]
    exact hne

theorem json__stringify_members_min :
    ∀ (ms : JMembers) (buf : List Nat) (off n len : Nat),
      JMembers.wf ms = true → off + len ≤ buf.length →
      n + (if 1 < n then renderMemberSep ms else renderMembersL ms).length + 2 ≤ len →
      (json__stringify_members ms buf off n len).1 ≠ 0
  | .nil, buf, off, n, len, _, _, hcap => by
    rw [json__stringify_members]
    have hbytes : (if 1 < n then renderMemberSep JMembers.nil
        else renderMembersL JMembers.nil) = [] := by
      split <;> rfl
    rw [hbytes] at hcap
    rw [if_neg (by simp only [List.length_nil] at hcap; omega)]
    show n + 1 ≠ 0
    omega
  | .cons k v rest, buf, off, n, len, hwf, hbuf, hcap => by
    simp only [JMembers.wf, Bool.and_eq_true] at hwf
    have hLc : (renderMembersL (JMembers.cons k v rest)).length
        = (renderStr k).length + 1 + (render v).length
          + (renderMemberSep rest).length := by
      rw [renderMembersL]
      simp only [List.length_append, List.length_cons]
      omega
    have hsep : (renderMemberSep (JMembers.cons k v rest)).length
        = (renderMembersL (JMembers.cons k v rest)).length + 1 := by
      rw [renderMemberSep, renderMembersL]
      simp only [List.length_cons]
    have hk2 := renderStr_two k
    have hv1 := render_one v hwf.1.2
    rw [json__stringify_members]
    try dsimp only
    by_cases h1 : 1 < n
    · rw [if_pos h1] at hcap ⊢
      rw [if_neg (show ¬len < n + 6 by omega)]
      show (json__members_tail k v rest (buf.set (off + n) 44) off (n + 1) len).1 ≠ 0
      exact json__members_tail_min k v rest (buf.set (off + n) 44) off (n + 1) len
        (fun b o l => json_stringify_min v b o l hwf.1.2)
        (fun b o m l => json__stringify_members_min rest b o m l hwf.2)
        hwf.1.2 (JVal.wf_wfNum v hwf.1.2)
        (by rw [List.length_set]; exact hbuf) (by omega)
    · rw [if_neg h1] at hcap ⊢
      show (json__members_tail k v rest buf off n len).1 ≠ 0
      exact json__members_tail_min k v rest buf off n len
        (fun b o l => json_stringify_min v b o l hwf.1.2)
        (fun b o m l => json__stringify_members_min rest b o m l hwf.2)
        hwf.1.2 (JVal.wf_wfNum v hwf.1.2) hbuf (by omega)

theorem json__stringify_elems_min :
    ∀ (es : JElems) (buf : List Nat) (off n len : Nat),
      JElems.wf es = true → off + len ≤ buf.length →
      n + (if 1 < n then renderElemSep es else renderElemsL es).length + 2 ≤ len →
      (json__stringify_elems es buf off n len).1 ≠ 0
  | .nil, buf, off, n, len, _, _, hcap => by
    rw [json__stringify_elems]
    have hbytes : (if 1 < n then renderElemSep JElems.nil
        else renderElemsL JElems.nil) = [] := by
      split <;> rfl
    rw [hbytes] at hcap
    rw [if_neg (by simp only [List.length_nil] at hcap; omega)]
    show n + 1 ≠ 0
    omega
  | .cons v rest, buf, off, n, len, hwf, hbuf, hcap => by
    simp only [JElems.wf, Bool.and_eq_true] at hwf
    have hLc : (renderElemsL (JElems.cons v rest)).length
        = (render v).length + (renderElemSep rest).length := by
      rw [renderElemsL]
      simp only [List.length_append]
    have hsep : (renderElemSep (JElems.cons v rest)).length
        = (renderElemsL (JElems.cons v rest)).length + 1 := by
      rw [renderElemSep, renderElemsL]
      simp only [List.length_cons]
    have hv1 := render_one v hwf.1
    rw [json__stringify_elems]
    try dsimp only
    by_cases h1 : 1 < n
    · rw [if_pos h1] at hcap ⊢
      rw [if_neg (show ¬len < n + 4 by omega)]
      show (json__elems_tail v rest (buf.set (off + n) 44) off (n + 1) len).1 ≠ 0
      exact json__elems_tail_min v rest (buf.set (off + n) 44) off (n + 1) len
        (fun b o l => json_stringify_min v b o l hwf.1)
        (fun b o m l => json__stringify_elems_min rest b o m l hwf.2)
        hwf.1 (JVal.wf_wfNum v hwf.1)
        (by rw [List.length_set]; exact hbuf) (by omega)
    · rw [if_neg h1] at hcap ⊢
      show (json__elems_tail v rest buf off n len).1 ≠ 0
      exact json__elems_tail_min v rest buf off n len
        (fun b o l => json_stringify_min v b o l hwf.1)
        (fun b o m l => json__stringify_elems_min rest b o m l hwf.2)
        hwf.1 (JVal.wf_wfNum v hwf.1) hbuf (by omega)
end

theorem writeBytes_take_prefix (xs buf : List Nat) (h : xs.length + 1 ≤ buf.length) :
    (writeBytes buf 0 (xs ++ [0])).take xs.length = xs := by
  rw [writeBytes_take_append (xs ++ [0]) buf 0
    (by simp only [List.length_append, List.length_cons, List.length_nil]; omega)]
  simp only [List.take_zero, List.nil_append, List.append_assoc]
  rw [List.take_append_of_le_length (le_refl xs.length), List.take_length]

/-- The parser can produce the string `[8]` (from the two-character escape
`\b`), but stringifying that value emits the six-character escape `\u0008`,
which the parser rejects (`json__unescape` knows no `u`): the control
character 0x08 does not survive a stringify-parse round trip. -/
theorem control_char_not_roundtrip_counterexample :
    (json_parse 2 [34, 92, 98, 34] (json_arena_init (List.replicate 32 0) 32)).2
        = some ([], JVal.str [8])
    ∧ (json_stringify (JVal.str [8]) (List.replicate 16 0) 0 16).1 = 8
    ∧ ((json_stringify (JVal.str [8]) (List.replicate 16 0) 0 16).2).take 8
        = [34, 92, 117, 48, 48, 48, 56, 34]
    ∧ (json_parse 2
          (((json_stringify (JVal.str [8]) (List.replicate 16 0) 0 16).2).take 8)
          (json_arena_init (List.replicate 32 0) 32)).2 = none
    ∧ JVal.wf (JVal.str [8]) = false := by decide

/-- C1: stringify-parse round trip.  For every well-formed value (no
`undef` component, numbers in `int32_t` range, string payloads and keys made
of bytes the serializer emits verbatim — so no control characters), writing
into a buffer with at least two bytes of slack beyond the rendered length and
parsing the written text back into an arena with enough space and fuel
succeeds and reproduces exactly the same value, consuming the whole text and
committing exactly the value's arena footprint.  Control-character strings
such as `[8]` are excluded: the `\u00XX` escape the stringifier emits for
them is not decoded by the parser (see the counterexample). -/
theorem stringify_parse_roundtrip (v : JVal) (buf : List Nat) (len fuel : Nat)
    (a : JsonArena)
    (hwf : JVal.wf v = true)
    (hcap : (render v).length + 2 ≤ len)
    (hlen : len ≤ buf.length)
    (hfuel : JVal.fuelNeed v ≤ fuel)
    (harena : a.heap + JVal.need v ≤ a.stack)
    (hstk : a.stack ≤ a.buffer.length)
    (hal : a.heap % 8 = 0) :
    (json_stringify v buf 0 len).1 = (render v).length
    ∧ (json_parse fuel (((json_stringify v buf 0 len).2).take (json_stringify v buf 0 len).1)
          a).2 = some ([], v)
    ∧ (json_parse fuel (((json_stringify v buf 0 len).2).take (json_stringify v buf 0 len).1)
          a).1.heap = a.heap + JVal.need v := by
  have hbuf0 : 0 + len ≤ buf.length := by omega
  have hne := json_stringify_min v buf 0 len hwf hbuf0 hcap
  have hs := json_stringify_spec v buf 0 len (JVal.wf_wfNum v hwf) hbuf0 hne
  have hr : (json_stringify v buf 0 len).1 = (render v).length := by rw [hs.1]
  have hout : (json_stringify v buf 0 len).2 = writeBytes buf 0 (render v ++ [0]) := by
    rw [hs.1]
  have htake : ((json_stringify v buf 0 len).2).take (render v).length = render v := by
    rw [hout]
    exact writeBytes_take_prefix (render v) buf (by have := hs.2; omega)
  have hp := json_parse_render v [] a fuel hwf hfuel harena hstk hal (by decide)
  rw [List.append_nil] at hp
  rw [hr, htake]
  exact ⟨rfl, hp.1, hp.2.1⟩

theorem stringify_parse_roundtrip_witness :
    (json_stringify
        (JVal.obj (JMembers.cons [107] (JVal.arr (JElems.cons (JVal.num 1) JElems.nil))
          JMembers.nil))
        (List.replicate 16 0) 0 16).1 = 9
    ∧ (json_parse 20
          (((json_stringify
              (JVal.obj (JMembers.cons [107] (JVal.arr (JElems.cons (JVal.num 1) JElems.nil))
                JMembers.nil))
              (List.replicate 16 0) 0 16).2).take
            (json_stringify
              (JVal.obj (JMembers.cons [107] (JVal.arr (JElems.cons (JVal.num 1) JElems.nil))
                JMembers.nil))
              (List.replicate 16 0) 0 16).1)
          (json_arena_init (List.replicate 96 0) 96)).2
        = some ([],
            JVal.obj (JMembers.cons [107] (JVal.arr (JElems.cons (JVal.num 1) JElems.nil))
              JMembers.nil)) := by
  have h := stringify_parse_roundtrip
    (JVal.obj (JMembers.cons [107] (JVal.arr (JElems.cons (JVal.num 1) JElems.nil))
      JMembers.nil))
    (List.replicate 16 0) 16 20 (json_arena_init (List.replicate 96 0) 96)
    (by decide) (by decide) (by decide) (by decide) (by decide) (by decide) (by decide)
  refine ⟨?_, h.2.1⟩
  rw [h.1]
  decide
